import Mathlib

/-!
# Network Cloud local agent UI (`agent/ui/app.go`)

A shallow embedding of `app.go` and of the parts of the Go standard library it
calls (`os`, `bytes`, `unicode/utf8`, `encoding/json`, `net/http`), followed by
the theorems that settle the claims of the specification.

Conventions.
* A Go `string` or `[]byte` is a list of bytes (`Bytes`); a byte is a natural
  number below 256.  Values of 256 and above never occur in a well-formed
  input and are treated like any other byte that cannot start a UTF-8 sequence.
* Go functions returning `(T, error)` return `Except GoError T`; functions
  with effects take the world and return the new world as second component.
* Every call into the operating system or the network is appended to the
  world's `log`, so that "which calls happened" is a property of the state.
-/

namespace NetworkCloud

/-! ## Bytes and UTF-8 (`unicode/utf8`, `unicode`, `bytes`) -/

/-- A Go `string` / `[]byte`: a sequence of bytes. -/
abbrev Bytes := List Nat

/-- The bytes of an ASCII string constant. -/
def ascii (s : String) : Bytes := s.toList.map Char.toNat

/-- The replacement rune U+FFFD (`utf8.RuneError`, `unicode.ReplacementChar`). -/
def runeError : Nat := 0xFFFD

/-- Lowest second byte accepted after the first byte `b0` (`utf8.acceptRanges`). -/
def acceptLo (b0 : Nat) : Nat :=
  if b0 = 0xE0 then 0xA0 else if b0 = 0xF0 then 0x90 else 0x80

/-- Highest second byte accepted after the first byte `b0` (`utf8.acceptRanges`). -/
def acceptHi (b0 : Nat) : Nat :=
  if b0 = 0xED then 0x9F else if b0 = 0xF4 then 0x8F else 0xBF

/-- The function `utf8.DecodeRune`: the first rune of `p` and its width in bytes.
An empty input gives `(RuneError, 0)`, an invalid or incomplete encoding
`(RuneError, 1)`. -/
def decodeRune : Bytes → Nat × Nat
  | [] => (runeError, 0)
  | b0 :: rest =>
    if b0 < 0x80 then (b0, 1)
    else if b0 < 0xC2 then (runeError, 1)
    else if b0 < 0xE0 then
      match rest with
      | b1 :: _ =>
        if 0x80 ≤ b1 ∧ b1 ≤ 0xBF then ((b0 - 0xC0) * 0x40 + (b1 - 0x80), 2)
        else (runeError, 1)
      | [] => (runeError, 1)
    else if b0 < 0xF0 then
      match rest with
      | b1 :: b2 :: _ =>
        if acceptLo b0 ≤ b1 ∧ b1 ≤ acceptHi b0 ∧ 0x80 ≤ b2 ∧ b2 ≤ 0xBF then
          ((b0 - 0xE0) * 0x1000 + (b1 - 0x80) * 0x40 + (b2 - 0x80), 3)
        else (runeError, 1)
      | _ => (runeError, 1)
    else if b0 < 0xF5 then
      match rest with
      | b1 :: b2 :: b3 :: _ =>
        if acceptLo b0 ≤ b1 ∧ b1 ≤ acceptHi b0 ∧ 0x80 ≤ b2 ∧ b2 ≤ 0xBF ∧
            0x80 ≤ b3 ∧ b3 ≤ 0xBF then
          ((b0 - 0xF0) * 0x40000 + (b1 - 0x80) * 0x1000 + (b2 - 0x80) * 0x40 + (b3 - 0x80), 4)
        else (runeError, 1)
      | _ => (runeError, 1)
    else (runeError, 1)

/-- The function `utf8.AppendRune` on an empty buffer: the UTF-8 encoding of
`r`; surrogates and values above U+10FFFF encode as U+FFFD. -/
def encodeRune (r : Nat) : Bytes :=
  if r < 0x80 then [r]
  else if r < 0x800 then [0xC0 + r / 0x40, 0x80 + r % 0x40]
  else if (0xD800 ≤ r ∧ r ≤ 0xDFFF) ∨ 0x10FFFF < r then [0xEF, 0xBF, 0xBD]
  else if r < 0x10000 then [0xE0 + r / 0x1000, 0x80 + r / 0x40 % 0x40, 0x80 + r % 0x40]
  else [0xF0 + r / 0x40000, 0x80 + r / 0x1000 % 0x40, 0x80 + r / 0x40 % 0x40, 0x80 + r % 0x40]

/-- Loop of `utf8.Valid`: every decoding step yields a properly encoded rune. -/
def validUTF8Fuel : Nat → Bytes → Bool
  | 0, s => s.isEmpty
  | _ + 1, [] => true
  | fuel + 1, b :: rest =>
    let rs := decodeRune (b :: rest)
    if rs.1 = runeError ∧ rs.2 = 1 then false
    else validUTF8Fuel fuel ((b :: rest).drop rs.2)

/-- The function `utf8.Valid`: `s` consists entirely of valid UTF-8-encoded
runes.  Each step consumes at least one byte, so `s.length` steps suffice. -/
def validUTF8 (s : Bytes) : Bool := validUTF8Fuel s.length s

/-- The function `utf8.RuneStart`: `b` is not a continuation byte. -/
def runeStart (b : Nat) : Bool := !(0x80 ≤ b && b ≤ 0xBF)

/-- Where `utf8.DecodeLastRune` starts decoding in `p`: it walks back from the
last byte over at most three more bytes to the nearest byte that can start a
rune. -/
def lastRuneStart (p : Bytes) : Nat :=
  let stop := p.length
  if 2 ≤ stop ∧ runeStart (p.getD (stop - 2) 0) then stop - 2
  else if 3 ≤ stop ∧ runeStart (p.getD (stop - 3) 0) then stop - 3
  else if 4 ≤ stop ∧ runeStart (p.getD (stop - 4) 0) then stop - 4
  else stop - 5

/-- The function `utf8.DecodeLastRune`: the last rune of `p` and its width. -/
def decodeLastRune (p : Bytes) : Nat × Nat :=
  match p.getLast? with
  | none => (runeError, 0)
  | some b =>
    if b < 0x80 then (b, 1)
    else
      let start := lastRuneStart p
      let rs := decodeRune (p.drop start)
      if start + rs.2 ≠ p.length then (runeError, 1) else rs

/-- The predicate `unicode.IsSpace`. -/
def isSpaceRune (r : Nat) : Bool :=
  r = 0x20 || (0x09 ≤ r && r ≤ 0x0D) || r = 0x85 || r = 0xA0 || r = 0x1680 ||
  (0x2000 ≤ r && r ≤ 0x200A) || r = 0x2028 || r = 0x2029 || r = 0x202F ||
  r = 0x205F || r = 0x3000

/-- Loop of `bytes.TrimLeftFunc(s, unicode.IsSpace)`. -/
def trimLeftSpaceFuel : Nat → Bytes → Bytes
  | 0, s => s
  | _ + 1, [] => []
  | fuel + 1, b :: rest =>
    let rs := decodeRune (b :: rest)
    if isSpaceRune rs.1 then trimLeftSpaceFuel fuel ((b :: rest).drop rs.2)
    else b :: rest

/-- Loop of `bytes.TrimRightFunc(s, unicode.IsSpace)`. -/
def trimRightSpaceFuel : Nat → Bytes → Bytes
  | 0, s => s
  | fuel + 1, s =>
    if s.isEmpty then []
    else
      let rs := decodeLastRune s
      if isSpaceRune rs.1 then trimRightSpaceFuel fuel (s.take (s.length - rs.2))
      else s

/-- The function `bytes.TrimSpace`: `s` without its leading and trailing white
space, as defined by Unicode.  Every step removes at least one byte, so
`s.length` steps suffice on either side. -/
def trimSpace (s : Bytes) : Bytes :=
  let l := trimLeftSpaceFuel s.length s
  trimRightSpaceFuel l.length l

/-- String comparison `a < b` of Go: lexicographic on bytes. -/
def bytesLt : Bytes → Bytes → Bool
  | [], [] => false
  | [], _ :: _ => true
  | _ :: _, [] => false
  | a :: as, b :: bs => if a < b then true else if b < a then false else bytesLt as bs

/-! ## JSON values and errors (`encoding/json`) -/

/-- The errors `encoding/json` and its readers report. -/
inductive JsonError
  /-- `*json.SyntaxError`: the text is not JSON (also "unexpected end of JSON input"). -/
  | malformed
  /-- `*json.UnmarshalTypeError`: a JSON value does not fit the Go type. -/
  | typeMismatch
  /-- `io.EOF` from `Decoder.Decode`: the stream holds no value at all. -/
  | eof
  /-- `io.ErrUnexpectedEOF` from `Decoder.Decode`: the stream ends inside a value. -/
  | unexpectedEOF
  /-- `*json.UnsupportedTypeError` and friends from `json.Marshal`. -/
  | unsupported
  deriving DecidableEq, Repr

/-- A parsed JSON value.  Strings are held unquoted, numbers as their literal. -/
inductive JValue
  | null
  | bool (b : Bool)
  | num (lit : Bytes)
  | str (s : Bytes)
  | arr (elems : List JValue)
  | obj (members : List (Bytes × JValue))

/-- Value of a hexadecimal digit. -/
def hexVal (c : Nat) : Option Nat :=
  if 0x30 ≤ c ∧ c ≤ 0x39 then some (c - 0x30)
  else if 0x61 ≤ c ∧ c ≤ 0x66 then some (c - 0x61 + 10)
  else if 0x41 ≤ c ∧ c ≤ 0x46 then some (c - 0x41 + 10)
  else none

/-- The function `getu4` of `encoding/json`: the code unit of a `\uXXXX` escape
at the beginning of `s`, if there is one. -/
def getu4 : Bytes → Option Nat
  | b :: u :: h1 :: h2 :: h3 :: h4 :: _ =>
    if b = 0x5C ∧ u = 0x75 then
      match hexVal h1, hexVal h2, hexVal h3, hexVal h4 with
      | some a, some b, some c, some d => some (a * 0x1000 + b * 0x100 + c * 0x10 + d)
      | _, _, _, _ => none
    else none
  | _ => none

/-- The function `utf16.DecodeRune`: the rune of a surrogate pair, U+FFFD when
the pair is not valid. -/
def utf16DecodeRune (r1 r2 : Nat) : Nat :=
  if 0xD800 ≤ r1 ∧ r1 < 0xDC00 ∧ 0xDC00 ≤ r2 ∧ r2 < 0xE000 then
    (r1 - 0xD800) * 0x400 + (r2 - 0xDC00) + 0x10000
  else runeError

/-- The byte a one-letter escape stands for (`unquoteBytes`). -/
def unescapeByte (e : Nat) : Option Nat :=
  if e = 0x22 ∨ e = 0x5C ∨ e = 0x2F ∨ e = 0x27 then some e
  else if e = 0x62 then some 0x08
  else if e = 0x66 then some 0x0C
  else if e = 0x6E then some 0x0A
  else if e = 0x72 then some 0x0D
  else if e = 0x74 then some 0x09
  else none

/-- Loop of `unquoteBytes` over the text between the quotes of a string
literal: escapes are resolved, surrogate pairs combined, and bytes that are
not valid UTF-8 replaced by U+FFFD. -/
def unquoteFuel : Nat → Bytes → Option Bytes
  | 0, s => if s.isEmpty then some [] else none
  | _ + 1, [] => some []
  | fuel + 1, c :: rest =>
    if c = 0x5C then
      match rest with
      | [] => none
      | e :: rest1 =>
        if e = 0x75 then
          match getu4 (c :: rest) with
          | none => none
          | some rr =>
            let rest2 := rest1.drop 4
            if 0xD800 ≤ rr ∧ rr < 0xE000 then
              match getu4 rest2 with
              | some rr1 =>
                if utf16DecodeRune rr rr1 ≠ runeError then
                  (unquoteFuel fuel (rest2.drop 6)).map
                    (fun t => encodeRune (utf16DecodeRune rr rr1) ++ t)
                else (unquoteFuel fuel rest2).map (fun t => encodeRune runeError ++ t)
              | none => (unquoteFuel fuel rest2).map (fun t => encodeRune runeError ++ t)
            else (unquoteFuel fuel rest2).map (fun t => encodeRune rr ++ t)
        else
          match unescapeByte e with
          | none => none
          | some b => (unquoteFuel fuel rest1).map (fun t => b :: t)
    else if c = 0x22 ∨ c < 0x20 then none
    else if c < 0x80 then (unquoteFuel fuel rest).map (fun t => c :: t)
    else
      let rs := decodeRune (c :: rest)
      (unquoteFuel fuel ((c :: rest).drop rs.2)).map (fun t => encodeRune rs.1 ++ t)

/-- The function `unquoteBytes` on the inside of a string literal.  Each step
consumes at least one byte, so `s.length` steps suffice. -/
def unquote (s : Bytes) : Option Bytes := unquoteFuel s.length s

/-- The predicate `isSpace` of the JSON scanner: space, tab, CR, LF. -/
def isSpaceByte (c : Nat) : Bool := c = 0x20 || c = 0x09 || c = 0x0D || c = 0x0A

/-- The step function the scanner is in (`scanner.step`), together with the
text of the literal being read. -/
inductive Mode
  | beginValue
  | beginValueOrEmpty
  | beginStringOrEmpty
  | beginString
  | endValue
  | endTop
  | inString (raw : Bytes)
  | inStringEsc (raw : Bytes)
  | inStringEscU (raw : Bytes) (seen : Nat)
  | neg (lit : Bytes)
  | zero (lit : Bytes)
  | digits (lit : Bytes)
  | dot (lit : Bytes)
  | dot0 (lit : Bytes)
  | expo (lit : Bytes)
  | expoSign (lit : Bytes)
  | expo0 (lit : Bytes)
  | word (expect : Bytes) (v : JValue)
  | failed

/-- An entry of the scanner's `parseState` stack: the array or object being
read, with what has been read of it.  An object frame holds the key of the
member whose value is awaited. -/
inductive Frame
  | arr (elems : List JValue)
  | obj (members : List (Bytes × JValue)) (key : Option Bytes)

/-- The JSON scanner of `encoding/json` (`scanner.go`) together with the
values built so far.  `top` is the completed top-level value. -/
structure Scanner where
  mode : Mode
  stack : List Frame
  top : Option JValue

/-- The limit `maxNestingDepth` of the scanner. -/
def maxNestingDepth : Nat := 10000

/-- The scanner after `reset`. -/
def Scanner.initial : Scanner := { mode := .beginValue, stack := [], top := none }

/-- The scanner after an error (`scanner.error`). -/
def Scanner.fail (st : Scanner) : Scanner := { st with mode := .failed }

/-- Whether the scanner has reported an error. -/
def Scanner.isFailed (st : Scanner) : Bool :=
  match st.mode with
  | .failed => true
  | _ => false

/-- A value is complete: it becomes an element of the enclosing array, a key
or a member value of the enclosing object, or the top-level value. -/
def deliver (v : JValue) (st : Scanner) : Scanner :=
  match st.stack with
  | [] => { mode := .endTop, stack := [], top := some v }
  | .arr es :: s => { st with mode := .endValue, stack := .arr (es ++ [v]) :: s }
  | .obj ms none :: s =>
    match v with
    | .str k => { st with mode := .endValue, stack := .obj ms (some k) :: s }
    | _ => st.fail
  | .obj ms (some k) :: s =>
    { st with mode := .endValue, stack := .obj (ms ++ [(k, v)]) none :: s }

/-- Entering an array or object (`pushParseState`). -/
def pushFrame (f : Frame) (m : Mode) (st : Scanner) : Scanner :=
  if st.stack.length + 1 ≤ maxNestingDepth then { st with mode := m, stack := f :: st.stack }
  else st.fail

/-- The scanner functions `stateEndValue` and `stateEndTop`: after a value. -/
def stepEndValue (st : Scanner) (c : Nat) : Scanner :=
  match st.stack with
  | [] => if isSpaceByte c then { st with mode := .endTop } else st.fail
  | .obj _ (some _) :: _ =>
    if isSpaceByte c then { st with mode := .endValue }
    else if c = 0x3A then { st with mode := .beginValue }
    else st.fail
  | .obj ms none :: s =>
    if isSpaceByte c then { st with mode := .endValue }
    else if c = 0x2C then { st with mode := .beginString }
    else if c = 0x7D then deliver (.obj ms) { st with stack := s }
    else st.fail
  | .arr es :: s =>
    if isSpaceByte c then { st with mode := .endValue }
    else if c = 0x2C then { st with mode := .beginValue }
    else if c = 0x5D then deliver (.arr es) { st with stack := s }
    else st.fail

/-- The scanner function `stateBeginValue`. -/
def stepBeginValue (st : Scanner) (c : Nat) : Scanner :=
  if isSpaceByte c then st
  else if c = 0x7B then pushFrame (.obj [] none) .beginStringOrEmpty st
  else if c = 0x5B then pushFrame (.arr []) .beginValueOrEmpty st
  else if c = 0x22 then { st with mode := .inString [] }
  else if c = 0x2D then { st with mode := .neg [c] }
  else if c = 0x30 then { st with mode := .zero [c] }
  else if c = 0x74 then { st with mode := .word (ascii "rue") (.bool true) }
  else if c = 0x66 then { st with mode := .word (ascii "alse") (.bool false) }
  else if c = 0x6E then { st with mode := .word (ascii "ull") .null }
  else if 0x31 ≤ c ∧ c ≤ 0x39 then { st with mode := .digits [c] }
  else st.fail

/-- The scanner function `stateBeginString`. -/
def stepBeginString (st : Scanner) (c : Nat) : Scanner :=
  if isSpaceByte c then st
  else if c = 0x22 then { st with mode := .inString [] }
  else st.fail

/-- A byte that ends a number literal: the number is complete and the byte is
handled by `stateEndValue`. -/
def endNumber (lit : Bytes) (st : Scanner) (c : Nat) : Scanner :=
  stepEndValue (deliver (.num lit) st) c

/-- One step of the scanner on the byte `c`. -/
def step (st : Scanner) (c : Nat) : Scanner :=
  match st.mode with
  | .failed => st
  | .endTop => stepEndValue st c
  | .endValue => stepEndValue st c
  | .beginValue => stepBeginValue st c
  | .beginValueOrEmpty =>
    if isSpaceByte c then st
    else if c = 0x5D then stepEndValue st c
    else stepBeginValue st c
  | .beginStringOrEmpty =>
    if isSpaceByte c then st
    else if c = 0x7D then stepEndValue st c
    else stepBeginString st c
  | .beginString => stepBeginString st c
  | .inString raw =>
    if c = 0x22 then
      match unquote raw with
      | some s => deliver (.str s) st
      | none => st.fail
    else if c = 0x5C then { st with mode := .inStringEsc (raw ++ [c]) }
    else if c < 0x20 then st.fail
    else { st with mode := .inString (raw ++ [c]) }
  | .inStringEsc raw =>
    if c = 0x62 ∨ c = 0x66 ∨ c = 0x6E ∨ c = 0x72 ∨ c = 0x74 ∨ c = 0x5C ∨ c = 0x2F ∨ c = 0x22 then
      { st with mode := .inString (raw ++ [c]) }
    else if c = 0x75 then { st with mode := .inStringEscU (raw ++ [c]) 0 }
    else st.fail
  | .inStringEscU raw seen =>
    if (hexVal c).isSome then
      if seen < 3 then { st with mode := .inStringEscU (raw ++ [c]) (seen + 1) }
      else { st with mode := .inString (raw ++ [c]) }
    else st.fail
  | .neg lit =>
    if c = 0x30 then { st with mode := .zero (lit ++ [c]) }
    else if 0x31 ≤ c ∧ c ≤ 0x39 then { st with mode := .digits (lit ++ [c]) }
    else st.fail
  | .digits lit =>
    if 0x30 ≤ c ∧ c ≤ 0x39 then { st with mode := .digits (lit ++ [c]) }
    else if c = 0x2E then { st with mode := .dot (lit ++ [c]) }
    else if c = 0x65 ∨ c = 0x45 then { st with mode := .expo (lit ++ [c]) }
    else endNumber lit st c
  | .zero lit =>
    if c = 0x2E then { st with mode := .dot (lit ++ [c]) }
    else if c = 0x65 ∨ c = 0x45 then { st with mode := .expo (lit ++ [c]) }
    else endNumber lit st c
  | .dot lit =>
    if 0x30 ≤ c ∧ c ≤ 0x39 then { st with mode := .dot0 (lit ++ [c]) }
    else st.fail
  | .dot0 lit =>
    if 0x30 ≤ c ∧ c ≤ 0x39 then { st with mode := .dot0 (lit ++ [c]) }
    else if c = 0x65 ∨ c = 0x45 then { st with mode := .expo (lit ++ [c]) }
    else endNumber lit st c
  | .expo lit =>
    if c = 0x2B ∨ c = 0x2D then { st with mode := .expoSign (lit ++ [c]) }
    else if 0x30 ≤ c ∧ c ≤ 0x39 then { st with mode := .expo0 (lit ++ [c]) }
    else st.fail
  | .expoSign lit =>
    if 0x30 ≤ c ∧ c ≤ 0x39 then { st with mode := .expo0 (lit ++ [c]) }
    else st.fail
  | .expo0 lit =>
    if 0x30 ≤ c ∧ c ≤ 0x39 then { st with mode := .expo0 (lit ++ [c]) }
    else endNumber lit st c
  | .word expect v =>
    match expect with
    | [] => st.fail
    | e :: more =>
      if c = e then
        if more.isEmpty then deliver v st else { st with mode := .word more v }
      else st.fail

/-- The scanner run over a sequence of bytes. -/
def scan (st : Scanner) (data : Bytes) : Scanner := data.foldl step st

/-- The value of a complete JSON text, as `json.Unmarshal` reads it: the scanner
checks the whole input (`checkValid`), the end of input acting like a space
(`scanner.eof`); anything but one value surrounded by white space is a
`SyntaxError`. -/
def parseJSON (data : Bytes) : Except JsonError JValue :=
  let st := step (scan .initial data) 0x20
  match st.mode, st.top with
  | .endTop, some v => .ok v
  | _, _ => .error .malformed

/-- Loop of `Decoder.readValue`: bytes are scanned until the first value is
complete; what follows it is left in the stream. -/
def readValue (all : Bytes) : Scanner → Bytes → Except JsonError JValue
  | st, [] =>
    match (step st 0x20).top with
    | some v => .ok v
    | none => if all.all isSpaceByte then .error .eof else .error .unexpectedEOF
  | st, c :: rest =>
    match (step st c).top with
    | some v => .ok v
    | none => if (step st c).isFailed then .error .malformed else readValue all (step st c) rest

/-- The first JSON value of a stream, as `json.NewDecoder(r).Decode` reads it. -/
def parseFirstJSON (data : Bytes) : Except JsonError JValue := readValue data .initial data

/-! ## Encoding strings and string maps (`json.MarshalIndent`) -/

/-- A Go `map[string]string`: the nil map, or a finite map given by its
entries.  A Go map has no order of its own; it is represented by the list of
its entries in strictly ascending key order (`sortedKeys`).  Any list of
entries denotes the map in which a later entry overrides an earlier one with
the same key, and `canonical` gives the representation of that map. -/
inductive GoMap
  | nil
  | mk (entries : List (Bytes × Bytes))
  deriving DecidableEq

/-- Assignment `m[k] = v` on a canonical entry list. -/
def insertEntry (k v : Bytes) : List (Bytes × Bytes) → List (Bytes × Bytes)
  | [] => [(k, v)]
  | (k1, v1) :: t =>
    if k = k1 then (k, v) :: t
    else if bytesLt k k1 then (k, v) :: (k1, v1) :: t
    else (k1, v1) :: insertEntry k v t

/-- The canonical entry list of the map a list of entries denotes: one entry
per key, keys ascending. -/
def canonical (es : List (Bytes × Bytes)) : List (Bytes × Bytes) :=
  es.foldl (fun acc e => insertEntry e.1 e.2 acc) []

/-- The entry list is canonical: keys strictly ascending. -/
def sortedKeys (es : List (Bytes × Bytes)) : Prop :=
  es.Pairwise (fun a b => bytesLt a.1 b.1 = true)

/-- The table `hex` of `encoding/json`: a lower-case hexadecimal digit. -/
def hexDigit (n : Nat) : Nat := if n < 10 then 0x30 + n else 0x61 + (n - 10)

/-- The table `htmlSafeSet`: ASCII bytes that `json.Marshal` copies unescaped;
all others are control characters, the quote, the backslash, and the
characters `<`, `>`, `&`. -/
def htmlSafe (b : Nat) : Bool :=
  0x20 ≤ b && b ≠ 0x22 && b ≠ 0x5C && b ≠ 0x3C && b ≠ 0x3E && b ≠ 0x26

/-- The escape sequence `appendString` writes for an ASCII byte outside
`htmlSafeSet`. -/
def escapeByte (b : Nat) : Bytes :=
  if b = 0x5C ∨ b = 0x22 then [0x5C, b]
  else if b = 0x08 then [0x5C, 0x62]
  else if b = 0x0C then [0x5C, 0x66]
  else if b = 0x0A then [0x5C, 0x6E]
  else if b = 0x0D then [0x5C, 0x72]
  else if b = 0x09 then [0x5C, 0x74]
  else [0x5C, 0x75, 0x30, 0x30, hexDigit (b / 16), hexDigit (b % 16)]

/-- Loop of `appendString` with `escapeHTML` set: the inside of the JSON
string literal for `s`.  Bytes that are not valid UTF-8 are written as
the six characters `\ufffd`; U+2028 and U+2029 are escaped. -/
def appendStringFuel : Nat → Bytes → Bytes
  | 0, _ => []
  | _ + 1, [] => []
  | fuel + 1, b :: rest =>
    if b < 0x80 then
      (if htmlSafe b then [b] else escapeByte b) ++ appendStringFuel fuel rest
    else
      let rs := decodeRune (b :: rest)
      if rs.1 = runeError ∧ rs.2 = 1 then
        [0x5C, 0x75, 0x66, 0x66, 0x66, 0x64] ++ appendStringFuel fuel rest
      else if rs.1 = 0x2028 ∨ rs.1 = 0x2029 then
        [0x5C, 0x75, 0x32, 0x30, 0x32, hexDigit (rs.1 % 16)] ++
          appendStringFuel fuel ((b :: rest).drop rs.2)
      else (b :: rest).take rs.2 ++ appendStringFuel fuel ((b :: rest).drop rs.2)

/-- The function `appendString` of `encoding/json`: the JSON string literal
for the Go string `s`. -/
def appendString (s : Bytes) : Bytes := [0x22] ++ appendStringFuel s.length s ++ [0x22]

/-- One member of an indented object: `"key": "value"`. -/
def encodeMember (e : Bytes × Bytes) : Bytes :=
  appendString e.1 ++ [0x3A, 0x20] ++ appendString e.2

/-- What follows the first member of an indented object: each further member
on a line of its own after a comma. -/
def encodeMoreMembers : List (Bytes × Bytes) → Bytes
  | [] => []
  | e :: es => [0x2C, 0x0A, 0x20, 0x20] ++ encodeMember e ++ encodeMoreMembers es

/-- The call `json.MarshalIndent(groups, "", "  ")` for a `map[string]string`:
`null` for the nil map, `{}` for the empty map, else one member a line,
indented by two spaces, keys in ascending order.  It cannot fail. -/
def marshalIndentGroups : GoMap → Except JsonError Bytes
  | .nil => .ok (ascii "null")
  | .mk es =>
    match canonical es with
    | [] => .ok [0x7B, 0x7D]
    | e :: more =>
      .ok ([0x7B, 0x0A, 0x20, 0x20] ++ encodeMember e ++ encodeMoreMembers more ++ [0x0A, 0x7D])

/-! ## Decoding into Go types (`json.Unmarshal`, `Decoder.Decode`) -/

/-- A member value stored into a `map[string]string`: a string is stored, `null`
leaves the zero value, anything else is a type error. -/
def storeMember (acc : List (Bytes × Bytes)) (k : Bytes) : JValue → Except JsonError (List (Bytes × Bytes))
  | .str s => .ok (insertEntry k s acc)
  | .null => .ok (insertEntry k [] acc)
  | _ => .error .typeMismatch

/-- The members of an object stored into a map one after the other. -/
def decodeMembers : List (Bytes × Bytes) → List (Bytes × JValue) → Except JsonError (List (Bytes × Bytes))
  | acc, [] => .ok acc
  | acc, (k, v) :: ms =>
    match storeMember acc k v with
    | .ok acc1 => decodeMembers acc1 ms
    | .error e => .error e

/-- A JSON value decoded into a nil `map[string]string` variable: `null` leaves
it nil, an object fills a fresh map, anything else is a type error. -/
def decodeGroups : JValue → Except JsonError GoMap
  | .null => .ok .nil
  | .obj ms =>
    match decodeMembers [] ms with
    | .ok es => .ok (.mk es)
    | .error e => .error e
  | _ => .error .typeMismatch

/-- The call `json.Unmarshal(data, &groups)` with `groups` a nil
`map[string]string`. -/
def unmarshalGroups (data : Bytes) : Except JsonError GoMap :=
  match parseJSON data with
  | .ok v => decodeGroups v
  | .error e => .error e

/-- The call `json.NewDecoder(body).Decode(&result)` for a result type whose
decoding from a JSON value is `dec`. -/
def decodeJSON {T : Type} (dec : JValue → Except JsonError T) (body : Bytes) : Except JsonError T :=
  match parseFirstJSON body with
  | .ok v => dec v
  | .error e => .error e

/-- Case folding of a rune as far as it can reach an ASCII letter
(`foldRune`): lower-case ASCII letters, U+017F and U+212A. -/
def foldRune (r : Nat) : Nat :=
  if 0x61 ≤ r ∧ r ≤ 0x7A then r - 0x20
  else if r = 0x17F then 0x53
  else if r = 0x212A then 0x4B
  else r

/-- Loop of `foldName`. -/
def foldNameFuel : Nat → Bytes → Bytes
  | 0, _ => []
  | _ + 1, [] => []
  | fuel + 1, b :: rest =>
    let rs := decodeRune (b :: rest)
    encodeRune (foldRune rs.1) ++ foldNameFuel fuel ((b :: rest).drop rs.2)

/-- The function `foldName` of `encoding/json`: the case-folded form under
which an object key is matched against the field names. -/
def foldName (s : Bytes) : Bytes := foldNameFuel s.length s

/-- A struct field as `encoding/json` sees it: its JSON name and how a JSON
value is stored into it. -/
structure Field (T : Type) where
  name : Bytes
  store : T → JValue → Except JsonError T

/-- The field an object key selects: the field of that name, else the first
field whose name equals the key under case folding. -/
def findField {T : Type} (fields : List (Field T)) (key : Bytes) : Option (Field T) :=
  match fields.find? (fun f => f.name = key) with
  | some f => some f
  | none => fields.find? (fun f => foldName f.name = foldName key)

/-- The members of an object stored into a struct one after the other; keys
that select no field are skipped. -/
def decodeFields {T : Type} (fields : List (Field T)) : T → List (Bytes × JValue) → Except JsonError T
  | cur, [] => .ok cur
  | cur, (k, v) :: ms =>
    match findField fields k with
    | none => decodeFields fields cur ms
    | some f =>
      match f.store cur v with
      | .ok next => decodeFields fields next ms
      | .error e => .error e

/-- A JSON value decoded into a struct: `null` leaves it unchanged, an object
sets the fields its keys select, anything else is a type error. -/
def decodeStruct {T : Type} (fields : List (Field T)) (cur : T) : JValue → Except JsonError T
  | .null => .ok cur
  | .obj ms => decodeFields fields cur ms
  | _ => .error .typeMismatch

/-- A JSON value stored into a `string` field. -/
def storeString {T : Type} (set : T → Bytes → T) (cur : T) : JValue → Except JsonError T
  | .str s => .ok (set cur s)
  | .null => .ok cur
  | _ => .error .typeMismatch

/-- A JSON value stored into a `bool` field. -/
def storeBool {T : Type} (set : T → Bool → T) (cur : T) : JValue → Except JsonError T
  | .bool b => .ok (set cur b)
  | .null => .ok cur
  | _ => .error .typeMismatch

/-- The value of a sequence of decimal digits. -/
def digitsValue : Nat → Bytes → Option Nat
  | acc, [] => some acc
  | acc, c :: rest => if 0x30 ≤ c ∧ c ≤ 0x39 then digitsValue (acc * 10 + (c - 0x30)) rest else none

/-- The call `strconv.ParseInt(lit, 10, 64)` on a JSON number literal: an
optional minus sign and digits, within the range of `int64`. -/
def parseInt64 (lit : Bytes) : Option Int :=
  match lit with
  | [] => none
  | c :: rest =>
    if c = 0x2D then
      match rest with
      | [] => none
      | _ :: _ =>
        match digitsValue 0 rest with
        | some n => if n ≤ 2 ^ 63 then some (-(n : Int)) else none
        | none => none
    else
      match digitsValue 0 (c :: rest) with
      | some n => if n < 2 ^ 63 then some (n : Int) else none
      | none => none

/-- A JSON value stored into an `int` field. -/
def storeInt {T : Type} (set : T → Int → T) (cur : T) : JValue → Except JsonError T
  | .num lit =>
    match parseInt64 lit with
    | some n => .ok (set cur n)
    | none => .error .typeMismatch
  | .null => .ok cur
  | _ => .error .typeMismatch

/-- The elements of a JSON array decoded into a slice: element `i` is decoded
into the element the slice already has at `i`, else into a zero value. -/
def decodeElems {E : Type} (elem : E → JValue → Except JsonError E) (zero : E) :
    List E → List JValue → Except JsonError (List E)
  | _, [] => .ok []
  | old, v :: vs =>
    match elem (old.headD zero) v with
    | .error e => .error e
    | .ok x =>
      match decodeElems elem zero old.tail vs with
      | .error e => .error e
      | .ok xs => .ok (x :: xs)

/-- A JSON value stored into a slice field: `null` gives the nil slice. -/
def storeSlice {T E : Type} (elem : E → JValue → Except JsonError E) (zero : E)
    (get : T → List E) (set : T → List E → T) (cur : T) : JValue → Except JsonError T
  | .arr vs =>
    match decodeElems elem zero (get cur) vs with
    | .ok xs => .ok (set cur xs)
    | .error e => .error e
  | .null => .ok (set cur [])
  | _ => .error .typeMismatch

/-- A JSON value stored into a string variable. -/
def stringElem (cur : Bytes) : JValue → Except JsonError Bytes :=
  storeString (fun _ s => s) cur

/-! ## Errors, the file system and the network (`os`, `net/http`) -/

/-- The system error inside an `*fs.PathError`. -/
inductive Errno
  /-- Any error for which `os.IsNotExist` reports true. -/
  | notExist
  | permission
  | isDirectory
  | noSpace
  | other (code : Nat)
  deriving DecidableEq, Repr

/-- Why `http.Client.Do` could not complete an exchange. -/
inductive NetFailure
  | connectionRefused
  | timeout
  | other (code : Nat)
  deriving DecidableEq, Repr

/-- The error values `app.go` can return, by where they are made. -/
inductive GoError
  /-- The value of `fmt.Errorf("APPDATA is not set")`. -/
  | appDataNotSet
  /-- The value of `fmt.Errorf("control api error %d", status)`. -/
  | controlApi (status : Int)
  /-- An `*fs.PathError` of `os.ReadFile`, `os.WriteFile` or `os.MkdirAll`. -/
  | pathError (op : String) (path : String) (errno : Errno)
  /-- The error of `http.NewRequest` for a method that is not a token. -/
  | invalidMethod (method : String)
  /-- The error of `http.NewRequest` for a URL that `url.Parse` rejects. -/
  | invalidURL (url : String)
  /-- The `*url.Error` of `http.Client.Do`: no response was obtained. -/
  | transport (cause : NetFailure)
  /-- An error of `encoding/json`. -/
  | json (e : JsonError)
  deriving DecidableEq, Repr

instance instDecidableEqExcept {ε α : Type} [DecidableEq ε] [DecidableEq α] :
    DecidableEq (Except ε α)
  | .ok a, .ok b => if h : a = b then isTrue (by rw [h]) else isFalse (fun h1 => h (by injection h1))
  | .error a, .error b =>
    if h : a = b then isTrue (by rw [h]) else isFalse (fun h1 => h (by injection h1))
  | .ok _, .error _ => isFalse (fun h => by cases h)
  | .error _, .ok _ => isFalse (fun h => by cases h)

/-- The error taxonomy of the specification. -/
inductive ErrorClass
  | configuration
  | inputOutput
  | serialization
  | transport
  | controlAPI (status : Int)
  | requestConstruction
  deriving DecidableEq, Repr

/-- The class of the taxonomy an error value falls in. -/
def GoError.classify : GoError → ErrorClass
  | .appDataNotSet => .configuration
  | .controlApi s => .controlAPI s
  | .pathError _ _ _ => .inputOutput
  | .invalidMethod _ => .requestConstruction
  | .invalidURL _ => .requestConstruction
  | .transport _ => .transport
  | .json _ => .serialization

/-- The predicate `os.IsNotExist`. -/
def isNotExist : GoError → Bool
  | .pathError _ _ .notExist => true
  | _ => false

/-- An `*http.Request` as far as `app.go` sets it. -/
structure Request where
  method : String
  url : String
  header : List (String × Bytes)
  body : Option Bytes
  deriving DecidableEq

/-- The method `Header.Set`: the value replaces any the key has. -/
def Request.setHeader (req : Request) (key : String) (value : Bytes) : Request :=
  { req with header := req.header.filter (fun kv => kv.1 ≠ key) ++ [(key, value)] }

/-- The method `Header.Get`. -/
def Request.getHeader (req : Request) (key : String) : Option Bytes :=
  (req.header.find? (fun kv => kv.1 = key)).map Prod.snd

/-- An `*http.Response` as far as `app.go` reads it; `body` is what a reader of
`resp.Body` obtains up to its end. -/
structure Response where
  statusCode : Int
  body : Bytes
  deriving DecidableEq

/-- A call into the operating system or the network. -/
inductive Event
  | readFile (path : String)
  | writeFile (path : String) (data : Bytes)
  | mkdirAll (path : String)
  | httpDo (req : Request)
  deriving DecidableEq

/-- The state of the file system as the calls of `app.go` observe it.
* `content path` is the content of the regular file at `path`, if there is one.
* `readFault path` makes `os.ReadFile(path)` fail with that error.
* `mkdirFault path` makes `os.MkdirAll(path, _)` fail with that error.
* `openFault path` makes `os.WriteFile` fail to open `path` for writing.
* `writeFault path = some (n, e)`: a write to the open file stores `n` bytes
  and then fails with `e` (a full disk, a device error).
* `closeFault path` makes closing the written file fail with that error (a
  deferred write error that the system reports at the close). -/
structure FileSystem where
  content : String → Option Bytes
  readFault : String → Option Errno
  mkdirFault : String → Option Errno
  openFault : String → Option Errno
  writeFault : String → Option (Nat × Errno)
  closeFault : String → Option Errno

/-- The world `app.go` runs in: the environment variables (`""` for an unset
one, as `os.Getenv` reports it), the file system, the answer of the network to
a request handed to `http.DefaultClient.Do`, and the calls made so far. -/
structure World where
  env : String → String
  fs : FileSystem
  server : Request → Except NetFailure Response
  log : List Event

/-- What differs between platforms and is taken as given: `filepath.Join`, and
which URLs `url.Parse` rejects. -/
structure Platform where
  join : List String → String
  urlRejected : String → Bool

/-- The outcome of `os.ReadFile(path)`. -/
def FileSystem.read (fs : FileSystem) (path : String) : Except GoError Bytes :=
  match fs.readFault path with
  | some e => .error (.pathError "open" path e)
  | none =>
    match fs.content path with
    | none => .error (.pathError "open" path .notExist)
    | some data => .ok data

/-- The file system with the content of `path` replaced. -/
def FileSystem.store (fs : FileSystem) (path : String) (data : Bytes) : FileSystem :=
  { fs with content := fun p => if p = path then some data else fs.content p }

/-- The end of `os.WriteFile` after a write without error: `f.Close()` is
called and its error, if any, is what `os.WriteFile` returns
(`if err1 := f.Close(); err1 != nil && err == nil`), with the file already
holding `data`. -/
def FileSystem.closeWritten (fs : FileSystem) (path : String) (data : Bytes) :
    Option GoError × FileSystem :=
  match fs.closeFault path with
  | some e => (some (.pathError "close" path e), fs.store path data)
  | none => (none, fs.store path data)

/-- The outcome of `os.WriteFile(path, data, 0644)`: the file is opened with
`O_WRONLY|O_CREATE|O_TRUNC`, which empties it, then written, then closed; a
failing write leaves the bytes stored before the failure and its error is the
one returned, whatever the close reports; after a write without error the
error of the close is returned. -/
def FileSystem.write (fs : FileSystem) (path : String) (data : Bytes) : Option GoError × FileSystem :=
  match fs.openFault path with
  | some e => (some (.pathError "open" path e), fs)
  | none =>
    match fs.writeFault path with
    | some (n, e) =>
      if n < data.length then (some (.pathError "write" path e), fs.store path (data.take n))
      else fs.closeWritten path data
    | none => fs.closeWritten path data

/-- The call `os.ReadFile(path)`. -/
def readFile (path : String) (w : World) : Except GoError Bytes × World :=
  (w.fs.read path, { w with log := w.log ++ [.readFile path] })

/-- The call `os.WriteFile(path, data, 0644)`. -/
def writeFile (path : String) (data : Bytes) (w : World) : Option GoError × World :=
  ((w.fs.write path data).1,
    { w with fs := (w.fs.write path data).2, log := w.log ++ [.writeFile path data] })

/-- The call `os.MkdirAll(path, 0755)`. -/
def mkdirAll (path : String) (w : World) : Option GoError × World :=
  ((w.fs.mkdirFault path).map (fun e => .pathError "mkdir" path e),
    { w with log := w.log ++ [.mkdirAll path] })

/-- The call `http.DefaultClient.Do(req)`. -/
def httpDo (req : Request) (w : World) : Except GoError Response × World :=
  (match w.server req with
    | .ok resp => .ok resp
    | .error cause => .error (.transport cause),
    { w with log := w.log ++ [.httpDo req] })

/-- The characters of an HTTP token other than letters and digits
(`httpguts.IsTokenRune`). -/
def tokenPunctuation : List Nat :=
  [0x21, 0x23, 0x24, 0x25, 0x26, 0x27, 0x2A, 0x2B, 0x2D, 0x2E, 0x5E, 0x5F, 0x60, 0x7C, 0x7E]

/-- The predicate `validMethod` of `net/http`. -/
def validMethod (method : String) : Bool :=
  0 < method.length && method.toList.all (fun c => c.isAlphanum || tokenPunctuation.contains c.toNat)

/-- The call `http.NewRequest(method, url, body)`: an empty method means GET;
the method must be a token and the URL must parse. -/
def newRequest (pf : Platform) (method url : String) (body : Option Bytes) : Except GoError Request :=
  let m := if method = "" then "GET" else method
  if !validMethod m then .error (.invalidMethod m)
  else if pf.urlRejected url then .error (.invalidURL url)
  else .ok { method := m, url := url, header := [], body := body }

/-- A non-nil `payload interface{}`, known by what `json.Marshal` makes of it. -/
structure Payload where
  marshal : Except JsonError Bytes

/-! ## The response types of `app.go` -/

/-- The struct `StatusResponse`. -/
structure StatusResponse where
  State : Bytes
  Linked : Bool
  AgentUUID : Bytes
  ObtainedAt : Bytes
  Message : Bytes
  deriving DecidableEq

/-- The struct `LinkStartResponse`. -/
structure LinkStartResponse where
  VerificationURI : Bytes
  UserCode : Bytes
  ExpiresIn : Int
  Interval : Int
  deriving DecidableEq

/-- The struct `LinkStatusResponse`. -/
structure LinkStatusResponse where
  Status : Bytes
  Error : Bytes
  Message : Bytes
  deriving DecidableEq

/-- The struct `LogsResponse`. -/
structure LogsResponse where
  Lines : List Bytes
  deriving DecidableEq

/-- The struct `AdapterInfo`. -/
structure AdapterInfo where
  Name : Bytes
  Description : Bytes
  Type_ : Bytes
  MACAddress : Bytes
  Connected : Bool
  DHCPEnabled : Bool
  IPv4Address : Bytes
  SubnetMask : Bytes
  DefaultGateway : Bytes
  DHCPServer : Bytes
  DNSServers : List Bytes
  deriving DecidableEq

/-- The struct `NetworkResponse`. -/
structure NetworkResponse where
  Primary : Option AdapterInfo
  Adapters : List AdapterInfo
  deriving DecidableEq

/-- The zero value of `AdapterInfo`. -/
def AdapterInfo.zero : AdapterInfo :=
  { Name := [], Description := [], Type_ := [], MACAddress := [], Connected := false,
    DHCPEnabled := false, IPv4Address := [], SubnetMask := [], DefaultGateway := [],
    DHCPServer := [], DNSServers := [] }

/-- Decoding into a zero `StatusResponse`, by its `json` tags. -/
def decodeStatusResponse : JValue → Except JsonError StatusResponse :=
  decodeStruct
    [ { name := ascii "state", store := storeString (fun r s => { r with State := s }) },
      { name := ascii "linked", store := storeBool (fun r b => { r with Linked := b }) },
      { name := ascii "agentUuid", store := storeString (fun r s => { r with AgentUUID := s }) },
      { name := ascii "obtainedAt", store := storeString (fun r s => { r with ObtainedAt := s }) },
      { name := ascii "message", store := storeString (fun r s => { r with Message := s }) } ]
    { State := [], Linked := false, AgentUUID := [], ObtainedAt := [], Message := [] }

/-- Decoding into a zero `LinkStartResponse`, by its `json` tags. -/
def decodeLinkStartResponse : JValue → Except JsonError LinkStartResponse :=
  decodeStruct
    [ { name := ascii "verificationUri",
        store := storeString (fun r s => { r with VerificationURI := s }) },
      { name := ascii "userCode", store := storeString (fun r s => { r with UserCode := s }) },
      { name := ascii "expiresIn", store := storeInt (fun r n => { r with ExpiresIn := n }) },
      { name := ascii "interval", store := storeInt (fun r n => { r with Interval := n }) } ]
    { VerificationURI := [], UserCode := [], ExpiresIn := 0, Interval := 0 }

/-- Decoding into a zero `LinkStatusResponse`, by its `json` tags. -/
def decodeLinkStatusResponse : JValue → Except JsonError LinkStatusResponse :=
  decodeStruct
    [ { name := ascii "status", store := storeString (fun r s => { r with Status := s }) },
      { name := ascii "error", store := storeString (fun r s => { r with Error := s }) },
      { name := ascii "message", store := storeString (fun r s => { r with Message := s }) } ]
    { Status := [], Error := [], Message := [] }

/-- Decoding into a zero `LogsResponse`, by its `json` tags. -/
def decodeLogsResponse : JValue → Except JsonError LogsResponse :=
  decodeStruct
    [ { name := ascii "lines",
        store := storeSlice stringElem [] (fun r => r.Lines) (fun r xs => { r with Lines := xs }) } ]
    { Lines := [] }

/-- The fields of `AdapterInfo`, by their `json` tags. -/
def adapterInfoFields : List (Field AdapterInfo) :=
  [ { name := ascii "name", store := storeString (fun r s => { r with Name := s }) },
    { name := ascii "description", store := storeString (fun r s => { r with Description := s }) },
    { name := ascii "type", store := storeString (fun r s => { r with Type_ := s }) },
    { name := ascii "macAddress", store := storeString (fun r s => { r with MACAddress := s }) },
    { name := ascii "connected", store := storeBool (fun r b => { r with Connected := b }) },
    { name := ascii "dhcpEnabled", store := storeBool (fun r b => { r with DHCPEnabled := b }) },
    { name := ascii "ipv4Address", store := storeString (fun r s => { r with IPv4Address := s }) },
    { name := ascii "subnetMask", store := storeString (fun r s => { r with SubnetMask := s }) },
    { name := ascii "defaultGateway",
      store := storeString (fun r s => { r with DefaultGateway := s }) },
    { name := ascii "dhcpServer", store := storeString (fun r s => { r with DHCPServer := s }) },
    { name := ascii "dnsServers",
      store := storeSlice stringElem [] (fun r => r.DNSServers)
        (fun r xs => { r with DNSServers := xs }) } ]

/-- A JSON value stored into the field `Primary *AdapterInfo`: `null` sets the
pointer to nil; otherwise the struct pointed to, a new one if the pointer is
nil, is decoded into. -/
def storePrimary (cur : NetworkResponse) : JValue → Except JsonError NetworkResponse
  | .null => .ok { cur with Primary := none }
  | v =>
    match decodeStruct adapterInfoFields (cur.Primary.getD AdapterInfo.zero) v with
    | .ok a => .ok { cur with Primary := some a }
    | .error e => .error e

/-- Decoding into a zero `NetworkResponse`, by its `json` tags. -/
def decodeNetworkResponse : JValue → Except JsonError NetworkResponse :=
  decodeStruct
    [ { name := ascii "primary", store := storePrimary },
      { name := ascii "adapters",
        store := storeSlice (decodeStruct adapterInfoFields) AdapterInfo.zero
          (fun r => r.Adapters) (fun r xs => { r with Adapters := xs }) } ]
    { Primary := none, Adapters := [] }

/-! ## The functions of `app.go` -/

/-- The constant `controlBaseURL`. -/
def controlBaseURL : String := "http://127.0.0.1:17880"

/-- The constant `http.MethodGet`. -/
def MethodGet : String := "GET"

/-- The constant `http.MethodPost`. -/
def MethodPost : String := "POST"

/-- The function `loadControlToken`. -/
def loadControlToken (pf : Platform) (w : World) : Except GoError Bytes × World :=
  let appData := w.env "APPDATA"
  if appData = "" then (.error .appDataNotSet, w)
  else
    let path := pf.join [appData, "NetworkCloud", ".control_token"]
    match readFile path w with
    | (.error err, w1) => (.error err, w1)
    | (.ok data, w1) => (.ok (trimSpace data), w1)

/-- The function `groupsFilePath`. -/
def groupsFilePath (pf : Platform) (w : World) : Except GoError String × World :=
  let appData := w.env "APPDATA"
  if appData = "" then (.error .appDataNotSet, w)
  else
    let configDir := pf.join [appData, "NetworkCloud"]
    match mkdirAll configDir w with
    | (some err, w1) => (.error err, w1)
    | (none, w1) => (.ok (pf.join [configDir, "adapter_groups.json"]), w1)

/-- The method `App.GetAdapterGroups`. -/
def GetAdapterGroups (pf : Platform) (w : World) : Except GoError GoMap × World :=
  match groupsFilePath pf w with
  | (.error err, w1) => (.error err, w1)
  | (.ok path, w1) =>
    match readFile path w1 with
    | (.error err, w2) =>
      if isNotExist err then (.ok (.mk []), w2)
      else (.error err, w2)
    | (.ok data, w2) =>
      if (trimSpace data).length = 0 then (.ok (.mk []), w2)
      else
        match unmarshalGroups data with
        | .error err => (.error (.json err), w2)
        | .ok groups =>
          if groups = .nil then (.ok (.mk []), w2)
          else (.ok groups, w2)

/-- The method `App.SaveAdapterGroups`. -/
def SaveAdapterGroups (pf : Platform) (groups : GoMap) (w : World) : Option GoError × World :=
  match groupsFilePath pf w with
  | (.error err, w1) => (some err, w1)
  | (.ok path, w1) =>
    let groups1 := if groups = .nil then .mk [] else groups
    match marshalIndentGroups groups1 with
    | .error err => (some (.json err), w1)
    | .ok data => writeFile path data w1

/-- The request body `doRequest` builds from its payload: none for a nil
payload, else what `json.Marshal` gives. -/
def encodePayload : Option Payload → Except GoError (Option Bytes)
  | none => .ok none
  | some p =>
    match p.marshal with
    | .ok encoded => .ok (some encoded)
    | .error err => .error (.json err)

/-- The request `doRequest` hands to the HTTP client: built by
`http.NewRequest`, with the token header, and with the content-type header
when there is a payload. -/
def buildRequest (pf : Platform) (method path : String) (payload : Option Payload)
    (token : Bytes) : Except GoError Request :=
  match encodePayload payload with
  | .error err => .error err
  | .ok body =>
    match newRequest pf method (controlBaseURL ++ path) body with
    | .error err => .error err
    | .ok req =>
      let req1 := req.setHeader "X-Control-Token" token
      if payload.isSome then .ok (req1.setHeader "Content-Type" (ascii "application/json"))
      else .ok req1

/-- The function `doRequest[T]`; `dec` decodes a JSON value into a zero `T`. -/
def doRequest {T : Type} (dec : JValue → Except JsonError T) (pf : Platform)
    (method path : String) (payload : Option Payload) (w : World) : Except GoError T × World :=
  match loadControlToken pf w with
  | (.error err, w1) => (.error err, w1)
  | (.ok token, w1) =>
    match buildRequest pf method path payload token with
    | .error err => (.error err, w1)
    | .ok req =>
      match httpDo req w1 with
      | (.error err, w2) => (.error err, w2)
      | (.ok resp, w2) =>
        if resp.statusCode < 200 ∨ resp.statusCode ≥ 300 then
          (.error (.controlApi resp.statusCode), w2)
        else
          match decodeJSON dec resp.body with
          | .error err => (.error (.json err), w2)
          | .ok result => (.ok result, w2)

/-- The method `App.GetStatus`. -/
def GetStatus (pf : Platform) (w : World) : Except GoError StatusResponse × World :=
  doRequest decodeStatusResponse pf MethodGet "/status" none w

/-- The method `App.StartLink`. -/
def StartLink (pf : Platform) (w : World) : Except GoError LinkStartResponse × World :=
  doRequest decodeLinkStartResponse pf MethodPost "/link/start" none w

/-- The method `App.LinkStatus`. -/
def LinkStatus (pf : Platform) (w : World) : Except GoError LinkStatusResponse × World :=
  doRequest decodeLinkStatusResponse pf MethodPost "/link/status" none w

/-- The method `App.Unlink`. -/
def Unlink (pf : Platform) (w : World) : Except GoError LinkStatusResponse × World :=
  doRequest decodeLinkStatusResponse pf MethodPost "/unlink" none w

/-- The method `App.StopService`. -/
def StopService (pf : Platform) (w : World) : Except GoError LinkStatusResponse × World :=
  doRequest decodeLinkStatusResponse pf MethodPost "/stop" none w

/-- The method `App.StartService`. -/
def StartService (pf : Platform) (w : World) : Except GoError LinkStatusResponse × World :=
  doRequest decodeLinkStatusResponse pf MethodPost "/start" none w

/-- The method `App.TailLogs`. -/
def TailLogs (pf : Platform) (w : World) : Except GoError LogsResponse × World :=
  doRequest decodeLogsResponse pf MethodGet "/logs/tail" none w

/-- The method `App.GetNetwork`. -/
def GetNetwork (pf : Platform) (w : World) : Except GoError NetworkResponse × World :=
  doRequest decodeNetworkResponse pf MethodGet "/network" none w

/-! ## Paths and sequences of calls -/

/-- The path of the token file: `<root>/NetworkCloud/.control_token`. -/
def tokenPath (pf : Platform) (w : World) : String :=
  pf.join [w.env "APPDATA", "NetworkCloud", ".control_token"]

/-- The configuration directory: `<root>/NetworkCloud`. -/
def configDir (pf : Platform) (w : World) : String :=
  pf.join [w.env "APPDATA", "NetworkCloud"]

/-- The path of the groups file: `<root>/NetworkCloud/adapter_groups.json`. -/
def groupsPath (pf : Platform) (w : World) : String :=
  pf.join [configDir pf w, "adapter_groups.json"]

/-- The arguments of one control call. -/
structure Call where
  method : String
  path : String
  payload : Option Payload

/-- The world after a control call; the response is decoded as a plain JSON
value (the world after the call does not depend on the result type). -/
def controlCall (pf : Platform) (c : Call) (w : World) : World :=
  (doRequest (fun v => Except.ok v) pf c.method c.path c.payload w).2

/-- One step of a history: a control call, or a change of the file system and
of the service made by someone else between two calls (the service rotating
the token). -/
inductive Step
  | call (c : Call)
  | change (fs : FileSystem) (server : Request → Except NetFailure Response)

/-- The world after a step. -/
def runStep (pf : Platform) (w : World) : Step → World
  | .call c => controlCall pf c w
  | .change fs server => { w with fs := fs, server := server }

/-- The world after a history. -/
def runSteps (pf : Platform) (w : World) (steps : List Step) : World :=
  steps.foldl (runStep pf) w

/-- The calls of a history, each with the world it starts in. -/
def callStates (pf : Platform) : World → List Step → List (World × Call)
  | _, [] => []
  | w, .call c :: rest => (w, c) :: callStates pf (runStep pf w (.call c)) rest
  | w, .change fs server :: rest => callStates pf (runStep pf w (.change fs server)) rest

/-- The number of control calls in a history. -/
def countCalls : List Step → Nat
  | [] => 0
  | .call _ :: rest => countCalls rest + 1
  | .change _ _ :: rest => countCalls rest

/-- How often a log records a read of the file at `path`. -/
def countReads (path : String) (log : List Event) : Nat :=
  log.count (.readFile path)

/-- The requests a log records, in order. -/
def requestsOf : List Event → List Request
  | [] => []
  | .httpDo req :: rest => req :: requestsOf rest
  | _ :: rest => requestsOf rest

/-- The request a facade operation issues: the method, the base URL followed
by the path, the token header and nothing else. -/
def facadeRequest (method path : String) (token : Bytes) : Request :=
  { method := method, url := controlBaseURL ++ path,
    header := [("X-Control-Token", token)], body := none }

/-- The paths of the endpoint table. -/
def endpointPaths : List String :=
  ["/status", "/link/start", "/link/status", "/unlink", "/stop", "/start", "/logs/tail", "/network"]

/-- The response body of the `StartLink` scenario. -/
def linkStartBody : Bytes :=
  ascii "\x7b\"verificationUri\":\"https://x/y\",\"userCode\":\"ABCD-1234\",\"expiresIn\":900,\"interval\":5\x7d"

/-! ## Sample worlds -/

/-- A platform joining path elements with a backslash and accepting every URL. -/
def samplePlatform : Platform :=
  { join := (fun elems => String.intercalate "\\" elems), urlRejected := (fun _ => false) }

/-- A file system holding the given files, with nothing failing. -/
def sampleFS (files : List (String × Bytes)) : FileSystem :=
  { content := (fun p => (files.find? (fun f => f.1 = p)).map Prod.snd),
    readFault := (fun _ => none),
    mkdirFault := (fun _ => none),
    openFault := (fun _ => none),
    writeFault := (fun _ => none),
    closeFault := (fun _ => none) }

/-- A world with `APPDATA` set to `C:\Data`, the given files and a service
that answers every request with `answer`. -/
def sampleWorld (files : List (String × Bytes)) (answer : Except NetFailure Response) : World :=
  { env := (fun k => if k = "APPDATA" then "C:\\Data" else ""),
    fs := sampleFS files,
    server := (fun _ => answer),
    log := [] }

/-- The token file of the sample worlds. -/
def sampleTokenFile : String := "C:\\Data\\NetworkCloud\\.control_token"

/-- The groups file of the sample worlds. -/
def sampleGroupsFile : String := "C:\\Data\\NetworkCloud\\adapter_groups.json"

/-- The JSON value is an object all of whose member values are strings. -/
def isStringObject : JValue → Bool
  | .obj ms => ms.all (fun m => match m.2 with
    | .str _ => true
    | _ => false)
  | _ => false

/-- What the reader makes of the text: `json.Unmarshal` reads it as an object
all of whose member values are strings. -/
def readsStringObject (data : Bytes) : Bool :=
  match parseJSON data with
  | .ok v => isStringObject v
  | .error _ => false

/-- The JSON value is `null` or an object all of whose member values are
strings or `null`. -/
def isGroupsValue : JValue → Bool
  | .null => true
  | .obj ms => ms.all (fun m => match m.2 with
    | .str _ => true
    | .null => true
    | _ => false)
  | _ => false

/-- What the reader makes of the text: `json.Unmarshal` reads it as `null` or
as an object all of whose member values are strings or `null`. -/
def readsGroups (data : Bytes) : Bool :=
  match parseJSON data with
  | .ok v => isGroupsValue v
  | .error _ => false

/-- The bytes `SaveAdapterGroups` hands to `os.WriteFile` for `groups`. -/
def groupsFileContent (groups : GoMap) : Bytes :=
  match marshalIndentGroups (if groups = .nil then .mk [] else groups) with
  | .ok data => data
  | .error _ => []

/-- The sample world with a groups file that can be written but not read (a
file without read permission). -/
def writeOnlyWorld : World :=
  { env := (fun k => if k = "APPDATA" then "C:\\Data" else ""),
    fs :=
      { content := (fun p => if p = sampleGroupsFile then some [] else none),
        readFault := (fun p => if p = sampleGroupsFile then some .permission else none),
        mkdirFault := (fun _ => none),
        openFault := (fun _ => none),
        writeFault := (fun _ => none),
        closeFault := (fun _ => none) },
    server := (fun _ => .error .connectionRefused),
    log := [] }

/-- A map with two entries, one of them with a value that is not ASCII and
needs escaping (`Büro <1>` followed by a line feed). -/
def sampleGroups : GoMap :=
  .mk [(ascii "11:22:33:44:55:66", [0x42, 0xC3, 0xBC, 0x72, 0x6F] ++ ascii " <1>\n"),
       (ascii "AA:BB:CC:DD:EE:FF", ascii "Office")]

/-- The entries of a map; the nil map has none. -/
def GoMap.entries : GoMap → List (Bytes × Bytes)
  | .nil => []
  | .mk es => es

/-- The UTF-8 encoding of a sequence of runes (`[]byte(string(runes))`). -/
def encodeRunes : List Nat → Bytes
  | [] => []
  | r :: rs => encodeRune r ++ encodeRunes rs

/-- A Unicode scalar value: a code point up to U+10FFFF that is no surrogate. -/
def isScalar (r : Nat) : Bool := r < 0xD800 || (0xDFFF < r && r ≤ 0x10FFFF)

/-- Text that neither begins nor ends with white space: it is empty, or it
begins with the encoding of a scalar value that is no white space and ends
with the encoding of one. -/
def TrimmedText (core : Bytes) : Prop :=
  core = [] ∨
  ∃ a z pre post, isScalar a = true ∧ isSpaceRune a = false ∧
    isScalar z = true ∧ isSpaceRune z = false ∧
    core = encodeRune a ++ post ∧ core = pre ++ encodeRune z

/-! ## The grammar of JSON texts for a map of strings (RFC 8259) -/

/-- JSON white space: any number of spaces, tabs, line feeds and carriage
returns. -/
def IsWs (w : Bytes) : Prop := ∀ c ∈ w, c = 0x20 ∨ c = 0x09 ∨ c = 0x0A ∨ c = 0x0D

/-- A hexadecimal digit, in either case. -/
def IsHexDigit (c : Nat) : Prop :=
  (0x30 ≤ c ∧ c ≤ 0x39) ∨ (0x41 ≤ c ∧ c ≤ 0x46) ∨ (0x61 ≤ c ∧ c ≤ 0x66)

/-- One character of a JSON string: a byte from 0x20 up that is neither the
quote nor the backslash; a backslash followed by one of the letters
`" \ / b f n r t`; or a backslash, `u` and four hexadecimal digits.  The
grammar is on bytes: bytes from 0x80 up are taken as they come and need not
form valid UTF-8. -/
inductive IsStringItem : Bytes → Prop
  | plain (c : Nat) : 0x20 ≤ c → c ≠ 0x22 → c ≠ 0x5C → IsStringItem [c]
  | escape (e : Nat) :
    (e = 0x22 ∨ e = 0x5C ∨ e = 0x2F ∨ e = 0x62 ∨ e = 0x66 ∨ e = 0x6E ∨ e = 0x72 ∨ e = 0x74) →
    IsStringItem [0x5C, e]
  | unicode (h1 h2 h3 h4 : Nat) : IsHexDigit h1 → IsHexDigit h2 → IsHexDigit h3 → IsHexDigit h4 →
    IsStringItem [0x5C, 0x75, h1, h2, h3, h4]

/-- The inside of a JSON string literal: a sequence of characters. -/
inductive IsStringBody : Bytes → Prop
  | empty : IsStringBody []
  | item (i rest : Bytes) : IsStringItem i → IsStringBody rest → IsStringBody (i ++ rest)

/-- A JSON string literal: characters between quotes. -/
def IsStringLit (t : Bytes) : Prop := ∃ raw, IsStringBody raw ∧ t = [0x22] ++ raw ++ [0x22]

/-- The value of a member: a string literal, or, where `allowNull` says so,
the literal `null`. -/
def IsMemberValue (allowNull : Bool) (t : Bytes) : Prop :=
  IsStringLit t ∨ (allowNull = true ∧ t = ascii "null")

/-- A member of an object: a string literal as name, a colon, and a value,
with white space allowed on either side of the colon. -/
def IsMember (allowNull : Bool) (t : Bytes) : Prop :=
  ∃ k w1 w2 v, IsStringLit k ∧ IsWs w1 ∧ IsWs w2 ∧ IsMemberValue allowNull v ∧
    t = k ++ w1 ++ [0x3A] ++ w2 ++ v

/-- One or more members separated by commas, with white space allowed around
each member. -/
inductive IsMembers (allowNull : Bool) : Bytes → Prop
  | one (w1 m w2 : Bytes) : IsWs w1 → IsMember allowNull m → IsWs w2 →
    IsMembers allowNull (w1 ++ m ++ w2)
  | more (M w1 m w2 : Bytes) : IsMembers allowNull M → IsWs w1 → IsMember allowNull m →
    IsWs w2 → IsMembers allowNull (M ++ [0x2C] ++ w1 ++ m ++ w2)

/-- A JSON object whose member values are strings (or `null`, where
`allowNull` says so): braces around white space or around members. -/
def IsObjectText (allowNull : Bool) (t : Bytes) : Prop :=
  (∃ w, IsWs w ∧ t = [0x7B] ++ w ++ [0x7D]) ∨
  (∃ M, IsMembers allowNull M ∧ t = [0x7B] ++ M ++ [0x7D])

/-- Well-formed JSON for a string-to-string object, in the words of the
specification: a JSON text (a value with white space allowed around it) whose
value is an object all of whose member values are strings. -/
def StringObjectText (data : Bytes) : Prop :=
  ∃ w1 t w2, IsWs w1 ∧ IsObjectText false t ∧ IsWs w2 ∧ data = w1 ++ t ++ w2

/-- Well-formed JSON for the literal `null` or for an object all of whose
member values are strings or `null`. -/
def GroupsText (data : Bytes) : Prop :=
  ∃ w1 t w2, IsWs w1 ∧ (t = ascii "null" ∨ IsObjectText true t) ∧ IsWs w2 ∧
    data = w1 ++ t ++ w2

/-- A member value as the grammar allows it: a string, or `null` where
`allowNull` says so. -/
def memberOK (allowNull : Bool) (m : Bytes × JValue) : Bool :=
  match m.2 with
  | .str _ => true
  | .null => allowNull
  | _ => false

/-! ## The scanner on texts of that grammar: the states it passes through -/

/-- The scanner inside a string literal: its mode and the text read since the
opening quote, which is a string body, a string body and a backslash, or a
string body, a backslash, `u` and up to three hexadecimal digits. -/
inductive InString : Mode → Bytes → Prop
  | body (raw : Bytes) : IsStringBody raw → InString (.inString raw) raw
  | esc (b : Bytes) : IsStringBody b → InString (.inStringEsc (b ++ [0x5C])) (b ++ [0x5C])
  | escU (b hs : Bytes) : IsStringBody b → hs.length ≤ 3 → (∀ h ∈ hs, IsHexDigit h) →
    InString (.inStringEscU (b ++ [0x5C, 0x75] ++ hs) hs.length) (b ++ [0x5C, 0x75] ++ hs)

/-- The scanner inside the literal `null`: what has been read of it and what
is still expected, neither empty. -/
def InNull (expect pre : Bytes) : Prop :=
  pre ++ expect = ascii "null" ∧ pre ≠ [] ∧ expect ≠ []

/-- Text up to the place of the first member name: the opening brace and white
space. -/
def KeyFirst (p : Bytes) : Prop := ∃ w0 w, IsWs w0 ∧ IsWs w ∧ p = w0 ++ [0x7B] ++ w

/-- Text up to the place of a further member name: members, a comma and white
space. -/
def KeyMore (p : Bytes) : Prop :=
  ∃ w0 M w, IsWs w0 ∧ IsMembers true M ∧ IsWs w ∧ p = w0 ++ [0x7B] ++ M ++ [0x2C] ++ w

/-- Text up to the place of a member name. -/
def KeyPos (p : Bytes) : Prop := KeyFirst p ∨ KeyMore p

/-- Text up to the white space after a member name. -/
def AfterKey (p : Bytes) : Prop :=
  ∃ q k w, KeyPos q ∧ IsStringLit k ∧ IsWs w ∧ p = q ++ k ++ w

/-- Text up to the place of a member value: the colon and white space. -/
def ValPos (p : Bytes) : Prop := ∃ q w, AfterKey q ∧ IsWs w ∧ p = q ++ [0x3A] ++ w

/-- Text up to the white space after a member. -/
def AfterMember (p : Bytes) : Prop :=
  ∃ w0 M, IsWs w0 ∧ IsMembers true M ∧ p = w0 ++ [0x7B] ++ M

/-- The states the scanner passes through on a text of the grammar of
`GroupsText`, each with the text read so far. -/
inductive Flat : Scanner → Bytes → Prop
  | start (p : Bytes) : IsWs p → Flat ⟨.beginValue, [], none⟩ p
  | topNull (w pre e : Bytes) : IsWs w → InNull e pre → Flat ⟨.word e .null, [], none⟩ (w ++ pre)
  | done (v : JValue) (p : Bytes) : isGroupsValue v = true → GroupsText p →
    Flat ⟨.endTop, [], some v⟩ p
  | opened (p : Bytes) : KeyFirst p → Flat ⟨.beginStringOrEmpty, [.obj [] none], none⟩ p
  | comma (ms : List (Bytes × JValue)) (p : Bytes) : isGroupsValue (.obj ms) = true →
    KeyMore p → Flat ⟨.beginString, [.obj ms none], none⟩ p
  | inKey (ms : List (Bytes × JValue)) (m : Mode) (q raw : Bytes) :
    isGroupsValue (.obj ms) = true → KeyPos q → InString m raw →
    Flat ⟨m, [.obj ms none], none⟩ (q ++ [0x22] ++ raw)
  | afterKey (ms : List (Bytes × JValue)) (k p : Bytes) : isGroupsValue (.obj ms) = true →
    AfterKey p → Flat ⟨.endValue, [.obj ms (some k)], none⟩ p
  | colon (ms : List (Bytes × JValue)) (k p : Bytes) : isGroupsValue (.obj ms) = true →
    ValPos p → Flat ⟨.beginValue, [.obj ms (some k)], none⟩ p
  | inVal (ms : List (Bytes × JValue)) (k : Bytes) (m : Mode) (q raw : Bytes) :
    isGroupsValue (.obj ms) = true → ValPos q → InString m raw →
    Flat ⟨m, [.obj ms (some k)], none⟩ (q ++ [0x22] ++ raw)
  | valNull (ms : List (Bytes × JValue)) (k q pre e : Bytes) :
    isGroupsValue (.obj ms) = true → ValPos q → InNull e pre →
    Flat ⟨.word e .null, [.obj ms (some k)], none⟩ (q ++ pre)
  | member (ms : List (Bytes × JValue)) (p : Bytes) : isGroupsValue (.obj ms) = true →
    AfterMember p → Flat ⟨.endValue, [.obj ms none], none⟩ p

/-- The scanner is reading a number or one of the literals `true`, `false`. -/
def scalarMode : Mode → Bool
  | .neg _ => true
  | .zero _ => true
  | .digits _ => true
  | .dot _ => true
  | .dot0 _ => true
  | .expo _ => true
  | .expoSign _ => true
  | .expo0 _ => true
  | .word _ (.bool _) => true
  | _ => false

/-- The scanner is inside a string literal. -/
def stringMode : Mode → Bool
  | .inString _ => true
  | .inStringEsc _ => true
  | .inStringEscU _ _ => true
  | _ => false

/-- A stack of open arrays and objects from which no value of the shape of
`isGroupsValue` can come: its bottom is an array or an object with a member
value that is neither a string nor `null`, or something is open inside the
bottom object. -/
def doomedStack : List Frame → Bool
  | [] => false
  | [.arr _] => true
  | [.obj ms _] => !isGroupsValue (.obj ms)
  | _ :: _ :: _ => true

/-- The states of the scanner from which no text ends in a value of the shape
of `isGroupsValue`: an error, a finished value of another shape, a doomed
stack, a number or boolean as member value or as the whole text, a string as
the whole text. -/
def Dead (st : Scanner) : Prop :=
  st.mode = .failed ∨
  (st.mode = .endTop ∧ st.stack = [] ∧ ∃ v, st.top = some v ∧ isGroupsValue v = false) ∨
  (st.top = none ∧ doomedStack st.stack = true) ∨
  (st.top = none ∧ scalarMode st.mode = true ∧ ∃ ms k, st.stack = [.obj ms (some k)]) ∨
  (st.top = none ∧ st.stack = [] ∧ (scalarMode st.mode || stringMode st.mode) = true)

/-! ## Basic facts about the model -/

theorem read_error_classify (fs : FileSystem) (path : String) (e : GoError)
    (h : fs.read path = .error e) : e.classify = .inputOutput := by
  unfold FileSystem.read at h
  split at h
  · cases h; rfl
  · split at h
    · cases h; rfl
    · cases h

theorem loadControlToken_unset (pf : Platform) (w : World) (h : w.env "APPDATA" = "") :
    loadControlToken pf w = (.error .appDataNotSet, w) := by
  simp [loadControlToken, h]

theorem loadControlToken_set (pf : Platform) (w : World) (h : w.env "APPDATA" ≠ "") :
    loadControlToken pf w =
      (match w.fs.read (tokenPath pf w) with
        | .error e => .error e
        | .ok data => .ok (trimSpace data),
       { w with log := w.log ++ [.readFile (tokenPath pf w)] }) := by
  simp only [loadControlToken, h, if_false, readFile, tokenPath]
  cases w.fs.read (pf.join [w.env "APPDATA", "NetworkCloud", ".control_token"]) <;> rfl

theorem loadControlToken_ok_set (pf : Platform) (w : World) (token : Bytes)
    (h : (loadControlToken pf w).1 = .ok token) : w.env "APPDATA" ≠ "" := by
  intro h0
  rw [loadControlToken_unset pf w h0] at h
  cases h

theorem loadControlToken_world (pf : Platform) (w : World) (token : Bytes)
    (h : (loadControlToken pf w).1 = .ok token) :
    (loadControlToken pf w).2 = { w with log := w.log ++ [.readFile (tokenPath pf w)] } := by
  rw [loadControlToken_set pf w (loadControlToken_ok_set pf w token h)]

/-- What `doRequest` does once the token is loaded and the request built. -/
theorem doRequest_built {T : Type} (dec : JValue → Except JsonError T) (pf : Platform)
    (method path : String) (payload : Option Payload) (w : World) (token : Bytes) (req : Request)
    (htok : (loadControlToken pf w).1 = .ok token)
    (hreq : buildRequest pf method path payload token = .ok req) :
    doRequest dec pf method path payload w =
      (match w.server req with
        | .error cause => .error (.transport cause)
        | .ok resp =>
          if resp.statusCode < 200 ∨ resp.statusCode ≥ 300 then .error (.controlApi resp.statusCode)
          else
            match decodeJSON dec resp.body with
            | .error err => .error (.json err)
            | .ok result => .ok result,
       { w with log := w.log ++ [.readFile (tokenPath pf w), .httpDo req] }) := by
  have hw := loadControlToken_world pf w token htok
  unfold doRequest
  rcases hl : loadControlToken pf w with ⟨r, w1⟩
  rw [hl] at htok hw
  simp only at htok hw
  subst htok hw
  simp only [hreq, httpDo]
  cases hs : w.server req with
  | error cause => simp
  | ok resp =>
    by_cases hc : resp.statusCode < 200 ∨ resp.statusCode ≥ 300
    · simp [hc]
    · simp only [hc, if_false]
      cases decodeJSON dec resp.body <;> simp

/-- C1. Once the token is loaded and the request built, `doRequest` returns
the control-API error carrying the status `s` exactly when the exchange gave
a response whose status `s` is below 200 or at least 300; a failed exchange
gives the transport error, which is no control-API error; and a status in
200..299 never gives a control-API error. -/
theorem C1_status_classification {T : Type} (dec : JValue → Except JsonError T) (pf : Platform)
    (method path : String) (payload : Option Payload) (w : World) (token : Bytes) (req : Request)
    (htok : (loadControlToken pf w).1 = .ok token)
    (hreq : buildRequest pf method path payload token = .ok req) :
    (∀ s : Int, (doRequest dec pf method path payload w).1 = .error (.controlApi s) ↔
      ∃ resp, w.server req = .ok resp ∧ resp.statusCode = s ∧ (s < 200 ∨ s ≥ 300)) ∧
    (∀ s : Int, (GoError.controlApi s).classify = .controlAPI s) ∧
    (∀ cause, w.server req = .error cause →
      (doRequest dec pf method path payload w).1 = .error (.transport cause) ∧
      (GoError.transport cause).classify = .transport ∧
      ∀ s : Int, (doRequest dec pf method path payload w).1 ≠ .error (.controlApi s)) ∧
    (∀ resp, w.server req = .ok resp → 200 ≤ resp.statusCode → resp.statusCode < 300 →
      ∀ s : Int, (doRequest dec pf method path payload w).1 ≠ .error (.controlApi s)) := by
  rw [doRequest_built dec pf method path payload w token req htok hreq]
  refine ⟨?_, fun _ => rfl, ?_, ?_⟩
  · intro s
    cases hs : w.server req with
    | error cause => simp
    | ok resp =>
      by_cases hc : resp.statusCode < 200 ∨ resp.statusCode ≥ 300
      · simp only [hc, if_true, Except.error.injEq, GoError.controlApi.injEq, Except.ok.injEq,
          exists_eq_left']
        constructor
        · intro h; subst h; exact ⟨rfl, hc⟩
        · intro h; exact h.1
      · simp only [hc, if_false, Except.ok.injEq, exists_eq_left']
        constructor
        · intro h
          cases hd : decodeJSON dec resp.body <;> rw [hd] at h <;> simp at h
        · intro h
          exact absurd (h.1 ▸ h.2) hc
  · intro cause hs
    simp [hs, GoError.classify]
  · intro resp hs h1 h2 s
    have hc : ¬ (resp.statusCode < 200 ∨ resp.statusCode ≥ 300) := by omega
    simp only [hs, hc, if_false]
    cases decodeJSON dec resp.body <;> simp

/-- Witness for C1: the service answers 403 to `GET /status`. -/
theorem C1_status_classification_witness :
    (GetStatus samplePlatform (sampleWorld [(sampleTokenFile, ascii "tok-1")]
        (.ok { statusCode := 403, body := [] }))).1 = .error (.controlApi 403) :=
  ((C1_status_classification decodeStatusResponse samplePlatform MethodGet "/status" none
      (sampleWorld [(sampleTokenFile, ascii "tok-1")] (.ok { statusCode := 403, body := [] }))
      (ascii "tok-1")
      { method := "GET", url := "http://127.0.0.1:17880/status",
        header := [("X-Control-Token", ascii "tok-1")], body := none }
      (by decide) (by decide)).1 403).2
    ⟨{ statusCode := 403, body := [] }, rfl, rfl, Or.inr (by decide)⟩

/-- C8. For a response with a status in 200..299 the result of `doRequest`
is the outcome of decoding the body as JSON into the response type: a
decoding failure is returned as a serialization error without a result, a
decoded value is returned as the result.  `StartLink` against a service
answering 200 with the body of the scenario yields that user code, interval,
expiry and verification URI. -/
theorem C8_success_decodes_body :
    (∀ (T : Type) (dec : JValue → Except JsonError T) (pf : Platform) (method path : String)
        (payload : Option Payload) (w : World) (token : Bytes) (req : Request) (resp : Response),
      (loadControlToken pf w).1 = .ok token →
      buildRequest pf method path payload token = .ok req →
      w.server req = .ok resp → 200 ≤ resp.statusCode → resp.statusCode < 300 →
      (∀ e, decodeJSON dec resp.body = .error e →
        (doRequest dec pf method path payload w).1 = .error (.json e) ∧
        (GoError.json e).classify = .serialization) ∧
      (∀ v, decodeJSON dec resp.body = .ok v →
        (doRequest dec pf method path payload w).1 = .ok v)) ∧
    (∀ (pf : Platform) (w : World) (token : Bytes) (req : Request) (resp : Response),
      (loadControlToken pf w).1 = .ok token →
      buildRequest pf MethodPost "/link/start" none token = .ok req →
      w.server req = .ok resp → resp.statusCode = 200 → resp.body = linkStartBody →
      (StartLink pf w).1 = .ok
        { VerificationURI := ascii "https://x/y", UserCode := ascii "ABCD-1234",
          ExpiresIn := 900, Interval := 5 }) := by
  have gen : ∀ (T : Type) (dec : JValue → Except JsonError T) (pf : Platform)
      (method path : String) (payload : Option Payload) (w : World) (token : Bytes)
      (req : Request) (resp : Response),
      (loadControlToken pf w).1 = .ok token →
      buildRequest pf method path payload token = .ok req →
      w.server req = .ok resp → 200 ≤ resp.statusCode → resp.statusCode < 300 →
      (doRequest dec pf method path payload w).1 =
        match decodeJSON dec resp.body with
        | .error err => .error (.json err)
        | .ok result => .ok result := by
    intro T dec pf method path payload w token req resp htok hreq hs h1 h2
    have hc : ¬ (resp.statusCode < 200 ∨ resp.statusCode ≥ 300) := by omega
    rw [doRequest_built dec pf method path payload w token req htok hreq]
    simp only [hs, hc, if_false]
  refine ⟨?_, ?_⟩
  · intro T dec pf method path payload w token req resp htok hreq hs h1 h2
    rw [gen T dec pf method path payload w token req resp htok hreq hs h1 h2]
    exact ⟨fun e he => ⟨by rw [he], rfl⟩, fun v hv => by rw [hv]⟩
  · intro pf w token req resp htok hreq hs hstatus hbody
    have h := gen _ decodeLinkStartResponse pf MethodPost "/link/start" none w token req resp
      htok hreq hs (by omega) (by omega)
    have hdec : decodeJSON decodeLinkStartResponse linkStartBody = .ok
        { VerificationURI := ascii "https://x/y", UserCode := ascii "ABCD-1234",
          ExpiresIn := 900, Interval := 5 } := by decide
    rw [hbody, hdec] at h
    exact h

/-- Witness for C8: a service answering 200 with a body that is not JSON. -/
theorem C8_success_decodes_body_witness :
    (StartLink samplePlatform (sampleWorld [(sampleTokenFile, ascii "tok-1")]
        (.ok { statusCode := 200, body := ascii "<html>" }))).1 = .error (.json .malformed) :=
  ((C8_success_decodes_body.1 _ decodeLinkStartResponse samplePlatform MethodPost "/link/start" none
      (sampleWorld [(sampleTokenFile, ascii "tok-1")]
        (.ok { statusCode := 200, body := ascii "<html>" }))
      (ascii "tok-1") (facadeRequest "POST" "/link/start" (ascii "tok-1"))
      { statusCode := 200, body := ascii "<html>" }
      (by decide) (by decide) rfl (by decide) (by decide)).1 .malformed (by decide)).1

theorem buildRequest_facts (pf : Platform) (method path : String) (payload : Option Payload)
    (token : Bytes) (req : Request) (h : buildRequest pf method path payload token = .ok req) :
    req.url = controlBaseURL ++ path ∧
    req.getHeader "X-Control-Token" = some token ∧
    (req.getHeader "Content-Type" = some (ascii "application/json") ↔ payload.isSome = true) ∧
    (req.getHeader "Content-Type" = none ↔ payload = none) ∧
    (payload = none → req.body = none ∧ req.header = [("X-Control-Token", token)]) := by
  unfold buildRequest at h
  cases hp : encodePayload payload with
  | error e => rw [hp] at h; cases h
  | ok body =>
    rw [hp] at h
    simp only at h
    cases hn : newRequest pf method (controlBaseURL ++ path) body with
    | error e => rw [hn] at h; cases h
    | ok r0 =>
      rw [hn] at h
      simp only at h
      have hr0 : r0.url = controlBaseURL ++ path ∧ r0.header = [] ∧ r0.body = body := by
        unfold newRequest at hn
        simp only at hn
        by_cases h1 : (!validMethod (if method = "" then "GET" else method)) = true
        · rw [if_pos h1] at hn; cases hn
        · rw [if_neg h1] at hn
          by_cases h2 : pf.urlRejected (controlBaseURL ++ path) = true
          · rw [if_pos h2] at hn; cases hn
          · rw [if_neg h2] at hn; cases hn; exact ⟨rfl, rfl, rfl⟩
      obtain ⟨hu, hh, hb⟩ := hr0
      cases payload with
      | none =>
        simp only [Option.isSome_none, Bool.false_eq_true, if_false, Except.ok.injEq] at h
        subst h
        simp only [encodePayload, Except.ok.injEq] at hp
        subst hp
        simp [Request.setHeader, Request.getHeader, hu, hh, hb]
      | some p =>
        simp only [Option.isSome_some, if_true, Except.ok.injEq] at h
        subst h
        simp [Request.setHeader, Request.getHeader, hu, hh]

theorem buildRequest_facade (pf : Platform) (method path : String) (token : Bytes)
    (hm : validMethod method = true) (hne : method ≠ "")
    (hurl : pf.urlRejected (controlBaseURL ++ path) = false) :
    buildRequest pf method path none token = .ok (facadeRequest method path token) := by
  simp [buildRequest, encodePayload, newRequest, hm, hne, hurl, Request.setHeader, facadeRequest]

theorem doRequest_facade {T : Type} (dec : JValue → Except JsonError T) (pf : Platform)
    (method path : String) (w : World) (token : Bytes)
    (htok : (loadControlToken pf w).1 = .ok token)
    (hm : validMethod method = true) (hne : method ≠ "")
    (hurl : pf.urlRejected (controlBaseURL ++ path) = false) :
    (doRequest dec pf method path none w).2.log =
      w.log ++ [.readFile (tokenPath pf w), .httpDo (facadeRequest method path token)] := by
  rw [doRequest_built dec pf method path none w token _ htok
    (buildRequest_facade pf method path token hm hne hurl)]

/-- C9. Each of the eight facade operations is `doRequest` at the method and
path of the endpoint table with no payload; once the token is loaded it makes
exactly two calls, the read of the token file and one request, and that
request has the method of the table, the URL `http://127.0.0.1:17880` followed
by the path, the token in `X-Control-Token` as its only header, and no body.
Every request `doRequest` builds carries the JSON content type exactly when a
payload is present. -/
theorem C9_facade_requests (pf : Platform) (w : World) (token : Bytes)
    (htok : (loadControlToken pf w).1 = .ok token)
    (hurl : ∀ p ∈ endpointPaths, pf.urlRejected (controlBaseURL ++ p) = false) :
    (GetStatus pf w = doRequest decodeStatusResponse pf "GET" "/status" none w ∧
      (GetStatus pf w).2.log =
        w.log ++ [.readFile (tokenPath pf w), .httpDo (facadeRequest "GET" "/status" token)]) ∧
    (StartLink pf w = doRequest decodeLinkStartResponse pf "POST" "/link/start" none w ∧
      (StartLink pf w).2.log =
        w.log ++ [.readFile (tokenPath pf w), .httpDo (facadeRequest "POST" "/link/start" token)]) ∧
    (LinkStatus pf w = doRequest decodeLinkStatusResponse pf "POST" "/link/status" none w ∧
      (LinkStatus pf w).2.log =
        w.log ++ [.readFile (tokenPath pf w), .httpDo (facadeRequest "POST" "/link/status" token)]) ∧
    (Unlink pf w = doRequest decodeLinkStatusResponse pf "POST" "/unlink" none w ∧
      (Unlink pf w).2.log =
        w.log ++ [.readFile (tokenPath pf w), .httpDo (facadeRequest "POST" "/unlink" token)]) ∧
    (StopService pf w = doRequest decodeLinkStatusResponse pf "POST" "/stop" none w ∧
      (StopService pf w).2.log =
        w.log ++ [.readFile (tokenPath pf w), .httpDo (facadeRequest "POST" "/stop" token)]) ∧
    (StartService pf w = doRequest decodeLinkStatusResponse pf "POST" "/start" none w ∧
      (StartService pf w).2.log =
        w.log ++ [.readFile (tokenPath pf w), .httpDo (facadeRequest "POST" "/start" token)]) ∧
    (TailLogs pf w = doRequest decodeLogsResponse pf "GET" "/logs/tail" none w ∧
      (TailLogs pf w).2.log =
        w.log ++ [.readFile (tokenPath pf w), .httpDo (facadeRequest "GET" "/logs/tail" token)]) ∧
    (GetNetwork pf w = doRequest decodeNetworkResponse pf "GET" "/network" none w ∧
      (GetNetwork pf w).2.log =
        w.log ++ [.readFile (tokenPath pf w), .httpDo (facadeRequest "GET" "/network" token)]) ∧
    (∀ (method path : String) (payload : Option Payload) (req : Request),
      buildRequest pf method path payload token = .ok req →
      req.url = controlBaseURL ++ path ∧
      req.getHeader "X-Control-Token" = some token ∧
      (req.getHeader "Content-Type" = some (ascii "application/json") ↔ payload.isSome = true) ∧
      (req.getHeader "Content-Type" = none ↔ payload = none) ∧
      (payload = none → req.body = none ∧ req.header = [("X-Control-Token", token)])) := by
  have hget : validMethod "GET" = true := by decide
  have hpost : validMethod "POST" = true := by decide
  have hg : ("GET" : String) ≠ "" := by decide
  have hp : ("POST" : String) ≠ "" := by decide
  refine ⟨⟨rfl, ?_⟩, ⟨rfl, ?_⟩, ⟨rfl, ?_⟩, ⟨rfl, ?_⟩, ⟨rfl, ?_⟩, ⟨rfl, ?_⟩, ⟨rfl, ?_⟩, ⟨rfl, ?_⟩,
    fun method path payload req h => buildRequest_facts pf method path payload token req h⟩
  · exact doRequest_facade _ pf "GET" "/status" w token htok hget hg (hurl _ (by simp [endpointPaths]))
  · exact doRequest_facade _ pf "POST" "/link/start" w token htok hpost hp
      (hurl _ (by simp [endpointPaths]))
  · exact doRequest_facade _ pf "POST" "/link/status" w token htok hpost hp
      (hurl _ (by simp [endpointPaths]))
  · exact doRequest_facade _ pf "POST" "/unlink" w token htok hpost hp
      (hurl _ (by simp [endpointPaths]))
  · exact doRequest_facade _ pf "POST" "/stop" w token htok hpost hp
      (hurl _ (by simp [endpointPaths]))
  · exact doRequest_facade _ pf "POST" "/start" w token htok hpost hp
      (hurl _ (by simp [endpointPaths]))
  · exact doRequest_facade _ pf "GET" "/logs/tail" w token htok hget hg
      (hurl _ (by simp [endpointPaths]))
  · exact doRequest_facade _ pf "GET" "/network" w token htok hget hg
      (hurl _ (by simp [endpointPaths]))

/-- Witness for C9: the log of `TailLogs` in a world whose token file holds
`tok-1`. -/
theorem C9_facade_requests_witness :
    (TailLogs samplePlatform (sampleWorld [(sampleTokenFile, ascii "tok-1")]
        (.error .connectionRefused))).2.log =
      [.readFile sampleTokenFile,
       .httpDo { method := "GET", url := "http://127.0.0.1:17880/logs/tail",
                 header := [("X-Control-Token", ascii "tok-1")], body := none }] :=
  (C9_facade_requests samplePlatform
    (sampleWorld [(sampleTokenFile, ascii "tok-1")] (.error .connectionRefused)) (ascii "tok-1")
    (by decide) (fun _ _ => rfl)).2.2.2.2.2.2.1.2

theorem groupsFilePath_ok (pf : Platform) (w : World) (hroot : w.env "APPDATA" ≠ "")
    (hdir : w.fs.mkdirFault (configDir pf w) = none) :
    groupsFilePath pf w =
      (.ok (groupsPath pf w), { w with log := w.log ++ [.mkdirAll (configDir pf w)] }) := by
  simp only [groupsFilePath, hroot, if_false, mkdirAll]
  unfold configDir at hdir
  simp only [hdir, Option.map_none']
  rfl

theorem groupsFilePath_fs (pf : Platform) (w : World) : (groupsFilePath pf w).2.fs = w.fs := by
  unfold groupsFilePath
  by_cases h : w.env "APPDATA" = ""
  · simp [h]
  · simp only [h, if_false, mkdirAll]
    cases w.fs.mkdirFault (pf.join [w.env "APPDATA", "NetworkCloud"]) <;> rfl

/-- The result of `GetAdapterGroups` when the data root is set and the
configuration directory can be created, by the outcome of reading the file. -/
theorem GetAdapterGroups_result (pf : Platform) (w : World) (hroot : w.env "APPDATA" ≠ "")
    (hdir : w.fs.mkdirFault (configDir pf w) = none) :
    (GetAdapterGroups pf w).1 =
      match w.fs.read (groupsPath pf w) with
      | .error err => if isNotExist err then .ok (.mk []) else .error err
      | .ok data =>
        if (trimSpace data).length = 0 then .ok (.mk [])
        else
          match unmarshalGroups data with
          | .error err => .error (.json err)
          | .ok groups => if groups = .nil then .ok (.mk []) else .ok groups := by
  unfold GetAdapterGroups
  rw [groupsFilePath_ok pf w hroot hdir]
  simp only [readFile]
  cases w.fs.read (groupsPath pf w) with
  | error err =>
    simp only
    split <;> rfl
  | ok data =>
    simp only
    split
    · rfl
    · cases unmarshalGroups data with
      | error err => rfl
      | ok groups =>
        simp only
        split <;> rfl

theorem isSpaceRune_cases (r : Nat) (h : isSpaceRune r = true) :
    r = 0x20 ∨ (0x09 ≤ r ∧ r ≤ 0x0D) ∨ r = 0x85 ∨ r = 0xA0 ∨ r = 0x1680 ∨
    (0x2000 ≤ r ∧ r ≤ 0x200A) ∨ r = 0x2028 ∨ r = 0x2029 ∨ r = 0x202F ∨ r = 0x205F ∨
    r = 0x3000 := by
  unfold isSpaceRune at h
  simp only [Bool.or_eq_true, Bool.and_eq_true, decide_eq_true_eq] at h
  omega

theorem decodeRune_encodeRune_space (r : Nat) (h : isSpaceRune r = true) (rest : Bytes) :
    1 ≤ (encodeRune r).length ∧
    decodeRune (encodeRune r ++ rest) = (r, (encodeRune r).length) := by
  rcases isSpaceRune_cases r h with h | h | h | h | h | h | h | h | h | h | h
  · subst h; simp [encodeRune, decodeRune]
  · obtain ⟨h1, h2⟩ := h
    interval_cases r <;> simp [encodeRune, decodeRune]
  · subst h; simp [encodeRune, decodeRune]
  · subst h; simp [encodeRune, decodeRune]
  · subst h; simp [encodeRune, decodeRune, acceptLo, acceptHi]
  · obtain ⟨h1, h2⟩ := h
    interval_cases r <;> simp [encodeRune, decodeRune, acceptLo, acceptHi]
  · subst h; simp [encodeRune, decodeRune, acceptLo, acceptHi]
  · subst h; simp [encodeRune, decodeRune, acceptLo, acceptHi]
  · subst h; simp [encodeRune, decodeRune, acceptLo, acceptHi]
  · subst h; simp [encodeRune, decodeRune, acceptLo, acceptHi]
  · subst h; simp [encodeRune, decodeRune, acceptLo, acceptHi]

theorem trimLeftSpaceFuel_spaces (rs : List Nat) :
    ∀ n, (encodeRunes rs).length ≤ n → (∀ r ∈ rs, isSpaceRune r = true) →
      trimLeftSpaceFuel n (encodeRunes rs) = [] := by
  induction rs with
  | nil => intro n _ _; cases n <;> rfl
  | cons r rs ih =>
    intro n hn h
    obtain ⟨h1, h2⟩ := decodeRune_encodeRune_space r (h r (List.mem_cons_self _ _))
      (encodeRunes rs)
    simp only [encodeRunes, List.length_append] at hn ⊢
    obtain ⟨m, rfl⟩ : ∃ m, n = m + 1 := ⟨n - 1, by omega⟩
    cases he : encodeRune r ++ encodeRunes rs with
    | nil =>
      have := congrArg List.length he
      simp only [List.length_append, List.length_nil] at this
      omega
    | cons b t =>
      rw [he] at h2
      simp only [trimLeftSpaceFuel, h2, h (r) (List.mem_cons_self _ _), if_true]
      rw [← he, List.drop_append_eq_append_drop, Nat.sub_self, List.drop_zero,
        List.drop_eq_nil_of_le (le_refl _), List.nil_append]
      exact ih m (by omega) (fun x hx => h x (List.mem_cons_of_mem _ hx))

/-- Content that is nothing but white space is empty after `bytes.TrimSpace`. -/
theorem trimSpace_spaces (rs : List Nat) (h : ∀ r ∈ rs, isSpaceRune r = true) :
    trimSpace (encodeRunes rs) = [] := by
  unfold trimSpace
  rw [trimLeftSpaceFuel_spaces rs _ (le_refl _) h]
  rfl

/-- C4. When the data root is set and the configuration directory can be
created, `GetAdapterGroups` returns the empty map and no error whenever
reading the groups file reports that it does not exist, or yields content
that is empty after trimming white space: no bytes at all, or the encoding of
nothing but white-space characters. -/
theorem C4_missing_or_blank_file (pf : Platform) (w : World) (hroot : w.env "APPDATA" ≠ "")
    (hdir : w.fs.mkdirFault (configDir pf w) = none) :
    (∀ e, w.fs.read (groupsPath pf w) = .error e → isNotExist e = true →
      (GetAdapterGroups pf w).1 = .ok (.mk [])) ∧
    (w.fs.readFault (groupsPath pf w) = none → w.fs.content (groupsPath pf w) = none →
      (GetAdapterGroups pf w).1 = .ok (.mk [])) ∧
    (∀ data, w.fs.read (groupsPath pf w) = .ok data → trimSpace data = [] →
      (GetAdapterGroups pf w).1 = .ok (.mk [])) ∧
    (w.fs.read (groupsPath pf w) = .ok [] → (GetAdapterGroups pf w).1 = .ok (.mk [])) ∧
    (∀ rs : List Nat, (∀ r ∈ rs, isSpaceRune r = true) →
      w.fs.read (groupsPath pf w) = .ok (encodeRunes rs) →
      (GetAdapterGroups pf w).1 = .ok (.mk [])) := by
  rw [GetAdapterGroups_result pf w hroot hdir]
  refine ⟨?_, ?_, ?_, ?_, ?_⟩
  · intro e he hne
    simp only [he, hne, if_true]
  · intro hf hc
    simp only [FileSystem.read, hf, hc, isNotExist, if_true]
  · intro data hd ht
    simp only [hd, ht, List.length_nil, if_true]
  · intro hd
    have ht : trimSpace [] = [] := by decide
    simp only [hd, ht, List.length_nil, if_true]
  · intro rs hrs hd
    simp only [hd, trimSpace_spaces rs hrs, List.length_nil, if_true]

/-- Witness for C4: a groups file holding only white space, some of it not
ASCII (U+00A0, U+2028, U+3000). -/
theorem C4_missing_or_blank_file_witness :
    (GetAdapterGroups samplePlatform
      (sampleWorld [(sampleGroupsFile, ascii " \t\r\n" ++ [0xC2, 0xA0, 0xE2, 0x80, 0xA8, 0xE3, 0x80, 0x80])]
        (.error .connectionRefused))).1 = .ok (.mk []) :=
  (C4_missing_or_blank_file samplePlatform
    (sampleWorld [(sampleGroupsFile, ascii " \t\r\n" ++ [0xC2, 0xA0, 0xE2, 0x80, 0xA8, 0xE3, 0x80, 0x80])]
      (.error .connectionRefused)) (by decide) (by decide)).2.2.1
    (ascii " \t\r\n" ++ [0xC2, 0xA0, 0xE2, 0x80, 0xA8, 0xE3, 0x80, 0x80]) (by decide) (by decide)

theorem decodeMembers_error_iff (ms : List (Bytes × JValue)) :
    ∀ acc, (∃ e, decodeMembers acc ms = .error e) ↔
      (ms.all (fun m => match m.2 with
        | .str _ => true
        | .null => true
        | _ => false)) = false := by
  induction ms with
  | nil => intro acc; simp [decodeMembers]
  | cons m ms ih =>
    intro acc
    obtain ⟨k, v⟩ := m
    cases v <;> simp [decodeMembers, storeMember, ih]

theorem decodeGroups_error_iff (v : JValue) :
    (∃ e, decodeGroups v = .error e) ↔ isGroupsValue v = false := by
  cases v with
  | obj ms =>
    have h := decodeMembers_error_iff ms []
    unfold decodeGroups isGroupsValue
    rw [← h]
    cases hd : decodeMembers [] ms <;> simp [hd]
  | _ => simp [decodeGroups, isGroupsValue]

theorem marshalIndentGroups_ok (groups : GoMap) :
    marshalIndentGroups (if groups = .nil then .mk [] else groups) = .ok (groupsFileContent groups) := by
  unfold groupsFileContent
  cases groups with
  | nil =>
    simp only [if_true]
    unfold marshalIndentGroups
    rfl
  | mk es =>
    have h : ¬ (GoMap.mk es = GoMap.nil) := by intro h; cases h
    simp only [h, if_false]
    simp only [marshalIndentGroups]
    cases canonical es <;> rfl

/-- What `SaveAdapterGroups` does when the data root is set and the
configuration directory can be created. -/
theorem SaveAdapterGroups_write (pf : Platform) (groups : GoMap) (w : World)
    (hroot : w.env "APPDATA" ≠ "") (hdir : w.fs.mkdirFault (configDir pf w) = none) :
    SaveAdapterGroups pf groups w =
      writeFile (groupsPath pf w) (groupsFileContent groups)
        { w with log := w.log ++ [.mkdirAll (configDir pf w)] } := by
  unfold SaveAdapterGroups
  rw [groupsFilePath_ok pf w hroot hdir]
  simp only [marshalIndentGroups_ok]

/-- The four outcomes of `os.WriteFile`: the open fails and nothing changes; a
write fails and a proper initial part of the data is stored; the close fails
with all the data stored; or there is no error and all the data is stored. -/
theorem write_cases (fs : FileSystem) (path : String) (data : Bytes) :
    (∃ e, fs.write path data = (some (.pathError "open" path e), fs)) ∨
    (∃ n e, n < data.length ∧
      fs.write path data = (some (.pathError "write" path e), fs.store path (data.take n))) ∨
    (∃ e, fs.write path data = (some (.pathError "close" path e), fs.store path data)) ∨
    fs.write path data = (none, fs.store path data) := by
  have hclose : (∃ e, fs.closeWritten path data
        = (some (.pathError "close" path e), fs.store path data)) ∨
      fs.closeWritten path data = (none, fs.store path data) := by
    unfold FileSystem.closeWritten
    cases hc : fs.closeFault path with
    | none => exact Or.inr rfl
    | some e => exact Or.inl ⟨e, rfl⟩
  unfold FileSystem.write
  cases ho : fs.openFault path with
  | some eo => exact Or.inl ⟨eo, rfl⟩
  | none =>
    simp only
    cases hwf : fs.writeFault path with
    | none =>
      simp only
      rcases hclose with ⟨e, he⟩ | he
      · exact Or.inr (Or.inr (Or.inl ⟨e, he⟩))
      · exact Or.inr (Or.inr (Or.inr he))
    | some ne =>
      obtain ⟨n, en⟩ := ne
      simp only
      by_cases hn : n < data.length
      · simp only [hn, if_true]
        exact Or.inr (Or.inl ⟨n, en, hn, rfl⟩)
      · simp only [hn, if_false]
        rcases hclose with ⟨e, he⟩ | he
        · exact Or.inr (Or.inr (Or.inl ⟨e, he⟩))
        · exact Or.inr (Or.inr (Or.inr he))

/-- C10. A null map is normalised to the empty map at both ends: whenever
`GetAdapterGroups` returns no error the map it returns is not nil, a groups
file holding the JSON literal `null` yields the empty map, and
`SaveAdapterGroups(nil)` does exactly what `SaveAdapterGroups` of the empty
map does, the content it writes being the JSON object `{}`. -/
theorem C10_null_map_normalised (pf : Platform) (w : World) :
    (∀ m, (GetAdapterGroups pf w).1 = .ok m → m ≠ .nil) ∧
    (w.env "APPDATA" ≠ "" → w.fs.mkdirFault (configDir pf w) = none →
      w.fs.read (groupsPath pf w) = .ok (ascii "null") →
      (GetAdapterGroups pf w).1 = .ok (.mk [])) ∧
    SaveAdapterGroups pf .nil w = SaveAdapterGroups pf (.mk []) w ∧
    groupsFileContent .nil = ascii "\x7b\x7d" ∧
    (w.env "APPDATA" ≠ "" → w.fs.mkdirFault (configDir pf w) = none →
      (SaveAdapterGroups pf .nil w).2.log =
        w.log ++ [.mkdirAll (configDir pf w), .writeFile (groupsPath pf w) (ascii "\x7b\x7d")]) ∧
    ((SaveAdapterGroups pf .nil w).1 = none →
      (SaveAdapterGroups pf .nil w).2.fs.content (groupsPath pf w) = some (ascii "\x7b\x7d")) := by
  have hc : groupsFileContent .nil = ascii "\x7b\x7d" := by decide
  refine ⟨?_, ?_, ?_, hc, ?_, ?_⟩
  · intro m hm hnil
    subst hnil
    unfold GetAdapterGroups at hm
    rcases hg : groupsFilePath pf w with ⟨r, w1⟩
    rw [hg] at hm
    cases r with
    | error err => cases hm
    | ok path =>
      simp only at hm
      rcases hr : readFile path w1 with ⟨r2, w2⟩
      rw [hr] at hm
      cases r2 with
      | error err =>
        simp only at hm
        split at hm <;> cases hm
      | ok data =>
        simp only at hm
        split at hm
        · cases hm
        · cases hu : unmarshalGroups data with
          | error err => rw [hu] at hm; cases hm
          | ok groups =>
            rw [hu] at hm
            simp only at hm
            split at hm
            · cases hm
            · rename_i hg
              simp only [Except.ok.injEq] at hm
              exact hg hm
  · intro hroot hdir hread
    rw [GetAdapterGroups_result pf w hroot hdir, hread]
    decide
  · unfold SaveAdapterGroups
    simp
  · intro hroot hdir
    rw [SaveAdapterGroups_write pf .nil w hroot hdir, hc]
    simp [writeFile]
  · intro hok
    by_cases hroot : w.env "APPDATA" = ""
    · simp [SaveAdapterGroups, groupsFilePath, hroot] at hok
    · by_cases hdir : w.fs.mkdirFault (configDir pf w) = none
      · rw [SaveAdapterGroups_write pf .nil w hroot hdir, hc] at hok ⊢
        simp only [writeFile] at hok ⊢
        rcases write_cases w.fs (groupsPath pf w) (ascii "\x7b\x7d") with
          ⟨eo, hw⟩ | ⟨n, en, hn, hw⟩ | ⟨ec, hw⟩ | hw
        · rw [hw] at hok; cases hok
        · rw [hw] at hok; cases hok
        · rw [hw] at hok; cases hok
        · rw [hw]
          simp [FileSystem.store]
      · unfold configDir at hdir
        cases hm : w.fs.mkdirFault (pf.join [w.env "APPDATA", "NetworkCloud"]) with
        | none => exact absurd hm hdir
        | some em =>
          simp [SaveAdapterGroups, groupsFilePath, hroot, mkdirAll, hm] at hok

/-- Witness for C10: saving the nil map in the sample world leaves `{}` in the
groups file. -/
theorem C10_null_map_normalised_witness :
    (SaveAdapterGroups samplePlatform .nil (sampleWorld [] (.error .connectionRefused))).2.fs.content
      (groupsPath samplePlatform (sampleWorld [] (.error .connectionRefused))) = some (ascii "\x7b\x7d") :=
  (C10_null_map_normalised samplePlatform (sampleWorld [] (.error .connectionRefused))).2.2.2.2.2
    (by decide)

/-- The calls `doRequest` makes when the data root is set: the read of the
token file, and then at most one request, which carries the token just read. -/
theorem doRequest_calls {T : Type} (dec : JValue → Except JsonError T) (pf : Platform)
    (method path : String) (payload : Option Payload) (w : World)
    (hroot : w.env "APPDATA" ≠ "") :
    (doRequest dec pf method path payload w).2 =
        { w with log := w.log ++ [.readFile (tokenPath pf w)] } ∨
    ∃ token req, (loadControlToken pf w).1 = .ok token ∧
      buildRequest pf method path payload token = .ok req ∧
      (doRequest dec pf method path payload w).2 =
        { w with log := w.log ++ [.readFile (tokenPath pf w), .httpDo req] } := by
  cases hl : (loadControlToken pf w).1 with
  | error err =>
    left
    unfold doRequest
    rw [loadControlToken_set pf w hroot] at hl ⊢
    simp only at hl
    cases hr : w.fs.read (tokenPath pf w) with
    | error e => rfl
    | ok data => rw [hr] at hl; cases hl
  | ok token =>
    cases hb : buildRequest pf method path payload token with
    | error err =>
      left
      have hw := loadControlToken_world pf w token hl
      unfold doRequest
      rcases hlt : loadControlToken pf w with ⟨r, w1⟩
      rw [hlt] at hl hw
      simp only at hl hw
      subst hl hw
      simp only [hb]
    | ok req =>
      right
      refine ⟨token, req, rfl, hb, ?_⟩
      rw [doRequest_built dec pf method path payload w token req hl hb]

theorem doRequest_world_independent {T U : Type} (dec : JValue → Except JsonError T)
    (dec1 : JValue → Except JsonError U) (pf : Platform) (method path : String)
    (payload : Option Payload) (w : World) :
    (doRequest dec pf method path payload w).2 = (doRequest dec1 pf method path payload w).2 := by
  by_cases hroot : w.env "APPDATA" = ""
  · simp [doRequest, loadControlToken_unset pf w hroot]
  · cases hl : (loadControlToken pf w).1 with
    | error err =>
      unfold doRequest
      rcases hlt : loadControlToken pf w with ⟨r, w1⟩
      rw [hlt] at hl
      simp only at hl
      subst hl
      rfl
    | ok token =>
      cases hb : buildRequest pf method path payload token with
      | error err =>
        unfold doRequest
        rcases hlt : loadControlToken pf w with ⟨r, w1⟩
        rw [hlt] at hl
        simp only at hl
        subst hl
        simp only [hb]
      | ok req =>
        rw [doRequest_built dec pf method path payload w token req hl hb,
          doRequest_built dec1 pf method path payload w token req hl hb]

theorem controlCall_env (pf : Platform) (c : Call) (w : World) :
    (controlCall pf c w).env = w.env := by
  by_cases hroot : w.env "APPDATA" = ""
  · simp [controlCall, doRequest, loadControlToken_unset pf w hroot]
  · rcases doRequest_calls (fun v => Except.ok v) pf c.method c.path c.payload w hroot with
      h | ⟨_, _, _, _, h⟩ <;> simp only [controlCall, h]

theorem runStep_env (pf : Platform) (w : World) (s : Step) : (runStep pf w s).env = w.env := by
  cases s with
  | call c => exact controlCall_env pf c w
  | change fs server => rfl

theorem controlCall_reads (pf : Platform) (c : Call) (w : World) (hroot : w.env "APPDATA" ≠ "") :
    countReads (tokenPath pf w) (controlCall pf c w).log
      = countReads (tokenPath pf w) w.log + 1 := by
  rcases doRequest_calls (fun v => Except.ok v) pf c.method c.path c.payload w hroot with
    h | ⟨_, _, _, _, h⟩ <;> simp [controlCall, h, countReads, List.count_append]

theorem controlCall_header (pf : Platform) (c : Call) (w : World) (data : Bytes)
    (hroot : w.env "APPDATA" ≠ "") (hread : w.fs.read (tokenPath pf w) = .ok data) :
    (controlCall pf c w).log = w.log ++ [.readFile (tokenPath pf w)] ∨
    ∃ req, (controlCall pf c w).log = w.log ++ [.readFile (tokenPath pf w), .httpDo req] ∧
      req.getHeader "X-Control-Token" = some (trimSpace data) := by
  rcases doRequest_calls (fun v => Except.ok v) pf c.method c.path c.payload w hroot with
    h | ⟨token, req, htok, hb, h⟩
  · left; simp only [controlCall, h]
  · right
    refine ⟨req, by simp only [controlCall, h], ?_⟩
    rw [loadControlToken_set pf w hroot, hread] at htok
    simp only [Except.ok.injEq] at htok
    rw [htok]
    exact (buildRequest_facts pf c.method c.path c.payload token req hb).2.1

theorem tokenPath_congr (pf : Platform) (w w1 : World) (h : w1.env = w.env) :
    tokenPath pf w1 = tokenPath pf w := by
  unfold tokenPath
  rw [h]

theorem runSteps_reads (pf : Platform) (steps : List Step) :
    ∀ w : World, w.env "APPDATA" ≠ "" →
      countReads (tokenPath pf w) (runSteps pf w steps).log
        = countReads (tokenPath pf w) w.log + countCalls steps := by
  induction steps with
  | nil => intro w _; rfl
  | cons s rest ih =>
    intro w hroot
    have henv := runStep_env pf w s
    have hroot1 : (runStep pf w s).env "APPDATA" ≠ "" := by rw [henv]; exact hroot
    have h := ih (runStep pf w s) hroot1
    rw [tokenPath_congr pf w _ henv] at h
    simp only [runSteps, List.foldl_cons] at h ⊢
    rw [h]
    cases s with
    | call c =>
      simp only [runStep, countCalls]
      rw [controlCall_reads pf c w hroot]
      omega
    | change fs server => simp only [runStep, countCalls]

theorem callStates_header (pf : Platform) (steps : List Step) :
    ∀ w : World, w.env "APPDATA" ≠ "" →
      ∀ wc c, (wc, c) ∈ callStates pf w steps →
        tokenPath pf wc = tokenPath pf w ∧
        ∀ data, wc.fs.read (tokenPath pf w) = .ok data →
          (controlCall pf c wc).log = wc.log ++ [.readFile (tokenPath pf w)] ∨
          ∃ req, (controlCall pf c wc).log
              = wc.log ++ [.readFile (tokenPath pf w), .httpDo req] ∧
            req.getHeader "X-Control-Token" = some (trimSpace data) := by
  induction steps with
  | nil => intro w _ wc c hmem; simp [callStates] at hmem
  | cons s rest ih =>
    intro w hroot wc c hmem
    have henv := runStep_env pf w s
    have hroot1 : (runStep pf w s).env "APPDATA" ≠ "" := by rw [henv]; exact hroot
    have hrest := ih (runStep pf w s) hroot1 wc c
    rw [tokenPath_congr pf w _ henv] at hrest
    cases s with
    | call c0 =>
      simp only [callStates, List.mem_cons, Prod.mk.injEq] at hmem
      rcases hmem with ⟨h1, h2⟩ | hmem
      · subst h1 h2
        exact ⟨rfl, fun data hd => controlCall_header pf c wc data hroot hd⟩
      · exact hrest hmem
    | change fs server =>
      simp only [callStates] at hmem
      exact hrest hmem

theorem requestsOf_append (a b : List Event) :
    requestsOf (a ++ b) = requestsOf a ++ requestsOf b := by
  induction a with
  | nil => rfl
  | cons e a ih => cases e <;> simp [requestsOf, ih]

/-- Two calls with the file system changed between them: each request carries
the trimmed content the token file had when its call started. -/
theorem rotation_headers (pf : Platform) (w : World) (c1 c2 : Call) (fs2 : FileSystem)
    (server2 : Request → Except NetFailure Response) (d1 d2 : Bytes) (r1 r2 : Request)
    (hroot : w.env "APPDATA" ≠ "")
    (h1 : w.fs.read (tokenPath pf w) = .ok d1) (h2 : fs2.read (tokenPath pf w) = .ok d2)
    (hreq : requestsOf (runSteps pf w [.call c1, .change fs2 server2, .call c2]).log
      = requestsOf w.log ++ [r1, r2]) :
    r1.getHeader "X-Control-Token" = some (trimSpace d1) ∧
    r2.getHeader "X-Control-Token" = some (trimSpace d2) := by
  have henv : ({ controlCall pf c1 w with fs := fs2, server := server2 } : World).env = w.env :=
    controlCall_env pf c1 w
  have hroot2 : ({ controlCall pf c1 w with fs := fs2, server := server2 } : World).env "APPDATA"
      ≠ "" := by rw [henv]; exact hroot
  have htp := tokenPath_congr pf w _ henv
  have hA := controlCall_header pf c1 w d1 hroot h1
  have hB := controlCall_header pf c2
    { controlCall pf c1 w with fs := fs2, server := server2 } d2 hroot2 (by rw [htp]; exact h2)
  rw [htp] at hB
  simp only [runSteps, List.foldl_cons, List.foldl_nil, runStep] at hreq
  rcases hA with hA | ⟨q1, hA, hq1⟩ <;> rcases hB with hB | ⟨q2, hB, hq2⟩
  · rw [hB, hA] at hreq
    simp [requestsOf_append, requestsOf] at hreq
  · rw [hB, hA] at hreq
    simp [requestsOf_append, requestsOf] at hreq
  · rw [hB, hA] at hreq
    simp [requestsOf_append, requestsOf] at hreq
  · rw [hB, hA] at hreq
    simp only [requestsOf_append, requestsOf, List.append_nil, List.append_assoc,
      List.nil_append, List.append_cancel_left_eq, List.singleton_append, List.cons.injEq,
      and_true] at hreq
    rw [← hreq.1, ← hreq.2]
    exact ⟨hq1, hq2⟩

/-! ## UTF-8: decoding and encoding agree on valid input -/

theorem decodeRune_two (b b1 : Nat) (t : Bytes) (h0 : 0xC2 ≤ b) (h1 : b < 0xE0)
    (h2 : 0x80 ≤ b1) (h3 : b1 ≤ 0xBF) :
    decodeRune (b :: b1 :: t) = ((b - 0xC0) * 0x40 + (b1 - 0x80), 2) := by
  have e1 : ¬ b < 0x80 := by omega
  have e2 : ¬ b < 0xC2 := by omega
  simp only [decodeRune, e1, e2, h1, h2, h3, if_false, if_true, and_self]

theorem decodeRune_three (b b1 b2 : Nat) (t : Bytes) (h0 : 0xE0 ≤ b) (h1 : b < 0xF0)
    (h2 : acceptLo b ≤ b1) (h3 : b1 ≤ acceptHi b) (h4 : 0x80 ≤ b2) (h5 : b2 ≤ 0xBF) :
    decodeRune (b :: b1 :: b2 :: t)
      = ((b - 0xE0) * 0x1000 + (b1 - 0x80) * 0x40 + (b2 - 0x80), 3) := by
  have e1 : ¬ b < 0x80 := by omega
  have e2 : ¬ b < 0xC2 := by omega
  have e3 : ¬ b < 0xE0 := by omega
  simp only [decodeRune, e1, e2, e3, h1, h2, h3, h4, h5, if_false, if_true, and_self]

theorem decodeRune_four (b b1 b2 b3 : Nat) (t : Bytes) (h0 : 0xF0 ≤ b) (h1 : b < 0xF5)
    (h2 : acceptLo b ≤ b1) (h3 : b1 ≤ acceptHi b) (h4 : 0x80 ≤ b2) (h5 : b2 ≤ 0xBF)
    (h6 : 0x80 ≤ b3) (h7 : b3 ≤ 0xBF) :
    decodeRune (b :: b1 :: b2 :: b3 :: t)
      = ((b - 0xF0) * 0x40000 + (b1 - 0x80) * 0x1000 + (b2 - 0x80) * 0x40 + (b3 - 0x80), 4) := by
  have e1 : ¬ b < 0x80 := by omega
  have e2 : ¬ b < 0xC2 := by omega
  have e3 : ¬ b < 0xE0 := by omega
  have e4 : ¬ b < 0xF0 := by omega
  simp only [decodeRune, e1, e2, e3, e4, h1, h2, h3, h4, h5, h6, h7, if_false, if_true, and_self]

/-- The shapes of a successful multi-byte decoding step. -/
theorem decodeRune_shape (b : Nat) (rest : Bytes) (hb : 0x80 ≤ b)
    (hv : ¬ ((decodeRune (b :: rest)).1 = runeError ∧ (decodeRune (b :: rest)).2 = 1)) :
    (∃ b1 t, rest = b1 :: t ∧ 0xC2 ≤ b ∧ b < 0xE0 ∧ 0x80 ≤ b1 ∧ b1 ≤ 0xBF) ∨
    (∃ b1 b2 t, rest = b1 :: b2 :: t ∧ 0xE0 ≤ b ∧ b < 0xF0 ∧ acceptLo b ≤ b1 ∧ b1 ≤ acceptHi b ∧
      0x80 ≤ b2 ∧ b2 ≤ 0xBF) ∨
    (∃ b1 b2 b3 t, rest = b1 :: b2 :: b3 :: t ∧ 0xF0 ≤ b ∧ b < 0xF5 ∧ acceptLo b ≤ b1 ∧
      b1 ≤ acceptHi b ∧ 0x80 ≤ b2 ∧ b2 ≤ 0xBF ∧ 0x80 ≤ b3 ∧ b3 ≤ 0xBF) := by
  have e1 : ¬ b < 0x80 := by omega
  by_cases e2 : b < 0xC2
  · exact absurd (by simp [decodeRune, e1, e2]) hv
  by_cases e3 : b < 0xE0
  · left
    rcases rest with _ | ⟨b1, t⟩
    · exact absurd (by simp [decodeRune, e1, e2, e3]) hv
    · by_cases hc : 0x80 ≤ b1 ∧ b1 ≤ 0xBF
      · exact ⟨b1, t, rfl, by omega, e3, hc.1, hc.2⟩
      · exact absurd (by simp only [decodeRune, e1, e2, e3, hc, if_false, if_true, and_self]) hv
  by_cases e4 : b < 0xF0
  · right; left
    rcases rest with _ | ⟨b1, _ | ⟨b2, t⟩⟩
    · exact absurd (by simp [decodeRune, e1, e2, e3, e4]) hv
    · exact absurd (by simp [decodeRune, e1, e2, e3, e4]) hv
    · by_cases hc : acceptLo b ≤ b1 ∧ b1 ≤ acceptHi b ∧ 0x80 ≤ b2 ∧ b2 ≤ 0xBF
      · exact ⟨b1, b2, t, rfl, by omega, e4, hc.1, hc.2.1, hc.2.2.1, hc.2.2.2⟩
      · exact absurd (by simp only [decodeRune, e1, e2, e3, e4, hc, if_false, if_true, and_self]) hv
  by_cases e5 : b < 0xF5
  · right; right
    rcases rest with _ | ⟨b1, _ | ⟨b2, _ | ⟨b3, t⟩⟩⟩
    · exact absurd (by simp [decodeRune, e1, e2, e3, e4, e5]) hv
    · exact absurd (by simp [decodeRune, e1, e2, e3, e4, e5]) hv
    · exact absurd (by simp [decodeRune, e1, e2, e3, e4, e5]) hv
    · by_cases hc : acceptLo b ≤ b1 ∧ b1 ≤ acceptHi b ∧ 0x80 ≤ b2 ∧ b2 ≤ 0xBF ∧ 0x80 ≤ b3 ∧ b3 ≤ 0xBF
      · exact ⟨b1, b2, b3, t, rfl, by omega, e5, hc.1, hc.2.1, hc.2.2.1, hc.2.2.2.1, hc.2.2.2.2.1,
          hc.2.2.2.2.2⟩
      · exact absurd (by simp only [decodeRune, e1, e2, e3, e4, e5, hc, if_false, if_true, and_self]) hv
  · exact absurd (by simp [decodeRune, e1, e2, e3, e4, e5]) hv
theorem encodeRune_two (b b1 : Nat) (h0 : 0xC2 ≤ b) (h1 : b < 0xE0)
    (h2 : 0x80 ≤ b1) (h3 : b1 ≤ 0xBF) :
    encodeRune ((b - 0xC0) * 0x40 + (b1 - 0x80)) = [b, b1] := by
  have e1 : ¬ (b - 0xC0) * 0x40 + (b1 - 0x80) < 0x80 := by omega
  have e2 : (b - 0xC0) * 0x40 + (b1 - 0x80) < 0x800 := by omega
  have a1 : 0xC0 + ((b - 0xC0) * 0x40 + (b1 - 0x80)) / 0x40 = b := by omega
  have a2 : 0x80 + ((b - 0xC0) * 0x40 + (b1 - 0x80)) % 0x40 = b1 := by omega
  simp only [encodeRune, e1, e2, if_false, if_true, a1, a2]

theorem encodeRune_three (b b1 b2 : Nat) (h0 : 0xE0 ≤ b) (h1 : b < 0xF0)
    (h2 : acceptLo b ≤ b1) (h3 : b1 ≤ acceptHi b) (h4 : 0x80 ≤ b2) (h5 : b2 ≤ 0xBF) :
    encodeRune ((b - 0xE0) * 0x1000 + (b1 - 0x80) * 0x40 + (b2 - 0x80)) = [b, b1, b2] := by
  have hlo : 0x80 ≤ b1 ∧ (b = 0xE0 → 0xA0 ≤ b1) := by
    unfold acceptLo at h2
    split at h2
    · omega
    · split at h2 <;> omega
  have hhi : b1 ≤ 0xBF ∧ (b = 0xED → b1 ≤ 0x9F) := by
    unfold acceptHi at h3
    split at h3
    · omega
    · split at h3 <;> omega
  have e1 : ¬ (b - 0xE0) * 0x1000 + (b1 - 0x80) * 0x40 + (b2 - 0x80) < 0x80 := by omega
  have e2 : ¬ (b - 0xE0) * 0x1000 + (b1 - 0x80) * 0x40 + (b2 - 0x80) < 0x800 := by omega
  have e3 : ¬ ((0xD800 ≤ (b - 0xE0) * 0x1000 + (b1 - 0x80) * 0x40 + (b2 - 0x80) ∧
      (b - 0xE0) * 0x1000 + (b1 - 0x80) * 0x40 + (b2 - 0x80) ≤ 0xDFFF) ∨
      0x10FFFF < (b - 0xE0) * 0x1000 + (b1 - 0x80) * 0x40 + (b2 - 0x80)) := by omega
  have e4 : (b - 0xE0) * 0x1000 + (b1 - 0x80) * 0x40 + (b2 - 0x80) < 0x10000 := by omega
  have a1 : 0xE0 + ((b - 0xE0) * 0x1000 + (b1 - 0x80) * 0x40 + (b2 - 0x80)) / 0x1000 = b := by
    omega
  have a2 : 0x80 + ((b - 0xE0) * 0x1000 + (b1 - 0x80) * 0x40 + (b2 - 0x80)) / 0x40 % 0x40 = b1 := by
    omega
  have a3 : 0x80 + ((b - 0xE0) * 0x1000 + (b1 - 0x80) * 0x40 + (b2 - 0x80)) % 0x40 = b2 := by
    omega
  simp only [encodeRune, e1, e2, e3, e4, if_false, if_true, a1, a2, a3]

theorem encodeRune_four (b b1 b2 b3 : Nat) (h0 : 0xF0 ≤ b) (h1 : b < 0xF5)
    (h2 : acceptLo b ≤ b1) (h3 : b1 ≤ acceptHi b) (h4 : 0x80 ≤ b2) (h5 : b2 ≤ 0xBF)
    (h6 : 0x80 ≤ b3) (h7 : b3 ≤ 0xBF) :
    encodeRune ((b - 0xF0) * 0x40000 + (b1 - 0x80) * 0x1000 + (b2 - 0x80) * 0x40 + (b3 - 0x80))
      = [b, b1, b2, b3] := by
  have hlo : 0x80 ≤ b1 ∧ (b = 0xF0 → 0x90 ≤ b1) := by
    unfold acceptLo at h2
    split at h2
    · omega
    · split at h2 <;> omega
  have hhi : b1 ≤ 0xBF ∧ (b = 0xF4 → b1 ≤ 0x8F) := by
    unfold acceptHi at h3
    split at h3
    · omega
    · split at h3 <;> omega
  have e1 : ¬ (b - 0xF0) * 0x40000 + (b1 - 0x80) * 0x1000 + (b2 - 0x80) * 0x40 + (b3 - 0x80)
      < 0x80 := by omega
  have e2 : ¬ (b - 0xF0) * 0x40000 + (b1 - 0x80) * 0x1000 + (b2 - 0x80) * 0x40 + (b3 - 0x80)
      < 0x800 := by omega
  have e3 : ¬ ((0xD800 ≤ (b - 0xF0) * 0x40000 + (b1 - 0x80) * 0x1000 + (b2 - 0x80) * 0x40
        + (b3 - 0x80) ∧
      (b - 0xF0) * 0x40000 + (b1 - 0x80) * 0x1000 + (b2 - 0x80) * 0x40 + (b3 - 0x80) ≤ 0xDFFF) ∨
      0x10FFFF < (b - 0xF0) * 0x40000 + (b1 - 0x80) * 0x1000 + (b2 - 0x80) * 0x40 + (b3 - 0x80)) := by
    omega
  have e4 : ¬ (b - 0xF0) * 0x40000 + (b1 - 0x80) * 0x1000 + (b2 - 0x80) * 0x40 + (b3 - 0x80)
      < 0x10000 := by omega
  have a1 : 0xF0 + ((b - 0xF0) * 0x40000 + (b1 - 0x80) * 0x1000 + (b2 - 0x80) * 0x40
      + (b3 - 0x80)) / 0x40000 = b := by omega
  have a2 : 0x80 + ((b - 0xF0) * 0x40000 + (b1 - 0x80) * 0x1000 + (b2 - 0x80) * 0x40
      + (b3 - 0x80)) / 0x1000 % 0x40 = b1 := by omega
  have a3 : 0x80 + ((b - 0xF0) * 0x40000 + (b1 - 0x80) * 0x1000 + (b2 - 0x80) * 0x40
      + (b3 - 0x80)) / 0x40 % 0x40 = b2 := by omega
  have a4 : 0x80 + ((b - 0xF0) * 0x40000 + (b1 - 0x80) * 0x1000 + (b2 - 0x80) * 0x40
      + (b3 - 0x80)) % 0x40 = b3 := by omega
  simp only [encodeRune, e1, e2, e3, e4, if_false, if_true, a1, a2, a3, a4]

/-- What a successful multi-byte decoding step provides: the width is within
the input, encoding the rune gives back the bytes decoded, the step depends on
those bytes only, and none of them is ASCII. -/
theorem decodeRune_valid (b : Nat) (rest : Bytes) (hb : 0x80 ≤ b)
    (hv : ¬ ((decodeRune (b :: rest)).1 = runeError ∧ (decodeRune (b :: rest)).2 = 1)) :
    1 ≤ (decodeRune (b :: rest)).2 ∧
    ((b :: rest).take (decodeRune (b :: rest)).2).length = (decodeRune (b :: rest)).2 ∧
    encodeRune (decodeRune (b :: rest)).1 = (b :: rest).take (decodeRune (b :: rest)).2 ∧
    (∀ Y, decodeRune ((b :: rest).take (decodeRune (b :: rest)).2 ++ Y) = decodeRune (b :: rest)) ∧
    (∀ x ∈ (b :: rest).take (decodeRune (b :: rest)).2, 0x80 ≤ x) ∧
    0x80 ≤ (decodeRune (b :: rest)).1 := by
  rcases decodeRune_shape b rest hb hv with
    ⟨b1, t, rfl, h0, h1, h2, h3⟩ | ⟨b1, b2, t, rfl, h0, h1, h2, h3, h4, h5⟩ |
    ⟨b1, b2, b3, t, rfl, h0, h1, h2, h3, h4, h5, h6, h7⟩
  · rw [decodeRune_two b b1 t h0 h1 h2 h3]
    refine ⟨by omega, rfl, encodeRune_two b b1 h0 h1 h2 h3, ?_, ?_, by simp only; omega⟩
    · intro Y; exact decodeRune_two b b1 Y h0 h1 h2 h3
    · intro x hx
      simp only [List.take_succ_cons, List.take_zero, List.mem_cons, List.mem_nil_iff,
        or_false] at hx
      rcases hx with rfl | rfl <;> omega
  · have hlo : 0x80 ≤ b1 := by
      unfold acceptLo at h2
      split at h2
      · omega
      · split at h2 <;> omega
    have hlo2 : b = 0xE0 → 0xA0 ≤ b1 := by
      intro hb0
      unfold acceptLo at h2
      simp only [hb0, if_true] at h2
      exact h2
    rw [decodeRune_three b b1 b2 t h0 h1 h2 h3 h4 h5]
    refine ⟨by omega, rfl, encodeRune_three b b1 b2 h0 h1 h2 h3 h4 h5, ?_, ?_, by simp only; omega⟩
    · intro Y; exact decodeRune_three b b1 b2 Y h0 h1 h2 h3 h4 h5
    · intro x hx
      simp only [List.take_succ_cons, List.take_zero, List.mem_cons, List.mem_nil_iff,
        or_false] at hx
      rcases hx with rfl | rfl | rfl <;> omega
  · have hlo : 0x80 ≤ b1 := by
      unfold acceptLo at h2
      split at h2
      · omega
      · split at h2 <;> omega
    have hlo2 : b = 0xF0 → 0x90 ≤ b1 := by
      intro hb0
      have hlo0 : acceptLo b = 0x90 := by rw [hb0]; decide
      omega
    rw [decodeRune_four b b1 b2 b3 t h0 h1 h2 h3 h4 h5 h6 h7]
    refine ⟨by omega, rfl, encodeRune_four b b1 b2 b3 h0 h1 h2 h3 h4 h5 h6 h7, ?_, ?_,
      by simp only; omega⟩
    · intro Y; exact decodeRune_four b b1 b2 b3 Y h0 h1 h2 h3 h4 h5 h6 h7
    · intro x hx
      simp only [List.take_succ_cons, List.take_zero, List.mem_cons, List.mem_nil_iff,
        or_false] at hx
      rcases hx with rfl | rfl | rfl | rfl <;> omega

/-! ## What `bytes.TrimSpace` removes -/

theorem encodeRune_shape (r : Nat) (hr : isScalar r = true) :
    (r < 0x80 ∧ encodeRune r = [r]) ∨
    (∃ b b1, encodeRune r = [b, b1] ∧ 0xC2 ≤ b ∧ b < 0xE0 ∧ 0x80 ≤ b1 ∧ b1 ≤ 0xBF ∧
      (b - 0xC0) * 0x40 + (b1 - 0x80) = r) ∨
    (∃ b b1 b2, encodeRune r = [b, b1, b2] ∧ 0xE0 ≤ b ∧ b < 0xF0 ∧ acceptLo b ≤ b1 ∧
      b1 ≤ acceptHi b ∧ 0x80 ≤ b1 ∧ b1 ≤ 0xBF ∧ 0x80 ≤ b2 ∧ b2 ≤ 0xBF ∧
      (b - 0xE0) * 0x1000 + (b1 - 0x80) * 0x40 + (b2 - 0x80) = r) ∨
    (∃ b b1 b2 b3, encodeRune r = [b, b1, b2, b3] ∧ 0xF0 ≤ b ∧ b < 0xF5 ∧ acceptLo b ≤ b1 ∧
      b1 ≤ acceptHi b ∧ 0x80 ≤ b1 ∧ b1 ≤ 0xBF ∧ 0x80 ≤ b2 ∧ b2 ≤ 0xBF ∧ 0x80 ≤ b3 ∧ b3 ≤ 0xBF ∧
      (b - 0xF0) * 0x40000 + (b1 - 0x80) * 0x1000 + (b2 - 0x80) * 0x40 + (b3 - 0x80) = r) := by
  unfold isScalar at hr
  simp only [Bool.or_eq_true, Bool.and_eq_true, decide_eq_true_eq] at hr
  by_cases h1 : r < 0x80
  · left
    exact ⟨h1, by simp only [encodeRune, h1, if_true]⟩
  by_cases h2 : r < 0x800
  · right; left
    refine ⟨0xC0 + r / 0x40, 0x80 + r % 0x40, by simp only [encodeRune, h1, h2, if_true, if_false],
      by omega, by omega, by omega, by omega, by omega⟩
  have h3 : ¬ ((0xD800 ≤ r ∧ r ≤ 0xDFFF) ∨ 0x10FFFF < r) := by omega
  by_cases h4 : r < 0x10000
  · right; right; left
    refine ⟨0xE0 + r / 0x1000, 0x80 + r / 0x40 % 0x40, 0x80 + r % 0x40,
      by simp only [encodeRune, h1, h2, h3, h4, if_true, if_false],
      by omega, by omega, ?_, ?_, by omega, by omega, by omega, by omega, by omega⟩
    · unfold acceptLo; split_ifs <;> omega
    · unfold acceptHi; split_ifs <;> omega
  · right; right; right
    refine ⟨0xF0 + r / 0x40000, 0x80 + r / 0x1000 % 0x40, 0x80 + r / 0x40 % 0x40, 0x80 + r % 0x40,
      by simp only [encodeRune, h1, h2, h3, h4, if_true, if_false],
      by omega, by omega, ?_, ?_, by omega, by omega, by omega, by omega, by omega, by omega, by omega⟩
    · unfold acceptLo; split_ifs <;> omega
    · unfold acceptHi; split_ifs <;> omega

/-- Decoding reads back what encoding wrote, whatever follows. -/
theorem decodeRune_encodeRune (r : Nat) (hr : isScalar r = true) (rest : Bytes) :
    decodeRune (encodeRune r ++ rest) = (r, (encodeRune r).length) := by
  rcases encodeRune_shape r hr with ⟨h1, he⟩ | ⟨b, b1, he, h⟩ | ⟨b, b1, b2, he, h⟩ |
    ⟨b, b1, b2, b3, he, h⟩
  · rw [he]
    simp only [List.singleton_append, decodeRune, h1, if_true, List.length_singleton]
  · rw [he]
    obtain ⟨h1, h2, h3, h4, h5⟩ := h
    simp only [List.cons_append, List.nil_append, decodeRune_two b b1 rest h1 h2 h3 h4, h5,
      List.length_cons, List.length_nil]
  · rw [he]
    obtain ⟨h1, h2, h3, h4, _, _, h5, h6, h7⟩ := h
    simp only [List.cons_append, List.nil_append,
      decodeRune_three b b1 b2 rest h1 h2 h3 h4 h5 h6, h7, List.length_cons, List.length_nil]
  · rw [he]
    obtain ⟨h1, h2, h3, h4, _, _, h5, h6, h7, h8, h9⟩ := h
    simp only [List.cons_append, List.nil_append,
      decodeRune_four b b1 b2 b3 rest h1 h2 h3 h4 h5 h6 h7 h8, h9, List.length_cons,
      List.length_nil]

theorem encodeRune_length_pos (r : Nat) : 1 ≤ (encodeRune r).length := by
  unfold encodeRune
  split_ifs <;> simp

theorem getD_append_at (X : Bytes) (b : Nat) (Y : Bytes) (d : Nat) :
    (X ++ b :: Y).getD X.length d = b := by
  induction X with
  | nil => rfl
  | cons x X ih => simpa using ih

theorem runeStart_false (b : Nat) (h1 : 0x80 ≤ b) (h2 : b ≤ 0xBF) : runeStart b = false := by
  simp [runeStart, h1, h2]

theorem runeStart_true (b : Nat) (h1 : 0xC0 ≤ b) : runeStart b = true := by
  unfold runeStart
  have : ¬ b ≤ 0xBF := by omega
  simp [this]

/-- Decoding from the end reads back the last rune written, whatever precedes. -/
theorem decodeLastRune_encodeRune (X : Bytes) (r : Nat) (hr : isScalar r = true) :
    decodeLastRune (X ++ encodeRune r) = (r, (encodeRune r).length) := by
  have hd := decodeRune_encodeRune r hr []
  rw [List.append_nil] at hd
  rcases encodeRune_shape r hr with ⟨h1, he⟩ | ⟨b, b1, he, h⟩ | ⟨b, b1, b2, he, h⟩ |
    ⟨b, b1, b2, b3, he, h⟩
  · rw [he]
    simp [decodeLastRune, h1]
  · rw [he] at hd ⊢
    obtain ⟨h1, h2, h3, h4, h5⟩ := h
    have hs : lastRuneStart (X ++ [b, b1]) = X.length := by
      have g : (X ++ [b, b1]).getD ((X ++ [b, b1]).length - 2) 0 = b := by
        have : (X ++ [b, b1]).length - 2 = X.length := by simp
        rw [this]; exact getD_append_at X b [b1] 0
      unfold lastRuneStart
      simp only [g, runeStart_true b (by omega)]
      simp
    have hl : ¬ b1 < 0x80 := by omega
    have hg : (X ++ [b, b1]).getLast? = some b1 := by simp
    unfold decodeLastRune
    rw [hg]
    simp only [hl, if_false, hs, List.drop_left, hd]
    simp
  · rw [he] at hd ⊢
    obtain ⟨h1, h2, _, _, h3, h4, h5, h6, h7⟩ := h
    have hs : lastRuneStart (X ++ [b, b1, b2]) = X.length := by
      have g2 : (X ++ [b, b1, b2]).getD ((X ++ [b, b1, b2]).length - 2) 0 = b1 := by
        have : (X ++ [b, b1, b2]).length - 2 = (X ++ [b]).length := by simp
        rw [this]
        have := getD_append_at (X ++ [b]) b1 [b2] 0
        simpa using this
      have g3 : (X ++ [b, b1, b2]).getD ((X ++ [b, b1, b2]).length - 3) 0 = b := by
        have : (X ++ [b, b1, b2]).length - 3 = X.length := by simp
        rw [this]; exact getD_append_at X b [b1, b2] 0
      unfold lastRuneStart
      simp only [g2, g3, runeStart_true b (by omega), runeStart_false b1 h3 h4]
      simp
    have hl : ¬ b2 < 0x80 := by omega
    have hg : (X ++ [b, b1, b2]).getLast? = some b2 := by simp
    unfold decodeLastRune
    rw [hg]
    simp only [hl, if_false, hs, List.drop_left, hd]
    simp
  · rw [he] at hd ⊢
    obtain ⟨h1, h2, _, _, h3, h4, h5, h6, h7, h8, h9⟩ := h
    have hs : lastRuneStart (X ++ [b, b1, b2, b3]) = X.length := by
      have g2 : (X ++ [b, b1, b2, b3]).getD ((X ++ [b, b1, b2, b3]).length - 2) 0 = b2 := by
        have : (X ++ [b, b1, b2, b3]).length - 2 = (X ++ [b, b1]).length := by simp
        rw [this]
        have := getD_append_at (X ++ [b, b1]) b2 [b3] 0
        simpa using this
      have g3 : (X ++ [b, b1, b2, b3]).getD ((X ++ [b, b1, b2, b3]).length - 3) 0 = b1 := by
        have : (X ++ [b, b1, b2, b3]).length - 3 = (X ++ [b]).length := by simp
        rw [this]
        have := getD_append_at (X ++ [b]) b1 [b2, b3] 0
        simpa using this
      have g4 : (X ++ [b, b1, b2, b3]).getD ((X ++ [b, b1, b2, b3]).length - 4) 0 = b := by
        have : (X ++ [b, b1, b2, b3]).length - 4 = X.length := by simp
        rw [this]; exact getD_append_at X b [b1, b2, b3] 0
      unfold lastRuneStart
      simp only [g2, g3, g4, runeStart_true b (by omega), runeStart_false b1 h3 h4,
        runeStart_false b2 h5 h6]
      simp
    have hl : ¬ b3 < 0x80 := by omega
    have hg : (X ++ [b, b1, b2, b3]).getLast? = some b3 := by simp
    unfold decodeLastRune
    rw [hg]
    simp only [hl, if_false, hs, List.drop_left, hd]
    simp

theorem encodeRunes_append (a b : List Nat) :
    encodeRunes (a ++ b) = encodeRunes a ++ encodeRunes b := by
  induction a with
  | nil => rfl
  | cons r a ih =>
    show encodeRune r ++ encodeRunes (a ++ b) = (encodeRune r ++ encodeRunes a) ++ encodeRunes b
    rw [ih, List.append_assoc]

theorem isSpaceRune_isScalar (r : Nat) (h : isSpaceRune r = true) : isScalar r = true := by
  have := isSpaceRune_cases r h
  unfold isScalar
  simp only [Bool.or_eq_true, Bool.and_eq_true, decide_eq_true_eq]
  omega

/-- The loop of `bytes.TrimLeftFunc` stops at a rune that is no white space. -/
theorem trimLeftSpaceFuel_stop (a : Nat) (ha : isScalar a = true) (hna : isSpaceRune a = false)
    (post : Bytes) (n : Nat) :
    trimLeftSpaceFuel n (encodeRune a ++ post) = encodeRune a ++ post := by
  have hd := decodeRune_encodeRune a ha post
  cases n with
  | zero => rfl
  | succ m =>
    cases he : encodeRune a ++ post with
    | nil => rfl
    | cons b t =>
      rw [he] at hd
      simp only [trimLeftSpaceFuel, hd, hna, Bool.false_eq_true, if_false]

/-- The loop of `bytes.TrimLeftFunc` removes leading white space up to the
first rune that is none. -/
theorem trimLeftSpaceFuel_core (a : Nat) (ha : isScalar a = true) (hna : isSpaceRune a = false)
    (post : Bytes) (ls : List Nat) :
    ∀ n, (encodeRunes ls).length ≤ n → (∀ r ∈ ls, isSpaceRune r = true) →
      trimLeftSpaceFuel n (encodeRunes ls ++ (encodeRune a ++ post)) = encodeRune a ++ post := by
  induction ls with
  | nil => intro n _ _; exact trimLeftSpaceFuel_stop a ha hna post n
  | cons r rs ih =>
    intro n hn h
    have hsp := h r (List.mem_cons_self _ _)
    have h2 := decodeRune_encodeRune r (isSpaceRune_isScalar r hsp)
      (encodeRunes rs ++ (encodeRune a ++ post))
    have h1 := encodeRune_length_pos r
    simp only [encodeRunes, List.length_append] at hn
    simp only [encodeRunes, List.append_assoc]
    obtain ⟨m, rfl⟩ : ∃ m, n = m + 1 := ⟨n - 1, by omega⟩
    cases he : encodeRune r ++ (encodeRunes rs ++ (encodeRune a ++ post)) with
    | nil =>
      have := congrArg List.length he
      simp only [List.length_append, List.length_nil] at this
      omega
    | cons b t =>
      rw [he] at h2
      simp only [trimLeftSpaceFuel, h2, hsp, if_true]
      rw [← he, List.drop_append_eq_append_drop, Nat.sub_self, List.drop_zero,
        List.drop_eq_nil_of_le (le_refl _), List.nil_append]
      exact ih m (by omega) (fun x hx => h x (List.mem_cons_of_mem _ hx))

/-- The loop of `bytes.TrimRightFunc` stops at a rune that is no white space. -/
theorem trimRightSpaceFuel_stop (z : Nat) (hz : isScalar z = true) (hnz : isSpaceRune z = false)
    (pre : Bytes) (n : Nat) :
    trimRightSpaceFuel n (pre ++ encodeRune z) = pre ++ encodeRune z := by
  have hd := decodeLastRune_encodeRune pre z hz
  have h1 := encodeRune_length_pos z
  cases n with
  | zero => rfl
  | succ m =>
    have hne : (pre ++ encodeRune z).isEmpty = false := by
      cases he : pre ++ encodeRune z with
      | nil =>
        have := congrArg List.length he
        simp only [List.length_append, List.length_nil] at this
        omega
      | cons b t => rfl
    simp only [trimRightSpaceFuel, hne, Bool.false_eq_true, if_false, hd, hnz]

/-- The loop of `bytes.TrimRightFunc` removes trailing white space back to the
last rune that is none. -/
theorem trimRightSpaceFuel_core (z : Nat) (hz : isScalar z = true) (hnz : isSpaceRune z = false)
    (pre : Bytes) (ts : List Nat) :
    ∀ n, (encodeRunes ts).length ≤ n → (∀ r ∈ ts, isSpaceRune r = true) →
      trimRightSpaceFuel n ((pre ++ encodeRune z) ++ encodeRunes ts) = pre ++ encodeRune z := by
  induction ts using List.reverseRecOn with
  | nil =>
    intro n _ _
    simp only [encodeRunes, List.append_nil]
    exact trimRightSpaceFuel_stop z hz hnz pre n
  | append_singleton rs r ih =>
    intro n hn h
    have hsp := h r (by simp)
    have h1 := encodeRune_length_pos r
    have hr : encodeRunes (rs ++ [r]) = encodeRunes rs ++ encodeRune r := by
      rw [encodeRunes_append]; simp only [encodeRunes, List.append_nil]
    rw [hr] at hn ⊢
    simp only [List.length_append] at hn
    obtain ⟨m, rfl⟩ : ∃ m, n = m + 1 := ⟨n - 1, by omega⟩
    have hd := decodeLastRune_encodeRune ((pre ++ encodeRune z) ++ encodeRunes rs) r
      (isSpaceRune_isScalar r hsp)
    rw [← List.append_assoc]
    have hne : (((pre ++ encodeRune z) ++ encodeRunes rs) ++ encodeRune r).isEmpty = false := by
      cases he : ((pre ++ encodeRune z) ++ encodeRunes rs) ++ encodeRune r with
      | nil =>
        have := congrArg List.length he
        simp only [List.length_append, List.length_nil] at this
        omega
      | cons b t => rfl
    simp only [trimRightSpaceFuel, hne, Bool.false_eq_true, if_false, hd, hsp, if_true]
    have ht : List.take ((((pre ++ encodeRune z) ++ encodeRunes rs) ++ encodeRune r).length
        - (encodeRune r).length) (((pre ++ encodeRune z) ++ encodeRunes rs) ++ encodeRune r)
        = (pre ++ encodeRune z) ++ encodeRunes rs := by
      rw [List.length_append, Nat.add_sub_cancel, List.take_left]
    rw [ht]
    exact ih m (by omega) (fun x hx => h x (by simp [hx]))

/-- What `bytes.TrimSpace` removes: white space around text that neither
begins nor ends with white space is removed, and the text is what remains. -/
theorem trimSpace_core (ls ts : List Nat) (core : Bytes)
    (hls : ∀ r ∈ ls, isSpaceRune r = true) (hts : ∀ r ∈ ts, isSpaceRune r = true)
    (hc : TrimmedText core) :
    trimSpace (encodeRunes ls ++ core ++ encodeRunes ts) = core := by
  rcases hc with rfl | ⟨a, z, pre, post, ha, hna, hz, hnz, h1, h2⟩
  · rw [List.append_nil, ← encodeRunes_append]
    exact trimSpace_spaces (ls ++ ts) (fun r hr => by
      rcases List.mem_append.mp hr with h | h
      · exact hls r h
      · exact hts r h)
  · unfold trimSpace
    have hl : trimLeftSpaceFuel (encodeRunes ls ++ core ++ encodeRunes ts).length
        (encodeRunes ls ++ core ++ encodeRunes ts) = core ++ encodeRunes ts := by
      rw [h1]
      have := trimLeftSpaceFuel_core a ha hna (post ++ encodeRunes ts) ls
        (encodeRunes ls ++ (encodeRune a ++ post) ++ encodeRunes ts).length
        (by simp only [List.length_append]; omega) hls
      simp only [List.append_assoc] at this ⊢
      exact this
    simp only [hl]
    rw [h2]
    exact trimRightSpaceFuel_core z hz hnz pre ts _
      (by simp only [List.length_append]; omega) hts

/-- C6. `loadControlToken` by cases: with `APPDATA` unset or empty it fails
with the configuration error and the world is unchanged (no file is read);
otherwise it reads `<root>/NetworkCloud/.control_token` once and, if the read
fails (in particular when the file does not exist), fails with that
input/output error and returns no token; otherwise it returns the content of
the file with leading and trailing white space removed: the result of
`bytes.TrimSpace`, which for content made of white space, a text that neither
begins nor ends with white space, and white space again, is exactly that
text. -/
theorem C6_loadControlToken_cases (pf : Platform) (w : World) :
    (w.env "APPDATA" = "" →
      loadControlToken pf w = (.error .appDataNotSet, w) ∧
      GoError.appDataNotSet.classify = .configuration) ∧
    (w.env "APPDATA" ≠ "" →
      (loadControlToken pf w).2 = { w with log := w.log ++ [.readFile (tokenPath pf w)] } ∧
      (∀ e, w.fs.read (tokenPath pf w) = .error e →
        (loadControlToken pf w).1 = .error e ∧ e.classify = .inputOutput) ∧
      (w.fs.content (tokenPath pf w) = none →
        ∃ e, (loadControlToken pf w).1 = .error e ∧ e.classify = .inputOutput) ∧
      (∀ data, w.fs.read (tokenPath pf w) = .ok data →
        (loadControlToken pf w).1 = .ok (trimSpace data)) ∧
      (∀ ls ts core, (∀ r ∈ ls, isSpaceRune r = true) → (∀ r ∈ ts, isSpaceRune r = true) →
        TrimmedText core →
        w.fs.read (tokenPath pf w) = .ok (encodeRunes ls ++ core ++ encodeRunes ts) →
        (loadControlToken pf w).1 = .ok core)) := by
  refine ⟨fun h => ⟨loadControlToken_unset pf w h, rfl⟩, fun h => ?_⟩
  rw [loadControlToken_set pf w h]
  refine ⟨rfl, ?_, ?_, ?_, ?_⟩
  · intro e he
    exact ⟨by simp only [he], read_error_classify _ _ _ he⟩
  · intro hc
    cases hr : w.fs.read (tokenPath pf w) with
    | error e => exact ⟨e, rfl, read_error_classify _ _ _ hr⟩
    | ok data =>
      unfold FileSystem.read at hr
      rw [hc] at hr
      split at hr <;> cases hr
  · intro data hd
    simp only [hd]
  · intro ls ts core hls hts hc hd
    simp only [hd, trimSpace_core ls ts core hls hts hc]

/-- Witness for C6: an unset `APPDATA`, a missing token file, a token file
holding `" tok-1\n"`, and a token file holding the text `étok€` between an
ideographic space (U+3000) in front and a no-break space (U+00A0), a line
separator (U+2028) and a line feed behind. -/
theorem C6_loadControlToken_cases_witness :
    loadControlToken samplePlatform { sampleWorld [] (.error .connectionRefused) with env := fun _ => "" }
        = (.error .appDataNotSet,
            { sampleWorld [] (.error .connectionRefused) with env := fun _ => "" }) ∧
    (loadControlToken samplePlatform (sampleWorld [] (.error .connectionRefused))).1
        = .error (.pathError "open" sampleTokenFile .notExist) ∧
    (loadControlToken samplePlatform
        (sampleWorld [(sampleTokenFile, ascii " tok-1\n")] (.error .connectionRefused))).1
        = .ok (ascii "tok-1") ∧
    (loadControlToken samplePlatform
        (sampleWorld [(sampleTokenFile,
          [0xE3, 0x80, 0x80, 0xC3, 0xA9, 0x74, 0x6F, 0x6B, 0xE2, 0x82, 0xAC,
           0xC2, 0xA0, 0xE2, 0x80, 0xA8, 0x0A])] (.error .connectionRefused))).1
        = .ok [0xC3, 0xA9, 0x74, 0x6F, 0x6B, 0xE2, 0x82, 0xAC] := by
  refine ⟨((C6_loadControlToken_cases samplePlatform _).1 rfl).1, ?_, ?_, ?_⟩
  · exact (((C6_loadControlToken_cases samplePlatform
      (sampleWorld [] (.error .connectionRefused))).2 (by decide)).2.1 _ (by decide)).1
  · exact ((C6_loadControlToken_cases samplePlatform
      (sampleWorld [(sampleTokenFile, ascii " tok-1\n")] (.error .connectionRefused))).2
        (by decide)).2.2.2.1 (ascii " tok-1\n") (by decide)
  · exact ((C6_loadControlToken_cases samplePlatform
      (sampleWorld [(sampleTokenFile,
          [0xE3, 0x80, 0x80, 0xC3, 0xA9, 0x74, 0x6F, 0x6B, 0xE2, 0x82, 0xAC,
           0xC2, 0xA0, 0xE2, 0x80, 0xA8, 0x0A])] (.error .connectionRefused))).2
        (by decide)).2.2.2.2 [0x3000] [0xA0, 0x2028, 0x0A]
        [0xC3, 0xA9, 0x74, 0x6F, 0x6B, 0xE2, 0x82, 0xAC]
        (by decide) (by decide)
        (Or.inr ⟨0xE9, 0x20AC, [0xC3, 0xA9, 0x74, 0x6F, 0x6B], [0x74, 0x6F, 0x6B, 0xE2, 0x82, 0xAC],
          by decide, by decide, by decide, by decide, by decide, by decide⟩)
        (by decide)

/-- C7. The token is read anew on every control call.  In every history of
control calls and changes to the file system made between them, starting in a
world whose data root is set, the token file is read exactly once a call; and
every request a call issues carries in `X-Control-Token` the trimmed content
the token file has when that call starts.  So of two calls with the token file
changed between them the first sends the trimmed old content and the second
the trimmed new content.  The calls a control call makes do not depend on its
result type.  Trimmed means: when the token file holds white space, a text
that neither begins nor ends with white space, and white space again, the
header carries exactly that text. -/
theorem C7_token_read_every_call (pf : Platform) (w : World) (steps : List Step)
    (hroot : w.env "APPDATA" ≠ "") :
    countReads (tokenPath pf w) (runSteps pf w steps).log
      = countReads (tokenPath pf w) w.log + countCalls steps ∧
    (∀ wc c, (wc, c) ∈ callStates pf w steps → ∀ data,
      wc.fs.read (tokenPath pf w) = .ok data →
        (controlCall pf c wc).log = wc.log ++ [.readFile (tokenPath pf w)] ∨
        ∃ req, (controlCall pf c wc).log
            = wc.log ++ [.readFile (tokenPath pf w), .httpDo req] ∧
          req.getHeader "X-Control-Token" = some (trimSpace data)) ∧
    (∀ (c1 c2 : Call) (fs2 : FileSystem) (server2 : Request → Except NetFailure Response)
        (d1 d2 : Bytes) (r1 r2 : Request),
      w.fs.read (tokenPath pf w) = .ok d1 → fs2.read (tokenPath pf w) = .ok d2 →
      requestsOf (runSteps pf w [.call c1, .change fs2 server2, .call c2]).log
        = requestsOf w.log ++ [r1, r2] →
      r1.getHeader "X-Control-Token" = some (trimSpace d1) ∧
      r2.getHeader "X-Control-Token" = some (trimSpace d2)) ∧
    (∀ (T : Type) (dec : JValue → Except JsonError T) (c : Call),
      (doRequest dec pf c.method c.path c.payload w).2 = controlCall pf c w) ∧
    (∀ wc c, (wc, c) ∈ callStates pf w steps → ∀ ls ts core,
      (∀ r ∈ ls, isSpaceRune r = true) → (∀ r ∈ ts, isSpaceRune r = true) →
      TrimmedText core →
      wc.fs.read (tokenPath pf w) = .ok (encodeRunes ls ++ core ++ encodeRunes ts) →
        (controlCall pf c wc).log = wc.log ++ [.readFile (tokenPath pf w)] ∨
        ∃ req, (controlCall pf c wc).log
            = wc.log ++ [.readFile (tokenPath pf w), .httpDo req] ∧
          req.getHeader "X-Control-Token" = some core) :=
  ⟨runSteps_reads pf steps w hroot,
   fun wc c hmem => (callStates_header pf steps w hroot wc c hmem).2,
   fun c1 c2 fs2 server2 d1 d2 r1 r2 h1 h2 hreq =>
     rotation_headers pf w c1 c2 fs2 server2 d1 d2 r1 r2 hroot h1 h2 hreq,
   fun _ dec c => doRequest_world_independent dec _ pf c.method c.path c.payload w,
   fun wc c hmem ls ts core hls hts hcore hread => by
     have h := (callStates_header pf steps w hroot wc c hmem).2 _ hread
     rw [trimSpace_core ls ts core hls hts hcore] at h
     exact h⟩

/-- Witness for C7: two calls with the token rotated from `tok-1` to `tok-2`
between them read the token file twice and send `tok-1`, then `tok-2`; and a
call with the token file holding `tok-3` between a no-break space (U+00A0) and
a line separator (U+2028) sends `tok-3`. -/
theorem C7_token_read_every_call_witness :
    countReads sampleTokenFile
      (runSteps samplePlatform
        (sampleWorld [(sampleTokenFile, ascii "tok-1\n")] (.error .connectionRefused))
        [.call { method := "GET", path := "/status", payload := none },
         .change (sampleFS [(sampleTokenFile, ascii "tok-2\n")]) (fun _ => .error .timeout),
         .call { method := "POST", path := "/start", payload := none }]).log = 2 ∧
    requestsOf
      (runSteps samplePlatform
        (sampleWorld [(sampleTokenFile, ascii "tok-1\n")] (.error .connectionRefused))
        [.call { method := "GET", path := "/status", payload := none },
         .change (sampleFS [(sampleTokenFile, ascii "tok-2\n")]) (fun _ => .error .timeout),
         .call { method := "POST", path := "/start", payload := none }]).log
      = [facadeRequest "GET" "/status" (ascii "tok-1"),
         facadeRequest "POST" "/start" (ascii "tok-2")] ∧
    requestsOf
      (runSteps samplePlatform
        (sampleWorld [(sampleTokenFile, [0xC2, 0xA0] ++ ascii "tok-3" ++ [0xE2, 0x80, 0xA8])]
          (.error .connectionRefused))
        [.call { method := "GET", path := "/status", payload := none }]).log
      = [facadeRequest "GET" "/status" (ascii "tok-3")] :=
  ⟨(C7_token_read_every_call samplePlatform
      (sampleWorld [(sampleTokenFile, ascii "tok-1\n")] (.error .connectionRefused))
      [.call { method := "GET", path := "/status", payload := none },
       .change (sampleFS [(sampleTokenFile, ascii "tok-2\n")]) (fun _ => .error .timeout),
       .call { method := "POST", path := "/start", payload := none }] (by decide)).1,
   by decide,
   by decide⟩

/-! ## Strings: what `appendString` writes, `unquote` and the scanner read back -/

theorem unquoteFuel_plain (f : Nat) (b : Nat) (Y : Bytes) (h1 : b < 0x80) (h2 : 0x20 ≤ b)
    (h3 : b ≠ 0x22) (h4 : b ≠ 0x5C) :
    unquoteFuel (f + 1) (b :: Y) = (unquoteFuel f Y).map (fun t => b :: t) := by
  have e1 : ¬ (b = 0x22 ∨ b < 0x20) := by omega
  simp only [unquoteFuel, h4, e1, h1, if_false, if_true]

theorem htmlSafe_false (b : Nat) (h : htmlSafe b = false) :
    b < 0x20 ∨ b = 0x22 ∨ b = 0x5C ∨ b = 0x3C ∨ b = 0x3E ∨ b = 0x26 := by
  by_contra hc
  push_neg at hc
  have ht : htmlSafe b = true := by
    unfold htmlSafe
    simp only [Bool.and_eq_true, decide_eq_true_eq, bne_iff_ne, ne_eq]
    exact ⟨⟨⟨⟨⟨by omega, hc.2.1⟩, hc.2.2.1⟩, hc.2.2.2.1⟩, hc.2.2.2.2.1⟩, hc.2.2.2.2.2⟩
  rw [ht] at h
  cases h

theorem htmlSafe_true (b : Nat) (h : htmlSafe b = true) :
    0x20 ≤ b ∧ b ≠ 0x22 ∧ b ≠ 0x5C := by
  unfold htmlSafe at h
  simp only [Bool.and_eq_true, decide_eq_true_eq, bne_iff_ne, ne_eq] at h
  exact ⟨h.1.1.1.1.1, h.1.1.1.1.2, h.1.1.1.2⟩

theorem unquoteFuel_escape (f : Nat) (b : Nat) (Y : Bytes) (h : htmlSafe b = false) :
    unquoteFuel (f + 1) (escapeByte b ++ Y) = (unquoteFuel f Y).map (fun t => b :: t) := by
  rcases htmlSafe_false b h with h | h | h | h | h | h
  · interval_cases b <;>
      simp [escapeByte, unquoteFuel, getu4, hexVal, hexDigit, unescapeByte, encodeRune]
  all_goals
    subst h
    simp [escapeByte, unquoteFuel, getu4, hexVal, hexDigit, unescapeByte, encodeRune]

theorem unquoteFuel_rune (f : Nat) (b : Nat) (rest Y : Bytes) (hb : 0x80 ≤ b)
    (hv : ¬ ((decodeRune (b :: rest)).1 = runeError ∧ (decodeRune (b :: rest)).2 = 1)) :
    unquoteFuel (f + 1) ((b :: rest).take (decodeRune (b :: rest)).2 ++ Y)
      = (unquoteFuel f Y).map (fun t => (b :: rest).take (decodeRune (b :: rest)).2 ++ t) := by
  obtain ⟨h1, h2, h3, h4, _, _⟩ := decodeRune_valid b rest hb hv
  have hdrop : ((b :: rest).take (decodeRune (b :: rest)).2 ++ Y).drop (decodeRune (b :: rest)).2
      = Y := by
    rw [List.drop_append_eq_append_drop, h2, Nat.sub_self, List.drop_zero,
      List.drop_eq_nil_of_le (le_of_eq h2), List.nil_append]
  have hdec := h4 Y
  obtain ⟨k, hk⟩ : ∃ k, (decodeRune (b :: rest)).2 = k + 1 := ⟨_, (Nat.sub_add_cancel h1).symm⟩
  rw [hk] at hdrop hdec h3 ⊢
  simp only [List.take_succ_cons, List.cons_append] at hdrop hdec h3 ⊢
  have e1 : ¬ b = 0x5C := by omega
  have e2 : ¬ (b = 0x22 ∨ b < 0x20) := by omega
  have e3 : ¬ b < 0x80 := by omega
  simp only [unquoteFuel, e1, e2, e3, if_false, hdec, hk, hdrop, h3, List.cons_append]

theorem unquoteFuel_separator (f : Nat) (r : Nat) (Y : Bytes) (hr : r = 0x2028 ∨ r = 0x2029) :
    unquoteFuel (f + 1) ([0x5C, 0x75, 0x32, 0x30, 0x32, hexDigit (r % 16)] ++ Y)
      = (unquoteFuel f Y).map (fun t => encodeRune r ++ t) := by
  rcases hr with rfl | rfl <;>
    simp [unquoteFuel, getu4, hexVal, hexDigit]

theorem validUTF8Fuel_ascii (n : Nat) (b : Nat) (rest : Bytes) (hb : b < 0x80) :
    validUTF8Fuel (n + 1) (b :: rest) = validUTF8Fuel n rest := by
  have hd : decodeRune (b :: rest) = (b, 1) := by simp [decodeRune, hb]
  have hne : ¬ b = runeError := by
    unfold runeError; omega
  simp [validUTF8Fuel, hd, hne]

theorem escapeByte_length (b : Nat) : 1 ≤ (escapeByte b).length := by
  unfold escapeByte
  split_ifs <;> simp

/-- Unquoting the literal written for a valid UTF-8 string gives the string. -/
theorem unquoteFuel_appendStringFuel (n : Nat) :
    ∀ (s : Bytes) (f : Nat), s.length ≤ n → validUTF8Fuel n s = true →
      (appendStringFuel n s).length ≤ f →
      unquoteFuel f (appendStringFuel n s) = some s := by
  induction n with
  | zero =>
    intro s f hs _ _
    have : s = [] := List.length_eq_zero.mp (Nat.le_zero.mp hs)
    subst this
    cases f <;> simp [appendStringFuel, unquoteFuel]
  | succ n ih =>
    intro s f hs hv hf
    cases s with
    | nil => cases f <;> simp [appendStringFuel, unquoteFuel]
    | cons b rest =>
      have hrest : rest.length ≤ n := by simpa using hs
      by_cases hb : b < 0x80
      · rw [validUTF8Fuel_ascii n b rest hb] at hv
        simp only [appendStringFuel, hb, if_true] at hf ⊢
        by_cases hsafe : htmlSafe b = true
        · simp only [hsafe, if_true, List.singleton_append, List.length_cons] at hf ⊢
          obtain ⟨f1, rfl⟩ : ∃ f1, f = f1 + 1 := ⟨f - 1, by omega⟩
          obtain ⟨g1, g2, g3⟩ := htmlSafe_true b hsafe
          rw [unquoteFuel_plain f1 b _ hb g1 g2 g3, ih rest f1 hrest hv (by omega)]
          rfl
        · have hsafe1 : htmlSafe b = false := by simpa using hsafe
          simp only [hsafe1, Bool.false_eq_true, if_false, List.length_append] at hf ⊢
          have hl := escapeByte_length b
          obtain ⟨f1, rfl⟩ : ∃ f1, f = f1 + 1 := ⟨f - 1, by omega⟩
          rw [unquoteFuel_escape f1 b _ hsafe1, ih rest f1 hrest hv (by omega)]
          rfl
      · have hb1 : 0x80 ≤ b := by omega
        have hv0 := hv
        simp only [validUTF8Fuel] at hv
        by_cases hbad : (decodeRune (b :: rest)).1 = runeError ∧ (decodeRune (b :: rest)).2 = 1
        · simp [hbad] at hv
        · simp only [hbad, if_false] at hv
          obtain ⟨h1, h2, h3, h4, _, _⟩ := decodeRune_valid b rest hb1 hbad
          have hdl : ((b :: rest).drop (decodeRune (b :: rest)).2).length ≤ n := by
            simp only [List.length_drop, List.length_cons]
            omega
          have hsplit : (b :: rest).take (decodeRune (b :: rest)).2
              ++ (b :: rest).drop (decodeRune (b :: rest)).2 = b :: rest :=
            List.take_append_drop _ _
          simp only [appendStringFuel, hb, hbad, if_false] at hf ⊢
          by_cases hsep : (decodeRune (b :: rest)).1 = 0x2028 ∨ (decodeRune (b :: rest)).1 = 0x2029
          · simp only [hsep, if_true, List.length_append, List.length_cons, List.length_nil]
              at hf ⊢
            obtain ⟨f1, rfl⟩ : ∃ f1, f = f1 + 1 := ⟨f - 1, by omega⟩
            rw [unquoteFuel_separator f1 _ _ hsep, ih _ f1 hdl hv (by omega), h3]
            simp only [Option.map_some', hsplit]
          · simp only [hsep, if_false, List.length_append] at hf ⊢
            obtain ⟨f1, rfl⟩ : ∃ f1, f = f1 + 1 := ⟨f - 1, by omega⟩
            rw [unquoteFuel_rune f1 b rest _ hb1 hbad, ih _ f1 hdl hv (by omega)]
            simp only [Option.map_some', hsplit]

theorem unquote_appendString (s : Bytes) (hv : validUTF8 s = true) :
    unquote (appendStringFuel s.length s) = some s :=
  unquoteFuel_appendStringFuel s.length s _ (le_refl _) hv (le_refl _)

theorem scan_append (st : Scanner) (a b : Bytes) : scan st (a ++ b) = scan (scan st a) b := by
  simp [scan, List.foldl_append]

theorem scan_cons (st : Scanner) (c : Nat) (l : Bytes) : scan st (c :: l) = scan (step st c) l := rfl

theorem scan_nil (st : Scanner) : scan st [] = st := rfl

theorem step_inString_plain (raw : Bytes) (stk : List Frame) (tp : Option JValue) (c : Nat)
    (h1 : 0x20 ≤ c) (h2 : c ≠ 0x22) (h3 : c ≠ 0x5C) :
    step { mode := .inString raw, stack := stk, top := tp } c
      = { mode := .inString (raw ++ [c]), stack := stk, top := tp } := by
  have e1 : ¬ c < 0x20 := by omega
  simp only [step, h2, h3, e1, if_false]

theorem scan_inString_plain (l : Bytes) :
    ∀ (raw : Bytes) (stk : List Frame) (tp : Option JValue),
      (∀ x ∈ l, 0x20 ≤ x ∧ x ≠ 0x22 ∧ x ≠ 0x5C) →
      scan { mode := .inString raw, stack := stk, top := tp } l
        = { mode := .inString (raw ++ l), stack := stk, top := tp } := by
  induction l with
  | nil => intro raw stk tp _; simp [scan_nil]
  | cons c l ih =>
    intro raw stk tp h
    obtain ⟨h1, h2, h3⟩ := h c (List.mem_cons_self _ _)
    rw [scan_cons, step_inString_plain raw stk tp c h1 h2 h3,
      ih _ stk tp (fun x hx => h x (List.mem_cons_of_mem _ hx))]
    simp

theorem hexVal_hexDigit (n : Nat) (h : n < 16) : (hexVal (hexDigit n)).isSome = true := by
  interval_cases n <;> decide

theorem scan_inString_unicode (raw : Bytes) (stk : List Frame) (tp : Option JValue)
    (h1 h2 h3 h4 : Nat) (g1 : (hexVal h1).isSome = true) (g2 : (hexVal h2).isSome = true)
    (g3 : (hexVal h3).isSome = true) (g4 : (hexVal h4).isSome = true) :
    scan { mode := .inString raw, stack := stk, top := tp } [0x5C, 0x75, h1, h2, h3, h4]
      = { mode := .inString (raw ++ [0x5C, 0x75, h1, h2, h3, h4]), stack := stk, top := tp } := by
  simp [scan, step, g1, g2, g3, g4]

theorem scan_inString_escape (raw : Bytes) (stk : List Frame) (tp : Option JValue) (b : Nat)
    (hb : b < 0x80) (h : htmlSafe b = false) :
    scan { mode := .inString raw, stack := stk, top := tp } (escapeByte b)
      = { mode := .inString (raw ++ escapeByte b), stack := stk, top := tp } := by
  rcases htmlSafe_false b h with h | h | h | h | h | h
  · interval_cases b <;> simp [escapeByte, scan, step, hexVal, hexDigit]
  all_goals
    subst h
    simp [escapeByte, scan, step, hexVal, hexDigit]

/-- The scanner stays inside the string literal over everything `appendString`
writes between the quotes. -/
theorem scan_appendStringFuel (n : Nat) :
    ∀ (s raw : Bytes) (stk : List Frame) (tp : Option JValue),
      scan { mode := .inString raw, stack := stk, top := tp } (appendStringFuel n s)
        = { mode := .inString (raw ++ appendStringFuel n s), stack := stk, top := tp } := by
  induction n with
  | zero => intro s raw stk tp; simp [appendStringFuel, scan_nil]
  | succ n ih =>
    intro s raw stk tp
    cases s with
    | nil => simp [appendStringFuel, scan_nil]
    | cons b rest =>
      by_cases hb : b < 0x80
      · simp only [appendStringFuel, hb, if_true]
        by_cases hsafe : htmlSafe b = true
        · obtain ⟨g1, g2, g3⟩ := htmlSafe_true b hsafe
          simp only [hsafe, if_true, List.singleton_append]
          rw [scan_cons, step_inString_plain raw stk tp b g1 g2 g3, ih]
          simp
        · have hsafe1 : htmlSafe b = false := by simpa using hsafe
          simp only [hsafe1, Bool.false_eq_true, if_false]
          rw [scan_append, scan_inString_escape raw stk tp b hb hsafe1, ih]
          simp
      · have hb1 : 0x80 ≤ b := by omega
        simp only [appendStringFuel, hb, if_false]
        by_cases hbad : (decodeRune (b :: rest)).1 = runeError ∧ (decodeRune (b :: rest)).2 = 1
        · simp only [hbad, and_self, if_true]
          rw [scan_append, scan_inString_unicode raw stk tp _ _ _ _ (by decide) (by decide)
            (by decide) (by decide), ih]
          simp
        · simp only [hbad, if_false]
          obtain ⟨_, _, _, _, h5, _⟩ := decodeRune_valid b rest hb1 hbad
          by_cases hsep : (decodeRune (b :: rest)).1 = 0x2028 ∨ (decodeRune (b :: rest)).1 = 0x2029
          · simp only [hsep, if_true]
            have hd : (hexVal (hexDigit ((decodeRune (b :: rest)).1 % 16))).isSome = true :=
              hexVal_hexDigit _ (Nat.mod_lt _ (by decide))
            rw [scan_append, scan_inString_unicode raw stk tp _ _ _ _ (by decide) (by decide)
              (by decide) hd, ih]
            simp
          · simp only [hsep, if_false]
            rw [scan_append, scan_inString_plain _ raw stk tp
              (fun x hx => by have := h5 x hx; omega), ih]
            simp

theorem deliver_mode (v : JValue) (st : Scanner) (m : Mode) :
    deliver v { st with mode := m } = deliver v st := by
  unfold deliver
  rcases st with ⟨m0, stk, tp⟩
  rcases stk with _ | ⟨fr, stk⟩
  · rfl
  · cases fr with
    | arr es => rfl
    | obj ms key =>
      cases key with
      | none => cases v <;> rfl
      | some k => rfl

/-- A string literal written by `appendString` for a valid UTF-8 string is read
back as that string, wherever a string may begin. -/
theorem scan_appendString (s : Bytes) (hv : validUTF8 s = true) (st : Scanner)
    (hm : step st 0x22 = { st with mode := .inString [] }) :
    scan st (appendString s) = deliver (.str s) st := by
  unfold appendString
  rw [scan_append, scan_append]
  simp only [scan_cons, scan_nil, hm]
  rw [show ({ st with mode := Mode.inString [] } : Scanner)
    = { mode := .inString [], stack := st.stack, top := st.top } from rfl]
  rw [scan_appendStringFuel]
  simp only [List.nil_append, step, if_true, unquote_appendString s hv]
  exact deliver_mode _ st _

/-! ## Maps: what `MarshalIndent` writes, `Unmarshal` reads back -/

theorem scan_member (ms : List (Bytes × JValue)) (k v : Bytes) (m : Mode)
    (hm : m = .beginString ∨ m = .beginStringOrEmpty)
    (hk : validUTF8 k = true) (hv : validUTF8 v = true) :
    scan { mode := m, stack := [.obj ms none], top := none } (encodeMember (k, v))
      = { mode := .endValue, stack := [.obj (ms ++ [(k, .str v)]) none], top := none } := by
  unfold encodeMember
  rw [scan_append, scan_append]
  have h1 : step { mode := m, stack := [Frame.obj ms none], top := none } 0x22
      = { ({ mode := m, stack := [Frame.obj ms none], top := none } : Scanner) with
          mode := .inString [] } := by
    rcases hm with rfl | rfl <;> simp [step, stepBeginString, isSpaceByte]
  rw [scan_appendString k hk _ h1]
  have h2 : deliver (.str k) { mode := m, stack := [Frame.obj ms none], top := none }
      = { mode := .endValue, stack := [.obj ms (some k)], top := none } := by
    simp [deliver]
  rw [h2]
  have h3 : scan { mode := .endValue, stack := [Frame.obj ms (some k)], top := none } [0x3A, 0x20]
      = { mode := .beginValue, stack := [Frame.obj ms (some k)], top := none } := by
    simp [scan, step, stepEndValue, stepBeginValue, isSpaceByte]
  rw [h3]
  have h4 : step { mode := .beginValue, stack := [Frame.obj ms (some k)], top := none } 0x22
      = { ({ mode := .beginValue, stack := [Frame.obj ms (some k)], top := none } : Scanner) with
          mode := .inString [] } := by
    simp [step, stepBeginValue, isSpaceByte]
  rw [scan_appendString v hv _ h4]
  simp [deliver]

theorem scan_moreMembers (es : List (Bytes × Bytes)) :
    ∀ ms : List (Bytes × JValue),
      (∀ e ∈ es, validUTF8 e.1 = true ∧ validUTF8 e.2 = true) →
      scan { mode := .endValue, stack := [.obj ms none], top := none } (encodeMoreMembers es)
        = { mode := .endValue,
            stack := [.obj (ms ++ es.map (fun e => (e.1, JValue.str e.2))) none], top := none } := by
  induction es with
  | nil => intro ms _; simp [encodeMoreMembers, scan_nil]
  | cons e es ih =>
    intro ms h
    obtain ⟨hk, hv⟩ := h e (List.mem_cons_self _ _)
    unfold encodeMoreMembers
    rw [scan_append, scan_append]
    have h1 : scan { mode := .endValue, stack := [Frame.obj ms none], top := none }
        [0x2C, 0x0A, 0x20, 0x20]
        = { mode := .beginString, stack := [Frame.obj ms none], top := none } := by
      simp [scan, step, stepEndValue, stepBeginString, isSpaceByte]
    rw [h1, scan_member ms e.1 e.2 .beginString (Or.inl rfl) hk hv,
      ih _ (fun x hx => h x (List.mem_cons_of_mem _ hx))]
    simp

/-- The text `MarshalIndent` writes for a non-empty list of valid UTF-8
entries parses as the object with those members, in that order. -/
theorem parseJSON_members (e : Bytes × Bytes) (es : List (Bytes × Bytes))
    (h : ∀ x ∈ e :: es, validUTF8 x.1 = true ∧ validUTF8 x.2 = true) :
    parseJSON ([0x7B, 0x0A, 0x20, 0x20] ++ encodeMember e ++ encodeMoreMembers es ++ [0x0A, 0x7D])
      = .ok (.obj ((e :: es).map (fun x => (x.1, JValue.str x.2)))) := by
  obtain ⟨hk, hv⟩ := h e (List.mem_cons_self _ _)
  unfold parseJSON
  rw [scan_append, scan_append, scan_append]
  have h1 : scan Scanner.initial [0x7B, 0x0A, 0x20, 0x20]
      = { mode := .beginStringOrEmpty, stack := [Frame.obj [] none], top := none } := by
    simp [scan, step, stepBeginValue, pushFrame, Scanner.initial, isSpaceByte, maxNestingDepth]
  rw [h1, scan_member [] e.1 e.2 .beginStringOrEmpty (Or.inr rfl) hk hv,
    scan_moreMembers es _ (fun x hx => h x (List.mem_cons_of_mem _ hx))]
  simp [scan, step, stepEndValue, deliver, isSpaceByte]

theorem bytesLt_irrefl (a : Bytes) : bytesLt a a = false := by
  induction a with
  | nil => rfl
  | cons x xs ih => simp [bytesLt, ih]

theorem bytesLt_asymm (a : Bytes) : ∀ b : Bytes, bytesLt a b = true → bytesLt b a = false := by
  induction a with
  | nil => intro b h; cases b <;> simp [bytesLt] at h ⊢
  | cons x xs ih =>
    intro b h
    cases b with
    | nil => simp [bytesLt] at h
    | cons y ys =>
      simp only [bytesLt] at h ⊢
      by_cases h1 : x < y
      · have h2 : ¬ y < x := by omega
        simp [h2, h1]
      · by_cases h2 : y < x
        · simp [h1, h2] at h
        · simp only [h1, h2, if_false] at h ⊢
          exact ih ys h

theorem insertEntry_append (k v : Bytes) (acc : List (Bytes × Bytes))
    (h : ∀ x ∈ acc, bytesLt x.1 k = true) : insertEntry k v acc = acc ++ [(k, v)] := by
  induction acc with
  | nil => rfl
  | cons a t ih =>
    obtain ⟨k1, v1⟩ := a
    have h1 : bytesLt k1 k = true := h (k1, v1) (List.mem_cons_self _ _)
    have h2 : ¬ k = k1 := by
      intro hk
      rw [hk, bytesLt_irrefl] at h1
      cases h1
    have h3 : bytesLt k k1 = false := bytesLt_asymm k1 k h1
    simp only [insertEntry, h2, h3, if_false, Bool.false_eq_true, List.cons_append,
      ih (fun x hx => h x (List.mem_cons_of_mem _ hx))]

theorem foldl_insertEntry_sorted (es : List (Bytes × Bytes)) :
    ∀ acc : List (Bytes × Bytes), sortedKeys (acc ++ es) →
      es.foldl (fun acc e => insertEntry e.1 e.2 acc) acc = acc ++ es := by
  induction es with
  | nil => intro acc _; simp
  | cons e es ih =>
    intro acc h
    have hlt : ∀ x ∈ acc, bytesLt x.1 e.1 = true := by
      intro x hx
      unfold sortedKeys at h
      rw [List.pairwise_append] at h
      exact h.2.2 x hx e (List.mem_cons_self _ _)
    simp only [List.foldl_cons]
    rw [insertEntry_append e.1 e.2 acc hlt, ih (acc ++ [e]) (by simpa using h)]
    simp

theorem canonical_sorted (es : List (Bytes × Bytes)) (h : sortedKeys es) : canonical es = es := by
  have := foldl_insertEntry_sorted es [] (by simpa using h)
  simpa [canonical] using this

theorem decodeMembers_strings (es : List (Bytes × Bytes)) :
    ∀ acc : List (Bytes × Bytes),
      decodeMembers acc (es.map (fun e => (e.1, JValue.str e.2)))
        = .ok (es.foldl (fun acc e => insertEntry e.1 e.2 acc) acc) := by
  induction es with
  | nil => intro acc; rfl
  | cons e es ih =>
    intro acc
    simp only [List.map_cons, decodeMembers, storeMember, List.foldl_cons]
    exact ih _

theorem trimSpace_braces (mid : Bytes) : trimSpace (0x7B :: (mid ++ [0x7D])) = 0x7B :: (mid ++ [0x7D]) := by
  have hl : trimLeftSpaceFuel (0x7B :: (mid ++ [0x7D])).length (0x7B :: (mid ++ [0x7D]))
      = 0x7B :: (mid ++ [0x7D]) := by
    simp [trimLeftSpaceFuel, decodeRune, isSpaceRune]
  have hlast : (0x7B :: (mid ++ [0x7D])).getLast? = some 0x7D := by
    rw [show 0x7B :: (mid ++ [0x7D]) = (0x7B :: mid) ++ [0x7D] from rfl, List.getLast?_append]
    simp
  unfold trimSpace
  simp only [hl]
  simp only [List.length_cons, trimRightSpaceFuel, List.isEmpty_cons, Bool.false_eq_true,
    if_false, decodeLastRune, hlast]
  simp [isSpaceRune]

/-- Unmarshalling what `MarshalIndent` writes for a canonical map of valid
UTF-8 strings gives the map back. -/
theorem unmarshalGroups_groupsFileContent (es : List (Bytes × Bytes)) (hs : sortedKeys es)
    (hv : ∀ e ∈ es, validUTF8 e.1 = true ∧ validUTF8 e.2 = true) :
    unmarshalGroups (groupsFileContent (.mk es)) = .ok (.mk es) ∧
    trimSpace (groupsFileContent (.mk es)) ≠ [] := by
  have hne : ¬ (GoMap.mk es = GoMap.nil) := by intro h; cases h
  unfold groupsFileContent
  simp only [hne, if_false, marshalIndentGroups, canonical_sorted es hs]
  cases es with
  | nil => exact ⟨by decide, by decide⟩
  | cons e more =>
    simp only
    constructor
    · unfold unmarshalGroups
      rw [parseJSON_members e more hv]
      simp only [decodeGroups, decodeMembers_strings]
      have := canonical_sorted (e :: more) hs
      unfold canonical at this
      rw [this]
    · have : [0x7B, 0x0A, 0x20, 0x20] ++ encodeMember e ++ encodeMoreMembers more ++ [0x0A, 0x7D]
          = 0x7B :: (([0x0A, 0x20, 0x20] ++ encodeMember e ++ encodeMoreMembers more ++ [0x0A])
              ++ [0x7D]) := by simp
      rw [this, trimSpace_braces]
      simp


/-! ## The round trip through the groups file -/

theorem write_ok_store (fs : FileSystem) (path : String) (data : Bytes)
    (h : (fs.write path data).1 = none) : (fs.write path data).2 = fs.store path data := by
  rcases write_cases fs path data with ⟨eo, hw⟩ | ⟨n, en, hn, hw⟩ | ⟨ec, hw⟩ | hw
  · rw [hw] at h; cases h
  · rw [hw] at h; cases h
  · rw [hw] at h; cases h
  · rw [hw]

theorem SaveAdapterGroups_ok_root (pf : Platform) (groups : GoMap) (w w1 : World)
    (h : SaveAdapterGroups pf groups w = (none, w1)) :
    w.env "APPDATA" ≠ "" ∧ w.fs.mkdirFault (configDir pf w) = none := by
  constructor
  · intro hroot
    simp [SaveAdapterGroups, groupsFilePath, hroot] at h
  · by_contra hdir
    have hroot : w.env "APPDATA" ≠ "" := by
      intro hroot
      simp [SaveAdapterGroups, groupsFilePath, hroot] at h
    unfold configDir at hdir
    cases hm : w.fs.mkdirFault (pf.join [w.env "APPDATA", "NetworkCloud"]) with
    | none => exact hdir hm
    | some em => simp [SaveAdapterGroups, groupsFilePath, hroot, mkdirAll, hm] at h

/-- C2, as amended. Round trip: for every map whose keys and values are valid
UTF-8 (the nil and the empty map included), given as its canonical entry
list, if `SaveAdapterGroups` succeeds and the groups file can be read, then
`GetAdapterGroups` in the resulting world returns, without error, the map with
exactly those entries. -/
theorem C2_groups_round_trip (pf : Platform) (w w1 : World) (groups : GoMap)
    (hsorted : sortedKeys groups.entries)
    (hvalid : ∀ e ∈ groups.entries, validUTF8 e.1 = true ∧ validUTF8 e.2 = true)
    (hsave : SaveAdapterGroups pf groups w = (none, w1))
    (hreadable : w1.fs.readFault (groupsPath pf w) = none) :
    (GetAdapterGroups pf w1).1 = .ok (.mk groups.entries) := by
  obtain ⟨hroot, hdir⟩ := SaveAdapterGroups_ok_root pf groups w w1 hsave
  rw [SaveAdapterGroups_write pf groups w hroot hdir] at hsave
  simp only [writeFile, Prod.mk.injEq] at hsave
  obtain ⟨hres, hw1⟩ := hsave
  rw [write_ok_store _ _ _ hres] at hw1
  have hcontent : groupsFileContent groups = groupsFileContent (.mk groups.entries) := by
    cases groups with
    | nil => decide
    | mk es => rfl
  have henv : w1.env = w.env := by rw [← hw1]
  have hgp : groupsPath pf w1 = groupsPath pf w := by
    unfold groupsPath configDir
    rw [henv]
  have hcd : configDir pf w1 = configDir pf w := by
    unfold configDir
    rw [henv]
  have hroot1 : w1.env "APPDATA" ≠ "" := by rw [henv]; exact hroot
  have hdir1 : w1.fs.mkdirFault (configDir pf w1) = none := by
    rw [hcd, ← hw1]
    exact hdir
  have hread : w1.fs.read (groupsPath pf w) = .ok (groupsFileContent (.mk groups.entries)) := by
    unfold FileSystem.read
    rw [hreadable]
    simp only
    rw [← hw1, hcontent]
    simp [FileSystem.store]
  obtain ⟨hun, htrim⟩ := unmarshalGroups_groupsFileContent groups.entries hsorted hvalid
  have hlen : ¬ (trimSpace (groupsFileContent (.mk groups.entries))).length = 0 := by
    intro h
    exact htrim (List.length_eq_zero.mp h)
  have hne : ¬ (GoMap.mk groups.entries = GoMap.nil) := by intro h; cases h
  rw [GetAdapterGroups_result pf w1 hroot1 hdir1, hgp, hread]
  simp only [hlen, if_false, hun, hne]

/-- Witness for C2 as amended: the scenario of the specification, and a map
with two entries. -/
theorem C2_groups_round_trip_witness :
    (GetAdapterGroups samplePlatform
      (SaveAdapterGroups samplePlatform (.mk [(ascii "AA:BB:CC:DD:EE:FF", ascii "Office")])
        (sampleWorld [] (.error .connectionRefused))).2).1
      = .ok (.mk [(ascii "AA:BB:CC:DD:EE:FF", ascii "Office")]) ∧
    (GetAdapterGroups samplePlatform
      (SaveAdapterGroups samplePlatform sampleGroups
        (sampleWorld [] (.error .connectionRefused))).2).1 = .ok sampleGroups :=
  ⟨C2_groups_round_trip samplePlatform (sampleWorld [] (.error .connectionRefused))
    (SaveAdapterGroups samplePlatform (.mk [(ascii "AA:BB:CC:DD:EE:FF", ascii "Office")])
      (sampleWorld [] (.error .connectionRefused))).2
    (.mk [(ascii "AA:BB:CC:DD:EE:FF", ascii "Office")])
    (by simp [sortedKeys, GoMap.entries])
    (by decide) (Prod.ext (by decide) rfl) (by decide),
   C2_groups_round_trip samplePlatform (sampleWorld [] (.error .connectionRefused))
    (SaveAdapterGroups samplePlatform sampleGroups
      (sampleWorld [] (.error .connectionRefused))).2
    sampleGroups
    (by unfold sortedKeys sampleGroups GoMap.entries; decide)
    (by decide) (Prod.ext (by decide) rfl) (by decide)⟩

/-- Counterexample to C2 as stated: a key holding the byte `0xFF`, which is not
valid UTF-8.  `SaveAdapterGroups` succeeds and writes the key as the escape for
U+FFFD; `GetAdapterGroups` then returns a map whose key is the three bytes of
U+FFFD, not the map that was saved.  And a groups file that can be written but
not read: `SaveAdapterGroups` succeeds, `GetAdapterGroups` fails. -/
theorem C2_counterexample :
    (SaveAdapterGroups samplePlatform (.mk [([0xFF], ascii "Office")])
      (sampleWorld [] (.error .connectionRefused))).1 = none ∧
    (GetAdapterGroups samplePlatform
      (SaveAdapterGroups samplePlatform (.mk [([0xFF], ascii "Office")])
        (sampleWorld [] (.error .connectionRefused))).2).1
      = .ok (.mk [([0xEF, 0xBF, 0xBD], ascii "Office")]) ∧
    (GetAdapterGroups samplePlatform
      (SaveAdapterGroups samplePlatform (.mk [([0xFF], ascii "Office")])
        (sampleWorld [] (.error .connectionRefused))).2).1
      ≠ .ok (.mk [([0xFF], ascii "Office")]) ∧
    (SaveAdapterGroups samplePlatform (.mk [(ascii "AA:BB:CC:DD:EE:FF", ascii "Office")])
      writeOnlyWorld).1 = none ∧
    (GetAdapterGroups samplePlatform
      (SaveAdapterGroups samplePlatform (.mk [(ascii "AA:BB:CC:DD:EE:FF", ascii "Office")])
        writeOnlyWorld).2).1
      = .error (.pathError "open" sampleGroupsFile .permission) := by
  decide

/-! ## Texts of the grammar are read by the scanner -/

theorem isSpaceByte_of_ws (c : Nat) (h : c = 0x20 ∨ c = 0x09 ∨ c = 0x0A ∨ c = 0x0D) :
    isSpaceByte c = true := by
  rcases h with h | h | h | h <;> subst h <;> decide

theorem ws_of_isSpaceByte (c : Nat) (h : isSpaceByte c = true) :
    c = 0x20 ∨ c = 0x09 ∨ c = 0x0A ∨ c = 0x0D := by
  unfold isSpaceByte at h
  simp only [Bool.or_eq_true, decide_eq_true_eq] at h
  omega

theorem IsWs_nil : IsWs [] := fun _ h => by cases h

theorem IsWs_append (a b : Bytes) (ha : IsWs a) (hb : IsWs b) : IsWs (a ++ b) := by
  intro c hc
  rcases List.mem_append.mp hc with h | h
  · exact ha c h
  · exact hb c h

theorem IsWs_snoc (a : Bytes) (c : Nat) (ha : IsWs a) (hc : isSpaceByte c = true) :
    IsWs (a ++ [c]) :=
  IsWs_append a [c] ha (fun x hx => by
    rw [List.mem_singleton] at hx
    subst hx
    exact ws_of_isSpaceByte x hc)

/-- White space leaves a scanner unchanged wherever a single white-space byte
does. -/
theorem scan_ws (st : Scanner) (h : ∀ c, isSpaceByte c = true → step st c = st) (w : Bytes)
    (hw : IsWs w) : scan st w = st := by
  induction w with
  | nil => rfl
  | cons c w ih =>
    rw [scan_cons, h c (isSpaceByte_of_ws c (hw c (List.mem_cons_self _ _)))]
    exact ih (fun x hx => hw x (List.mem_cons_of_mem _ hx))

theorem scan_ws_beginValue (stk : List Frame) (tp : Option JValue) (w : Bytes) (hw : IsWs w) :
    scan ⟨.beginValue, stk, tp⟩ w = ⟨.beginValue, stk, tp⟩ :=
  scan_ws _ (fun c hc => by simp [step, stepBeginValue, hc]) w hw

theorem scan_ws_beginStringOrEmpty (stk : List Frame) (tp : Option JValue) (w : Bytes)
    (hw : IsWs w) :
    scan ⟨.beginStringOrEmpty, stk, tp⟩ w = ⟨.beginStringOrEmpty, stk, tp⟩ :=
  scan_ws _ (fun c hc => by simp [step, hc]) w hw

theorem scan_ws_beginString (stk : List Frame) (tp : Option JValue) (w : Bytes) (hw : IsWs w) :
    scan ⟨.beginString, stk, tp⟩ w = ⟨.beginString, stk, tp⟩ :=
  scan_ws _ (fun c hc => by simp [step, stepBeginString, hc]) w hw

theorem scan_ws_endTop (tp : Option JValue) (w : Bytes) (hw : IsWs w) :
    scan ⟨.endTop, [], tp⟩ w = ⟨.endTop, [], tp⟩ :=
  scan_ws _ (fun c hc => by simp [step, stepEndValue, hc]) w hw

theorem scan_ws_endValue_obj (ms : List (Bytes × JValue)) (key : Option Bytes)
    (tp : Option JValue) (w : Bytes) (hw : IsWs w) :
    scan ⟨.endValue, [.obj ms key], tp⟩ w = ⟨.endValue, [.obj ms key], tp⟩ :=
  scan_ws _ (fun c hc => by cases key <;> simp [step, stepEndValue, hc]) w hw

theorem hexVal_isSome (c : Nat) (h : IsHexDigit c) : (hexVal c).isSome = true := by
  unfold hexVal
  rcases h with h | h | h
  · simp [h]
  · have e1 : ¬ (0x30 ≤ c ∧ c ≤ 0x39) := by omega
    have e2 : ¬ (0x61 ≤ c ∧ c ≤ 0x66) := by omega
    simp [h, e1, e2]
  · have e1 : ¬ (0x30 ≤ c ∧ c ≤ 0x39) := by omega
    simp [h, e1]

theorem isHexDigit_of_isSome (c : Nat) (h : (hexVal c).isSome = true) : IsHexDigit c := by
  unfold hexVal at h
  unfold IsHexDigit
  split_ifs at h with h1 h2 h3
  · exact Or.inl h1
  · exact Or.inr (Or.inr h2)
  · exact Or.inr (Or.inl h3)
  · cases h

theorem scan_item (i : Bytes) (hi : IsStringItem i) (raw : Bytes) (stk : List Frame)
    (tp : Option JValue) :
    scan ⟨.inString raw, stk, tp⟩ i = ⟨.inString (raw ++ i), stk, tp⟩ := by
  cases hi with
  | plain c h1 h2 h3 =>
    rw [scan_cons, step_inString_plain raw stk tp c h1 h2 h3]
    rfl
  | escape e he =>
    rcases he with h | h | h | h | h | h | h | h <;> subst h <;> simp [scan, step]
  | unicode h1 h2 h3 h4 g1 g2 g3 g4 =>
    exact scan_inString_unicode raw stk tp h1 h2 h3 h4 (hexVal_isSome _ g1) (hexVal_isSome _ g2)
      (hexVal_isSome _ g3) (hexVal_isSome _ g4)

/-- The scanner reads a string body byte by byte and keeps it. -/
theorem scan_body (body : Bytes) (hb : IsStringBody body) :
    ∀ (raw : Bytes) (stk : List Frame) (tp : Option JValue),
      scan ⟨.inString raw, stk, tp⟩ body = ⟨.inString (raw ++ body), stk, tp⟩ := by
  induction hb with
  | empty => intro raw stk tp; simp [scan_nil]
  | item i rest hi _ ih =>
    intro raw stk tp
    rw [scan_append, scan_item i hi, ih, List.append_assoc]

theorem IsStringItem_ne_nil (i : Bytes) (hi : IsStringItem i) : i ≠ [] := by
  cases hi <;> simp

/-- The first character of a string body that is not empty. -/
theorem IsStringBody_cons (c : Nat) (rest : Bytes) (h : IsStringBody (c :: rest)) :
    (0x20 ≤ c ∧ c ≠ 0x22 ∧ c ≠ 0x5C ∧ IsStringBody rest) ∨
    (c = 0x5C ∧ ∃ e r, rest = e :: r ∧
      (e = 0x22 ∨ e = 0x5C ∨ e = 0x2F ∨ e = 0x62 ∨ e = 0x66 ∨ e = 0x6E ∨ e = 0x72 ∨ e = 0x74) ∧
      IsStringBody r) ∨
    (c = 0x5C ∧ ∃ h1 h2 h3 h4 r, rest = 0x75 :: h1 :: h2 :: h3 :: h4 :: r ∧
      IsHexDigit h1 ∧ IsHexDigit h2 ∧ IsHexDigit h3 ∧ IsHexDigit h4 ∧ IsStringBody r) := by
  generalize hx : c :: rest = x at h
  cases h with
  | empty => cases hx
  | item i r hi hr =>
    cases hi with
    | plain c1 h1 h2 h3 =>
      simp only [List.singleton_append, List.cons.injEq] at hx
      obtain ⟨rfl, rfl⟩ := hx
      exact Or.inl ⟨h1, h2, h3, hr⟩
    | escape e he =>
      simp only [List.cons_append, List.nil_append, List.cons.injEq] at hx
      obtain ⟨rfl, rfl⟩ := hx
      exact Or.inr (Or.inl ⟨rfl, e, r, rfl, he, hr⟩)
    | unicode h1 h2 h3 h4 g1 g2 g3 g4 =>
      simp only [List.cons_append, List.nil_append, List.cons.injEq] at hx
      obtain ⟨rfl, rfl⟩ := hx
      exact Or.inr (Or.inr ⟨rfl, h1, h2, h3, h4, r, rfl, g1, g2, g3, g4, hr⟩)

theorem IsStringBody_high (b : Nat) (t : Bytes) (h : IsStringBody (b :: t)) (hb : 0x80 ≤ b) :
    IsStringBody t := by
  rcases IsStringBody_cons b t h with ⟨_, _, _, h⟩ | ⟨h, _⟩ | ⟨h, _⟩
  · exact h
  · omega
  · omega

theorem getu4_shape (s : Bytes) (r : Nat) (h : getu4 s = some r) :
    ∃ h1 h2 h3 h4 t, s = 0x5C :: 0x75 :: h1 :: h2 :: h3 :: h4 :: t := by
  unfold getu4 at h
  split at h
  · rename_i b u h1 h2 h3 h4 t
    split_ifs at h with hc
    obtain ⟨rfl, rfl⟩ := hc
    exact ⟨h1, h2, h3, h4, t, rfl⟩
  · cases h

theorem getu4_isSome (h1 h2 h3 h4 : Nat) (t : Bytes) (g1 : IsHexDigit h1) (g2 : IsHexDigit h2)
    (g3 : IsHexDigit h3) (g4 : IsHexDigit h4) :
    ∃ r, getu4 (0x5C :: 0x75 :: h1 :: h2 :: h3 :: h4 :: t) = some r := by
  obtain ⟨a, ha⟩ := Option.isSome_iff_exists.mp (hexVal_isSome _ g1)
  obtain ⟨b, hb⟩ := Option.isSome_iff_exists.mp (hexVal_isSome _ g2)
  obtain ⟨c, hc⟩ := Option.isSome_iff_exists.mp (hexVal_isSome _ g3)
  obtain ⟨d, hd⟩ := Option.isSome_iff_exists.mp (hexVal_isSome _ g4)
  refine ⟨a * 0x1000 + b * 0x100 + c * 0x10 + d, ?_⟩
  simp [getu4, ha, hb, hc, hd]

theorem acceptLo_ge (b : Nat) : 0x80 ≤ acceptLo b := by
  unfold acceptLo; split_ifs <;> omega

/-- What `unquoteBytes` skips after a byte from 0x80 up is a string body
again. -/
theorem IsStringBody_drop_rune (c : Nat) (rest : Bytes) (hc : 0x80 ≤ c)
    (h : IsStringBody (c :: rest)) :
    IsStringBody ((c :: rest).drop (decodeRune (c :: rest)).2) ∧
    1 ≤ (decodeRune (c :: rest)).2 := by
  have hrest := IsStringBody_high c rest h hc
  by_cases hv : (decodeRune (c :: rest)).1 = runeError ∧ (decodeRune (c :: rest)).2 = 1
  · rw [hv.2]
    exact ⟨hrest, le_refl _⟩
  · rcases decodeRune_shape c rest hc hv with ⟨b1, t, rfl, h0, h1, h2, h3⟩ |
      ⟨b1, b2, t, rfl, h0, h1, h2, h3, h4, h5⟩ |
      ⟨b1, b2, b3, t, rfl, h0, h1, h2, h3, h4, h5, h6, h7⟩
    · rw [decodeRune_two c b1 t h0 h1 h2 h3]
      exact ⟨IsStringBody_high b1 t hrest h2, by simp⟩
    · rw [decodeRune_three c b1 b2 t h0 h1 h2 h3 h4 h5]
      have := acceptLo_ge c
      exact ⟨IsStringBody_high b2 t (IsStringBody_high b1 _ hrest (by omega)) h4, by simp⟩
    · rw [decodeRune_four c b1 b2 b3 t h0 h1 h2 h3 h4 h5 h6 h7]
      have := acceptLo_ge c
      exact ⟨IsStringBody_high b3 t (IsStringBody_high b2 _
        (IsStringBody_high b1 _ hrest (by omega)) h4) h6, by simp⟩

/-- The decoder of string literals accepts every string body. -/
theorem unquoteFuel_body : ∀ (fuel : Nat) (raw : Bytes), raw.length ≤ fuel → IsStringBody raw →
    (unquoteFuel fuel raw).isSome = true := by
  intro fuel
  induction fuel with
  | zero =>
    intro raw hl _
    have : raw = [] := List.length_eq_zero.mp (by omega)
    subst this
    rfl
  | succ fuel ih =>
    intro raw hl hb
    rcases raw with _ | ⟨c, rest⟩
    · rfl
    simp only [List.length_cons] at hl
    rcases IsStringBody_cons c rest hb with ⟨h1, h2, h3, hr⟩ | ⟨rfl, e, r, rfl, he, hr⟩ |
      ⟨rfl, h1, h2, h3, h4, r, rfl, g1, g2, g3, g4, hr⟩
    · have e1 : ¬ (c = 0x22 ∨ c < 0x20) := by omega
      by_cases hc : c < 0x80
      · obtain ⟨s, hs⟩ := Option.isSome_iff_exists.mp (ih rest (by omega) hr)
        simp only [unquoteFuel, h3, e1, hc, if_false, if_true, hs, Option.map_some']
        rfl
      · obtain ⟨hd, hpos⟩ := IsStringBody_drop_rune c rest (by omega) hb
        obtain ⟨s, hs⟩ := Option.isSome_iff_exists.mp (ih _ (by
          rw [List.length_drop]; simp only [List.length_cons]; omega) hd)
        simp only [unquoteFuel, h3, e1, hc, if_false, hs, Option.map_some']
        rfl
    · simp only [List.length_cons] at hl
      obtain ⟨s, hs⟩ := Option.isSome_iff_exists.mp (ih r (by omega) hr)
      have e1 : e ≠ 0x75 := by omega
      have e2 : ∃ b, unescapeByte e = some b := by
        rcases he with h | h | h | h | h | h | h | h <;> subst h <;> exact ⟨_, rfl⟩
      obtain ⟨b, hb2⟩ := e2
      simp only [unquoteFuel, if_true, e1, if_false, hb2, hs, Option.map_some']
      rfl
    · simp only [List.length_cons] at hl
      obtain ⟨rr, hrr⟩ := getu4_isSome h1 h2 h3 h4 r g1 g2 g3 g4
      obtain ⟨s, hs⟩ := Option.isSome_iff_exists.mp (ih r (by omega) hr)
      have hdrop : (h1 :: h2 :: h3 :: h4 :: r).drop 4 = r := rfl
      simp only [unquoteFuel, if_true, hrr, hdrop]
      by_cases hsur : 0xD800 ≤ rr ∧ rr < 0xE000
      · simp only [hsur, and_self, if_true]
        cases hg : getu4 r with
        | none =>
          simp only [hs, Option.map_some']
          rfl
        | some rr1 =>
          simp only
          by_cases hp : utf16DecodeRune rr rr1 ≠ runeError
          · simp only [hp, ne_eq, not_false_eq_true, if_true]
            obtain ⟨k1, k2, k3, k4, t, rfl⟩ := getu4_shape r rr1 hg
            have ht : IsStringBody t := by
              rcases IsStringBody_cons _ _ hr with ⟨_, _, h, _⟩ | ⟨_, e, r1, he, hl, _⟩ |
                ⟨_, a1, a2, a3, a4, r1, he, _, _, _, _, h⟩
              · exact absurd rfl h
              · simp only [List.cons.injEq] at he
                omega
              · simp only [List.cons.injEq] at he
                obtain ⟨_, _, _, _, _, rfl⟩ := he
                exact h
            obtain ⟨s2, hs2⟩ := Option.isSome_iff_exists.mp
              (ih t (by simp only [List.length_cons] at hl; omega) ht)
            have hd6 : (0x5C :: 0x75 :: k1 :: k2 :: k3 :: k4 :: t).drop 6 = t := rfl
            simp only [hd6, hs2, Option.map_some']
            rfl
          · simp only [hp, if_false]
            simp only [hs, Option.map_some']
            rfl
      · simp only [hsur, if_false]
        simp only [hs, Option.map_some']
        rfl

theorem unquote_body (raw : Bytes) (h : IsStringBody raw) : ∃ s, unquote raw = some s :=
  Option.isSome_iff_exists.mp (unquoteFuel_body raw.length raw (le_refl _) h)

/-- A string literal, read where the opening quote starts a string, delivers
a string value. -/
theorem scan_stringLit (t : Bytes) (ht : IsStringLit t) (m : Mode) (stk : List Frame)
    (tp : Option JValue)
    (hq : step ⟨m, stk, tp⟩ 0x22 = ⟨.inString [], stk, tp⟩) :
    ∃ s, scan ⟨m, stk, tp⟩ t = deliver (.str s) ⟨m, stk, tp⟩ := by
  obtain ⟨raw, hb, rfl⟩ := ht
  obtain ⟨s, hs⟩ := unquote_body raw hb
  refine ⟨s, ?_⟩
  rw [List.append_assoc, List.singleton_append, scan_cons, hq, scan_append, scan_body raw hb,
    List.nil_append, scan_cons, scan_nil]
  simp only [step, if_true, hs]
  exact deliver_mode (.str s) ⟨m, stk, tp⟩ (.inString raw)

theorem all_memberOK_append (a : Bool) (ms : List (Bytes × JValue)) (k : Bytes) (v : JValue)
    (h : ms.all (memberOK a) = true) (hv : memberOK a (k, v) = true) :
    (ms ++ [(k, v)]).all (memberOK a) = true := by
  simp only [List.all_append, h, List.all_cons, hv, List.all_nil, Bool.and_self]

/-- A member, read where a member name may begin, is added to the members of
the object. -/
theorem scan_memberText (a : Bool) (t : Bytes) (ht : IsMember a t) (m : Mode)
    (hm : m = .beginString ∨ m = .beginStringOrEmpty) (ms : List (Bytes × JValue)) :
    ∃ k v, scan ⟨m, [.obj ms none], none⟩ t = ⟨.endValue, [.obj (ms ++ [(k, v)]) none], none⟩ ∧
      memberOK a (k, v) = true := by
  obtain ⟨kt, w1, w2, vt, hk, hw1, hw2, hv, rfl⟩ := ht
  have hq : step ⟨m, [.obj ms none], none⟩ 0x22 = ⟨.inString [], [.obj ms none], none⟩ := by
    rcases hm with rfl | rfl <;> simp [step, stepBeginString, isSpaceByte]
  obtain ⟨k, hks⟩ := scan_stringLit kt hk m _ _ hq
  have hd : deliver (.str k) ⟨m, [.obj ms none], none⟩
      = ⟨.endValue, [.obj ms (some k)], none⟩ := by
    simp [deliver]
  have hcolon : step ⟨.endValue, [.obj ms (some k)], none⟩ 0x3A
      = ⟨.beginValue, [.obj ms (some k)], none⟩ := by
    simp [step, stepEndValue, isSpaceByte]
  have hpre : scan ⟨m, [.obj ms none], none⟩ (kt ++ w1 ++ [0x3A] ++ w2)
      = ⟨.beginValue, [.obj ms (some k)], none⟩ := by
    rw [scan_append, scan_append, scan_append, hks, hd, scan_ws_endValue_obj _ _ _ w1 hw1,
      scan_cons, scan_nil, hcolon, scan_ws_beginValue _ _ w2 hw2]
  rw [scan_append, hpre]
  rcases hv with hv | ⟨ha, rfl⟩
  · have hq2 : step ⟨.beginValue, [.obj ms (some k)], none⟩ 0x22
        = ⟨.inString [], [.obj ms (some k)], none⟩ := by
      simp [step, stepBeginValue, isSpaceByte]
    obtain ⟨s, hs⟩ := scan_stringLit vt hv _ _ _ hq2
    refine ⟨k, .str s, ?_, rfl⟩
    rw [hs]
    simp [deliver]
  · refine ⟨k, .null, ?_, by simp [memberOK, ha]⟩
    simp [ascii, scan, step, stepBeginValue, isSpaceByte, deliver]

/-- Members, read after the opening brace, become the members of the
object. -/
theorem scan_membersText (a : Bool) (M : Bytes) (hM : IsMembers a M) :
    ∃ ms, scan ⟨.beginStringOrEmpty, [.obj [] none], none⟩ M
        = ⟨.endValue, [.obj ms none], none⟩ ∧ ms.all (memberOK a) = true := by
  induction hM with
  | one w1 m w2 hw1 hm hw2 =>
    obtain ⟨k, v, hs, hv⟩ := scan_memberText a m hm .beginStringOrEmpty (Or.inr rfl) []
    refine ⟨[(k, v)], ?_, by simp [hv]⟩
    rw [scan_append, scan_append, scan_ws_beginStringOrEmpty _ _ w1 hw1, hs,
      scan_ws_endValue_obj _ _ _ w2 hw2]
    rfl
  | more M w1 m w2 _ hw1 hm hw2 ih =>
    obtain ⟨ms, hms, hall⟩ := ih
    obtain ⟨k, v, hs, hv⟩ := scan_memberText a m hm .beginString (Or.inl rfl) ms
    refine ⟨ms ++ [(k, v)], ?_, all_memberOK_append a ms k v hall hv⟩
    have hcomma : step ⟨.endValue, [.obj ms none], none⟩ 0x2C
        = ⟨.beginString, [.obj ms none], none⟩ := by
      simp [step, stepEndValue, isSpaceByte]
    rw [scan_append, scan_append, scan_append, scan_append, hms, scan_cons, scan_nil, hcomma,
      scan_ws_beginString _ _ w1 hw1, hs, scan_ws_endValue_obj _ _ _ w2 hw2]

/-- An object of the grammar, read at the beginning of a text, is the value of
the text. -/
theorem scan_objectText (a : Bool) (t : Bytes) (ht : IsObjectText a t) :
    ∃ ms, scan ⟨.beginValue, [], none⟩ t = ⟨.endTop, [], some (.obj ms)⟩ ∧
      ms.all (memberOK a) = true := by
  have hopen : step ⟨.beginValue, [], none⟩ 0x7B
      = ⟨.beginStringOrEmpty, [.obj [] none], none⟩ := by
    simp [step, stepBeginValue, isSpaceByte, pushFrame, maxNestingDepth]
  rcases ht with ⟨w, hw, rfl⟩ | ⟨M, hM, rfl⟩
  · refine ⟨[], ?_, rfl⟩
    rw [List.append_assoc, List.singleton_append, scan_cons, hopen, scan_append,
      scan_ws_beginStringOrEmpty _ _ w hw]
    simp [scan, step, stepEndValue, isSpaceByte, deliver]
  · obtain ⟨ms, hms, hall⟩ := scan_membersText a M hM
    refine ⟨ms, ?_, hall⟩
    rw [List.append_assoc, List.singleton_append, scan_cons, hopen, scan_append, hms]
    simp [scan, step, stepEndValue, isSpaceByte, deliver]

theorem parseJSON_of_scan (w1 t w2 : Bytes) (v : JValue) (hw1 : IsWs w1) (hw2 : IsWs w2)
    (h : scan ⟨.beginValue, [], none⟩ t = ⟨.endTop, [], some v⟩) :
    parseJSON (w1 ++ t ++ w2) = .ok v := by
  unfold parseJSON Scanner.initial
  rw [scan_append, scan_append, scan_ws_beginValue _ _ w1 hw1, h, scan_ws_endTop _ w2 hw2]
  simp [step, stepEndValue, isSpaceByte]

theorem isStringObject_iff (ms : List (Bytes × JValue)) :
    isStringObject (.obj ms) = ms.all (memberOK false) := by
  show ms.all _ = ms.all (memberOK false)
  congr 1
  funext m
  unfold memberOK
  cases m.2 <;> rfl

theorem isGroupsValue_iff (ms : List (Bytes × JValue)) :
    isGroupsValue (.obj ms) = ms.all (memberOK true) := by
  show ms.all _ = ms.all (memberOK true)
  congr 1

/-- Completeness of the reader for the grammar of the specification: a
well-formed text for a string-to-string object is read as an object all of
whose member values are strings. -/
theorem stringObjectText_reads (data : Bytes) (h : StringObjectText data) :
    ∃ v, parseJSON data = .ok v ∧ isStringObject v = true := by
  obtain ⟨w1, t, w2, hw1, ht, hw2, rfl⟩ := h
  obtain ⟨ms, hs, hall⟩ := scan_objectText false t ht
  exact ⟨.obj ms, parseJSON_of_scan w1 t w2 _ hw1 hw2 hs, by rw [isStringObject_iff]; exact hall⟩

/-- Completeness of the reader for the grammar with `null`: a well-formed text
for `null` or for an object with strings and `null` as member values is read
as such a value. -/
theorem groupsText_reads (data : Bytes) (h : GroupsText data) :
    ∃ v, parseJSON data = .ok v ∧ isGroupsValue v = true := by
  obtain ⟨w1, t, w2, hw1, ht, hw2, rfl⟩ := h
  rcases ht with rfl | ht
  · exact ⟨.null, parseJSON_of_scan w1 _ w2 _ hw1 hw2 (by simp [ascii, scan, step, stepBeginValue, isSpaceByte, deliver]), rfl⟩
  · obtain ⟨ms, hs, hall⟩ := scan_objectText true t ht
    exact ⟨.obj ms, parseJSON_of_scan w1 t w2 _ hw1 hw2 hs, by rw [isGroupsValue_iff]; exact hall⟩

/-! ## Texts the scanner reads as a map of strings are texts of the grammar -/

theorem IsStringBody_append (a b : Bytes) (ha : IsStringBody a) (hb : IsStringBody b) :
    IsStringBody (a ++ b) := by
  induction ha with
  | empty => exact hb
  | item i rest hi _ ih =>
    rw [List.append_assoc]
    exact IsStringBody.item i (rest ++ b) hi ih

theorem IsStringBody_snoc (a i : Bytes) (ha : IsStringBody a) (hi : IsStringItem i) :
    IsStringBody (a ++ i) := by
  have := IsStringBody_append a (i ++ []) ha (IsStringBody.item i [] hi IsStringBody.empty)
  rwa [List.append_nil] at this

theorem IsMembers_snoc_ws (M : Bytes) (c : Nat) (hM : IsMembers true M)
    (hc : isSpaceByte c = true) : IsMembers true (M ++ [c]) := by
  cases hM with
  | one w1 m w2 hw1 hm hw2 =>
    rw [List.append_assoc]
    exact IsMembers.one w1 m (w2 ++ [c]) hw1 hm (IsWs_snoc w2 c hw2 hc)
  | more M0 w1 m w2 hM0 hw1 hm hw2 =>
    rw [List.append_assoc]
    exact IsMembers.more M0 w1 m (w2 ++ [c]) hM0 hw1 hm (IsWs_snoc w2 c hw2 hc)

theorem KeyFirst_snoc_ws (p : Bytes) (c : Nat) (h : KeyFirst p) (hc : isSpaceByte c = true) :
    KeyFirst (p ++ [c]) := by
  obtain ⟨w0, w, hw0, hw, rfl⟩ := h
  exact ⟨w0, w ++ [c], hw0, IsWs_snoc w c hw hc, by simp only [List.append_assoc]⟩

theorem KeyMore_snoc_ws (p : Bytes) (c : Nat) (h : KeyMore p) (hc : isSpaceByte c = true) :
    KeyMore (p ++ [c]) := by
  obtain ⟨w0, M, w, hw0, hM, hw, rfl⟩ := h
  exact ⟨w0, M, w ++ [c], hw0, hM, IsWs_snoc w c hw hc, by simp only [List.append_assoc]⟩

theorem AfterKey_snoc_ws (p : Bytes) (c : Nat) (h : AfterKey p) (hc : isSpaceByte c = true) :
    AfterKey (p ++ [c]) := by
  obtain ⟨q, k, w, hq, hk, hw, rfl⟩ := h
  exact ⟨q, k, w ++ [c], hq, hk, IsWs_snoc w c hw hc, by simp only [List.append_assoc]⟩

theorem ValPos_snoc_ws (p : Bytes) (c : Nat) (h : ValPos p) (hc : isSpaceByte c = true) :
    ValPos (p ++ [c]) := by
  obtain ⟨q, w, hq, hw, rfl⟩ := h
  exact ⟨q, w ++ [c], hq, IsWs_snoc w c hw hc, by simp only [List.append_assoc]⟩

theorem AfterMember_snoc_ws (p : Bytes) (c : Nat) (h : AfterMember p)
    (hc : isSpaceByte c = true) : AfterMember (p ++ [c]) := by
  obtain ⟨w0, M, hw0, hM, rfl⟩ := h
  exact ⟨w0, M ++ [c], hw0, IsMembers_snoc_ws M c hM hc, by simp only [List.append_assoc]⟩

theorem GroupsText_snoc_ws (p : Bytes) (c : Nat) (h : GroupsText p) (hc : isSpaceByte c = true) :
    GroupsText (p ++ [c]) := by
  obtain ⟨w1, t, w2, hw1, ht, hw2, rfl⟩ := h
  exact ⟨w1, t, w2 ++ [c], hw1, ht, IsWs_snoc w2 c hw2 hc, by simp only [List.append_assoc]⟩

/-- A value at the place of a member value completes a member. -/
theorem AfterMember_of_value (q v : Bytes) (hq : ValPos q) (hv : IsMemberValue true v) :
    AfterMember (q ++ v) := by
  obtain ⟨q1, w2, ⟨q0, k, w1, hq0, hk, hw1, rfl⟩, hw2, rfl⟩ := hq
  have hm : IsMember true (k ++ w1 ++ [0x3A] ++ w2 ++ v) := ⟨k, w1, w2, v, hk, hw1, hw2, hv, rfl⟩
  rcases hq0 with ⟨w0, w, hw0, hw, rfl⟩ | ⟨w0, M, w, hw0, hM, hw, rfl⟩
  · refine ⟨w0, w ++ (k ++ w1 ++ [0x3A] ++ w2 ++ v) ++ [], hw0,
      IsMembers.one w _ [] hw hm IsWs_nil, ?_⟩
    simp only [List.append_assoc, List.append_nil]
  · refine ⟨w0, M ++ [0x2C] ++ w ++ (k ++ w1 ++ [0x3A] ++ w2 ++ v) ++ [], hw0,
      IsMembers.more M w _ [] hM hw hm IsWs_nil, ?_⟩
    simp only [List.append_assoc, List.append_nil]

theorem isGroupsValue_append (ms : List (Bytes × JValue)) (k : Bytes) (v : JValue) :
    isGroupsValue (.obj (ms ++ [(k, v)])) = (isGroupsValue (.obj ms) && memberOK true (k, v)) := by
  rw [isGroupsValue_iff, isGroupsValue_iff]
  simp only [List.all_append, List.all_cons, List.all_nil, Bool.and_true]

/-! ### States from which no map of strings can come -/

theorem Dead_failed (stk : List Frame) (tp : Option JValue) : Dead ⟨.failed, stk, tp⟩ :=
  Or.inl rfl

theorem Dead_fail (st : Scanner) : Dead st.fail := Or.inl rfl

theorem Dead_top (v : JValue) (h : isGroupsValue v = false) : Dead ⟨.endTop, [], some v⟩ :=
  Or.inr (Or.inl ⟨rfl, rfl, v, rfl, h⟩)

theorem Dead_doomed (m : Mode) (stk : List Frame) (h : doomedStack stk = true) :
    Dead ⟨m, stk, none⟩ :=
  Or.inr (Or.inr (Or.inl ⟨rfl, h⟩))

theorem Dead_scalarMember (m : Mode) (ms : List (Bytes × JValue)) (k : Bytes)
    (h : scalarMode m = true) : Dead ⟨m, [.obj ms (some k)], none⟩ :=
  Or.inr (Or.inr (Or.inr (Or.inl ⟨rfl, h, ms, k, rfl⟩)))

theorem Dead_scalarTop (m : Mode) (h : (scalarMode m || stringMode m) = true) :
    Dead ⟨m, [], none⟩ :=
  Or.inr (Or.inr (Or.inr (Or.inr ⟨rfl, rfl, h⟩)))

theorem doomedStack_cons_cons (f g : Frame) (s : List Frame) : doomedStack (f :: g :: s) = true := by
  cases f <;> rfl

theorem doomedStack_push (f : Frame) (s : List Frame) (h : s ≠ []) : doomedStack (f :: s) = true := by
  rcases s with _ | ⟨g, s⟩
  · exact absurd rfl h
  · exact doomedStack_cons_cons f g s

/-- A value that is neither a string nor `null`, completed inside an array or
object, leaves a state from which no map of strings can come. -/
theorem deliver_bad (v : JValue) (m : Mode) (f : Frame) (s : List Frame)
    (hv : ∀ k, memberOK true (k, v) = false) : Dead (deliver v ⟨m, f :: s, none⟩) := by
  cases f with
  | arr es =>
    apply Dead_doomed
    rcases s with _ | ⟨g, s⟩
    · rfl
    · rfl
  | obj ms key =>
    cases key with
    | none =>
      cases v with
      | str k => exact absurd (hv []) (by simp [memberOK])
      | _ => exact Dead_fail _
    | some k =>
      apply Dead_doomed
      rcases s with _ | ⟨g, s⟩
      · show (!isGroupsValue (.obj (ms ++ [(k, v)]))) = true
        rw [isGroupsValue_append, hv k]
        simp
      · rfl

/-- Any value completed on a doomed stack leaves the stack doomed. -/
theorem deliver_doomed (v : JValue) (m : Mode) (stk : List Frame)
    (h : doomedStack stk = true) :
    ∃ m1 stk1, deliver v ⟨m, stk, none⟩ = ⟨m1, stk1, none⟩ ∧ doomedStack stk1 = true := by
  rcases stk with _ | ⟨f, s⟩
  · cases h
  cases f with
  | arr es =>
    refine ⟨_, _, rfl, ?_⟩
    rcases s with _ | ⟨g, s⟩ <;> rfl
  | obj ms key =>
    cases key with
    | none =>
      cases v with
      | str k =>
        refine ⟨_, _, rfl, ?_⟩
        rcases s with _ | ⟨g, s⟩
        · exact h
        · rfl
      | _ => exact ⟨_, _, rfl, h⟩
    | some k =>
      refine ⟨_, _, rfl, ?_⟩
      rcases s with _ | ⟨g, s⟩
      · have h1 : isGroupsValue (.obj ms) = false := by
          have : (!isGroupsValue (.obj ms)) = true := h
          simpa using this
        show (!isGroupsValue (.obj (ms ++ [(k, v)]))) = true
        rw [isGroupsValue_append, h1]
        rfl
      · rfl

/-- The end of a value, an array or an object on a doomed stack. -/
theorem stepEndValue_doomed (m : Mode) (stk : List Frame) (c : Nat)
    (h : doomedStack stk = true) : Dead (stepEndValue ⟨m, stk, none⟩ c) := by
  rcases stk with _ | ⟨f, s⟩
  · cases h
  cases f with
  | arr es =>
    simp only [stepEndValue]
    split_ifs
    · exact Dead_doomed _ _ h
    · exact Dead_doomed _ _ h
    · rcases s with _ | ⟨g, s⟩
      · exact Dead_top _ rfl
      · exact deliver_bad _ _ g s (fun _ => rfl)
    · exact Dead_fail _
  | obj ms key =>
    cases key with
    | some k =>
      simp only [stepEndValue]
      split_ifs
      · exact Dead_doomed _ _ h
      · exact Dead_doomed _ _ h
      · exact Dead_fail _
    | none =>
      simp only [stepEndValue]
      split_ifs
      · exact Dead_doomed _ _ h
      · exact Dead_doomed _ _ h
      · rcases s with _ | ⟨g, s⟩
        · apply Dead_top
          have : (!isGroupsValue (.obj ms)) = true := h
          simpa using this
        · exact deliver_bad _ _ g s (fun _ => rfl)
      · exact Dead_fail _

theorem pushFrame_doomed (f : Frame) (m1 m : Mode) (stk : List Frame) (h : stk ≠ []) :
    Dead (pushFrame f m1 ⟨m, stk, none⟩) := by
  unfold pushFrame
  split_ifs
  · exact Dead_doomed _ _ (doomedStack_push f stk h)
  · exact Dead_fail _

/-- What `stateBeginValue` does with a byte. -/
theorem stepBeginValue_cases (st : Scanner) (c : Nat) :
    (isSpaceByte c = true ∧ stepBeginValue st c = st) ∨
    (c = 0x7B ∧ stepBeginValue st c = pushFrame (.obj [] none) .beginStringOrEmpty st) ∨
    (c = 0x5B ∧ stepBeginValue st c = pushFrame (.arr []) .beginValueOrEmpty st) ∨
    (c = 0x22 ∧ stepBeginValue st c = { st with mode := .inString [] }) ∨
    (c = 0x6E ∧ stepBeginValue st c = { st with mode := .word (ascii "ull") .null }) ∨
    (∃ m, scalarMode m = true ∧ stepBeginValue st c = { st with mode := m }) ∨
    stepBeginValue st c = st.fail := by
  unfold stepBeginValue
  by_cases h1 : isSpaceByte c = true
  · rw [if_pos h1]; exact Or.inl ⟨h1, rfl⟩
  rw [if_neg h1]
  by_cases h2 : c = 0x7B
  · rw [if_pos h2]; exact Or.inr (Or.inl ⟨h2, rfl⟩)
  rw [if_neg h2]
  by_cases h3 : c = 0x5B
  · rw [if_pos h3]; exact Or.inr (Or.inr (Or.inl ⟨h3, rfl⟩))
  rw [if_neg h3]
  by_cases h4 : c = 0x22
  · rw [if_pos h4]; exact Or.inr (Or.inr (Or.inr (Or.inl ⟨h4, rfl⟩)))
  rw [if_neg h4]
  by_cases h5 : c = 0x2D
  · rw [if_pos h5]; exact Or.inr (Or.inr (Or.inr (Or.inr (Or.inr (Or.inl ⟨Mode.neg [c], rfl, rfl⟩)))))
  rw [if_neg h5]
  by_cases h6 : c = 0x30
  · rw [if_pos h6]; exact Or.inr (Or.inr (Or.inr (Or.inr (Or.inr (Or.inl ⟨Mode.zero [c], rfl, rfl⟩)))))
  rw [if_neg h6]
  by_cases h7 : c = 0x74
  · rw [if_pos h7]; exact Or.inr (Or.inr (Or.inr (Or.inr (Or.inr (Or.inl ⟨Mode.word (ascii "rue") (.bool true), rfl, rfl⟩)))))
  rw [if_neg h7]
  by_cases h8 : c = 0x66
  · rw [if_pos h8]; exact Or.inr (Or.inr (Or.inr (Or.inr (Or.inr (Or.inl ⟨Mode.word (ascii "alse") (.bool false), rfl, rfl⟩)))))
  rw [if_neg h8]
  by_cases h9 : c = 0x6E
  · rw [if_pos h9]; exact Or.inr (Or.inr (Or.inr (Or.inr (Or.inl ⟨h9, rfl⟩))))
  rw [if_neg h9]
  by_cases h10 : 0x31 ≤ c ∧ c ≤ 0x39
  · rw [if_pos h10]; exact Or.inr (Or.inr (Or.inr (Or.inr (Or.inr (Or.inl ⟨Mode.digits [c], rfl, rfl⟩)))))
  rw [if_neg h10]
  exact Or.inr (Or.inr (Or.inr (Or.inr (Or.inr (Or.inr rfl)))))

/-- What `stateBeginString` does with a byte. -/
theorem stepBeginString_cases (st : Scanner) (c : Nat) :
    (isSpaceByte c = true ∧ stepBeginString st c = st) ∨
    (c = 0x22 ∧ stepBeginString st c = { st with mode := .inString [] }) ∨
    stepBeginString st c = st.fail := by
  unfold stepBeginString
  by_cases h1 : isSpaceByte c = true
  · rw [if_pos h1]; exact Or.inl ⟨h1, rfl⟩
  rw [if_neg h1]
  by_cases h4 : c = 0x22
  · rw [if_pos h4]; exact Or.inr (Or.inl ⟨h4, rfl⟩)
  rw [if_neg h4]
  exact Or.inr (Or.inr rfl)

/-- The shapes of a step of the scanner: at most a change of mode, the end of
a value, a new array or object, a completed value, or a completed number
followed by the end of a value. -/
theorem step_shape (st : Scanner) (c : Nat) :
    (∃ m, step st c = { st with mode := m }) ∨
    step st c = stepEndValue st c ∨
    (∃ f m, step st c = pushFrame f m st) ∨
    (∃ v, step st c = deliver v st) ∨
    (∃ v, step st c = stepEndValue (deliver v st) c) := by
  rcases st with ⟨m, stk, tp⟩
  have hbv : (∃ m1, stepBeginValue ⟨m, stk, tp⟩ c = ⟨m1, stk, tp⟩) ∨
      (∃ f m1, stepBeginValue ⟨m, stk, tp⟩ c = pushFrame f m1 ⟨m, stk, tp⟩) := by
    rcases stepBeginValue_cases ⟨m, stk, tp⟩ c with ⟨_, h⟩ | ⟨_, h⟩ | ⟨_, h⟩ | ⟨_, h⟩ | ⟨_, h⟩ |
      ⟨m1, _, h⟩ | h
    · exact Or.inl ⟨m, h⟩
    · exact Or.inr ⟨_, _, h⟩
    · exact Or.inr ⟨_, _, h⟩
    · exact Or.inl ⟨_, h⟩
    · exact Or.inl ⟨_, h⟩
    · exact Or.inl ⟨_, h⟩
    · exact Or.inl ⟨_, h⟩
  have hbs : ∃ m1, stepBeginString ⟨m, stk, tp⟩ c = ⟨m1, stk, tp⟩ := by
    rcases stepBeginString_cases ⟨m, stk, tp⟩ c with ⟨_, h⟩ | ⟨_, h⟩ | h
    · exact ⟨m, h⟩
    · exact ⟨_, h⟩
    · exact ⟨_, h⟩
  cases m
  case beginValue =>
    rcases hbv with ⟨m1, h⟩ | ⟨f, m1, h⟩
    · exact Or.inl ⟨m1, h⟩
    · exact Or.inr (Or.inr (Or.inl ⟨f, m1, h⟩))
  case beginValueOrEmpty =>
    simp only [step]
    split_ifs
    · exact Or.inl ⟨_, rfl⟩
    · exact Or.inr (Or.inl rfl)
    · rcases hbv with ⟨m1, h⟩ | ⟨f, m1, h⟩
      · exact Or.inl ⟨m1, h⟩
      · exact Or.inr (Or.inr (Or.inl ⟨f, m1, h⟩))
  case beginStringOrEmpty =>
    simp only [step]
    split_ifs
    · exact Or.inl ⟨_, rfl⟩
    · exact Or.inr (Or.inl rfl)
    · obtain ⟨m1, h⟩ := hbs
      exact Or.inl ⟨m1, h⟩
  case beginString =>
    obtain ⟨m1, h⟩ := hbs
    exact Or.inl ⟨m1, h⟩
  case endValue => exact Or.inr (Or.inl rfl)
  case endTop => exact Or.inr (Or.inl rfl)
  case failed => exact Or.inl ⟨_, rfl⟩
  case inString raw =>
    simp only [step]
    split_ifs
    · cases unquote raw with
      | none => exact Or.inl ⟨_, rfl⟩
      | some s => exact Or.inr (Or.inr (Or.inr (Or.inl ⟨_, rfl⟩)))
    all_goals exact Or.inl ⟨_, rfl⟩
  case word e v =>
    rcases e with _ | ⟨e0, more⟩
    · exact Or.inl ⟨_, rfl⟩
    · simp only [step]
      split_ifs
      · exact Or.inr (Or.inr (Or.inr (Or.inl ⟨_, rfl⟩)))
      all_goals exact Or.inl ⟨_, rfl⟩
  all_goals
    simp only [step, endNumber]
    split_ifs
    all_goals first
      | exact Or.inl ⟨_, rfl⟩
      | exact Or.inr (Or.inr (Or.inr (Or.inr ⟨_, rfl⟩)))

/-- A doomed stack stays doomed, or ends in a value that is no map of
strings. -/
theorem step_doomed (m : Mode) (stk : List Frame) (c : Nat) (h : doomedStack stk = true) :
    Dead (step ⟨m, stk, none⟩ c) := by
  have hne : stk ≠ [] := by
    rintro rfl
    cases h
  rcases step_shape ⟨m, stk, none⟩ c with ⟨m1, hs⟩ | hs | ⟨f, m1, hs⟩ | ⟨v, hs⟩ | ⟨v, hs⟩
  · rw [hs]
    exact Dead_doomed _ _ h
  · rw [hs]
    exact stepEndValue_doomed m stk c h
  · rw [hs]
    exact pushFrame_doomed f m1 m stk hne
  · rw [hs]
    obtain ⟨m1, stk1, h1, h2⟩ := deliver_doomed v m stk h
    rw [h1]
    exact Dead_doomed _ _ h2
  · rw [hs]
    obtain ⟨m1, stk1, h1, h2⟩ := deliver_doomed v m stk h
    rw [h1]
    exact stepEndValue_doomed m1 stk1 c h2

/-- A number or a literal `true` or `false` being read: the scanner goes on
reading it, fails, or completes a value that is neither a string nor
`null`. -/
theorem step_scalar (m : Mode) (hm : scalarMode m = true) (stk : List Frame)
    (tp : Option JValue) (c : Nat) :
    (∃ m1, scalarMode m1 = true ∧ step ⟨m, stk, tp⟩ c = ⟨m1, stk, tp⟩) ∨
    step ⟨m, stk, tp⟩ c = ⟨.failed, stk, tp⟩ ∨
    (∃ v, (∀ k, memberOK true (k, v) = false) ∧ isGroupsValue v = false ∧
      (step ⟨m, stk, tp⟩ c = deliver v ⟨m, stk, tp⟩ ∨
       step ⟨m, stk, tp⟩ c = stepEndValue (deliver v ⟨m, stk, tp⟩) c)) := by
  cases m
  case word e v =>
    cases v with
    | bool b =>
      rcases e with _ | ⟨e0, more⟩
      · exact Or.inr (Or.inl rfl)
      · simp only [step]
        split_ifs
        · exact Or.inr (Or.inr ⟨.bool b, fun _ => rfl, rfl, Or.inl rfl⟩)
        · exact Or.inl ⟨_, by rfl, rfl⟩
        · exact Or.inr (Or.inl rfl)
    | _ => cases hm
  case neg lit =>
    simp only [step]
    split_ifs
    · exact Or.inl ⟨_, by rfl, rfl⟩
    · exact Or.inl ⟨_, by rfl, rfl⟩
    · exact Or.inr (Or.inl rfl)
  case zero lit =>
    simp only [step, endNumber]
    split_ifs
    · exact Or.inl ⟨_, by rfl, rfl⟩
    · exact Or.inl ⟨_, by rfl, rfl⟩
    · exact Or.inr (Or.inr ⟨.num lit, fun _ => rfl, rfl, Or.inr rfl⟩)
  case digits lit =>
    simp only [step, endNumber]
    split_ifs
    · exact Or.inl ⟨_, by rfl, rfl⟩
    · exact Or.inl ⟨_, by rfl, rfl⟩
    · exact Or.inl ⟨_, by rfl, rfl⟩
    · exact Or.inr (Or.inr ⟨.num lit, fun _ => rfl, rfl, Or.inr rfl⟩)
  case dot lit =>
    simp only [step]
    split_ifs
    · exact Or.inl ⟨_, by rfl, rfl⟩
    · exact Or.inr (Or.inl rfl)
  case dot0 lit =>
    simp only [step, endNumber]
    split_ifs
    · exact Or.inl ⟨_, by rfl, rfl⟩
    · exact Or.inl ⟨_, by rfl, rfl⟩
    · exact Or.inr (Or.inr ⟨.num lit, fun _ => rfl, rfl, Or.inr rfl⟩)
  case expo lit =>
    simp only [step]
    split_ifs
    · exact Or.inl ⟨_, by rfl, rfl⟩
    · exact Or.inl ⟨_, by rfl, rfl⟩
    · exact Or.inr (Or.inl rfl)
  case expoSign lit =>
    simp only [step]
    split_ifs
    · exact Or.inl ⟨_, by rfl, rfl⟩
    · exact Or.inr (Or.inl rfl)
  case expo0 lit =>
    simp only [step, endNumber]
    split_ifs
    · exact Or.inl ⟨_, by rfl, rfl⟩
    · exact Or.inr (Or.inr ⟨.num lit, fun _ => rfl, rfl, Or.inr rfl⟩)
  all_goals cases hm

/-- Inside a string literal the scanner goes on reading it, fails, or
completes a string. -/
theorem step_stringMode (m : Mode) (hm : stringMode m = true) (stk : List Frame)
    (tp : Option JValue) (c : Nat) :
    (∃ m1, stringMode m1 = true ∧ step ⟨m, stk, tp⟩ c = ⟨m1, stk, tp⟩) ∨
    step ⟨m, stk, tp⟩ c = ⟨.failed, stk, tp⟩ ∨
    (∃ s, step ⟨m, stk, tp⟩ c = deliver (.str s) ⟨m, stk, tp⟩) := by
  cases m
  case inString raw =>
    simp only [step]
    split_ifs
    · cases unquote raw with
      | none => exact Or.inr (Or.inl rfl)
      | some s => exact Or.inr (Or.inr ⟨s, rfl⟩)
    · exact Or.inl ⟨_, by rfl, rfl⟩
    · exact Or.inr (Or.inl rfl)
    · exact Or.inl ⟨_, by rfl, rfl⟩
  case inStringEsc raw =>
    simp only [step]
    split_ifs
    · exact Or.inl ⟨_, by rfl, rfl⟩
    · exact Or.inl ⟨_, by rfl, rfl⟩
    · exact Or.inr (Or.inl rfl)
  case inStringEscU raw n =>
    simp only [step]
    split_ifs
    · exact Or.inl ⟨_, by rfl, rfl⟩
    · exact Or.inl ⟨_, by rfl, rfl⟩
    · exact Or.inr (Or.inl rfl)
  all_goals cases hm

theorem stepEndValue_top (v : JValue) (c : Nat) (h : isGroupsValue v = false) :
    Dead (stepEndValue ⟨.endTop, [], some v⟩ c) := by
  simp only [stepEndValue]
  split_ifs
  · exact Dead_top v h
  · exact Dead_fail _

/-- No step leads out of the states from which no map of strings can come. -/
theorem step_dead (st : Scanner) (c : Nat) (h : Dead st) : Dead (step st c) := by
  rcases st with ⟨m, stk, tp⟩
  rcases h with h | ⟨h1, h2, v, h3, h4⟩ | ⟨h1, h2⟩ | ⟨h1, h2, ms, k, h3⟩ | ⟨h1, h2, h3⟩
  · simp only at h
    subst h
    exact Dead_failed stk tp
  · simp only at h1 h2 h3
    subst h1 h2 h3
    exact stepEndValue_top v c h4
  · simp only at h1 h2
    subst h1
    exact step_doomed m stk c h2
  · simp only at h1 h2 h3
    subst h1 h3
    rcases step_scalar m h2 [.obj ms (some k)] none c with ⟨m1, hm1, hs⟩ | hs |
      ⟨v, hv, _, hs | hs⟩
    · rw [hs]; exact Dead_scalarMember m1 ms k hm1
    · rw [hs]; exact Dead_failed _ _
    · rw [hs]; exact deliver_bad v m _ [] hv
    · rw [hs]
      have hd : deliver v ⟨m, [.obj ms (some k)], none⟩
          = ⟨.endValue, [.obj (ms ++ [(k, v)]) none], none⟩ := rfl
      rw [hd]
      apply stepEndValue_doomed
      show (!isGroupsValue (.obj (ms ++ [(k, v)]))) = true
      rw [isGroupsValue_append, hv k]
      simp
  · simp only at h1 h2 h3
    subst h1 h2
    have hcase : scalarMode m = true ∨ stringMode m = true := by
      simpa using h3
    rcases hcase with hm | hm
    · rcases step_scalar m hm [] none c with ⟨m1, hm1, hs⟩ | hs | ⟨v, _, hv, hs | hs⟩
      · rw [hs]; exact Dead_scalarTop m1 (by simp [hm1])
      · rw [hs]; exact Dead_failed _ _
      · rw [hs]; exact Dead_top v hv
      · rw [hs]; exact stepEndValue_top v c hv
    · rcases step_stringMode m hm [] none c with ⟨m1, hm1, hs⟩ | hs | ⟨s, hs⟩
      · rw [hs]; exact Dead_scalarTop m1 (by simp [hm1])
      · rw [hs]; exact Dead_failed _ _
      · rw [hs]; exact Dead_top (.str s) rfl

/-! ### The states on the way to a map of strings -/

theorem InString_body (m : Mode) (raw : Bytes) (hm : m = .inString raw) (h : IsStringBody raw) :
    InString m raw := by
  subst hm
  exact InString.body raw h

theorem InString_esc (m : Mode) (raw b : Bytes) (hm : m = .inStringEsc raw)
    (hraw : raw = b ++ [0x5C]) (h : IsStringBody b) : InString m raw := by
  subst hm hraw
  exact InString.esc b h

theorem InString_escU (m : Mode) (raw b hs : Bytes) (n : Nat) (hm : m = .inStringEscU raw n)
    (hraw : raw = b ++ [0x5C, 0x75] ++ hs) (hn : n = hs.length) (h : IsStringBody b)
    (hl : hs.length ≤ 3) (hh : ∀ x ∈ hs, IsHexDigit x) : InString m raw := by
  subst hm hraw hn
  exact InString.escU b hs h hl hh

/-- One byte inside a string literal: the scanner fails, goes on inside the
literal, or, at the closing quote of a string body, completes a string. -/
theorem step_inString (m : Mode) (raw : Bytes) (h : InString m raw) (stk : List Frame)
    (tp : Option JValue) (c : Nat) :
    step ⟨m, stk, tp⟩ c = ⟨.failed, stk, tp⟩ ∨
    (∃ m1, step ⟨m, stk, tp⟩ c = ⟨m1, stk, tp⟩ ∧ InString m1 (raw ++ [c])) ∨
    (c = 0x22 ∧ IsStringBody raw ∧ ∃ s, step ⟨m, stk, tp⟩ c = deliver (.str s) ⟨m, stk, tp⟩) := by
  cases h with
  | body raw hb =>
    simp only [step]
    by_cases h1 : c = 0x22
    · rw [if_pos h1]
      cases unquote raw with
      | none => exact Or.inl rfl
      | some s => exact Or.inr (Or.inr ⟨h1, hb, s, rfl⟩)
    rw [if_neg h1]
    by_cases h2 : c = 0x5C
    · rw [if_pos h2]
      subst h2
      exact Or.inr (Or.inl ⟨_, rfl, InString_esc _ _ raw rfl rfl hb⟩)
    rw [if_neg h2]
    by_cases h3 : c < 0x20
    · rw [if_pos h3]
      exact Or.inl rfl
    rw [if_neg h3]
    exact Or.inr (Or.inl ⟨_, rfl, InString.body _
      (IsStringBody_snoc raw [c] hb (IsStringItem.plain c (by omega) h1 h2))⟩)
  | esc b hb =>
    simp only [step]
    by_cases h1 : c = 0x62 ∨ c = 0x66 ∨ c = 0x6E ∨ c = 0x72 ∨ c = 0x74 ∨ c = 0x5C ∨ c = 0x2F ∨
        c = 0x22
    · rw [if_pos h1]
      refine Or.inr (Or.inl ⟨_, rfl, InString.body _ ?_⟩)
      rw [List.append_assoc]
      exact IsStringBody_snoc b [0x5C, c] hb (IsStringItem.escape c (by omega))
    rw [if_neg h1]
    by_cases h2 : c = 0x75
    · rw [if_pos h2]
      subst h2
      exact Or.inr (Or.inl ⟨_, rfl, InString_escU _ _ b [] 0 rfl (by simp) rfl hb (by simp)
        (fun _ hx => by cases hx)⟩)
    rw [if_neg h2]
    exact Or.inl rfl
  | escU b hs hb hl hh =>
    simp only [step]
    by_cases h1 : (hexVal c).isSome = true
    · rw [if_pos h1]
      have hc := isHexDigit_of_isSome c h1
      by_cases h2 : hs.length < 3
      · rw [if_pos h2]
        refine Or.inr (Or.inl ⟨_, rfl, InString_escU _ _ b (hs ++ [c]) _ rfl
          (by simp only [List.append_assoc]) (by simp) hb (by simp; omega) ?_⟩)
        intro x hx
        rcases List.mem_append.mp hx with hx | hx
        · exact hh x hx
        · rw [List.mem_singleton] at hx
          subst hx
          exact hc
      · rw [if_neg h2]
        refine Or.inr (Or.inl ⟨_, rfl, InString.body _ ?_⟩)
        have h3 : hs.length = 3 := by omega
        rcases hs with _ | ⟨x1, _ | ⟨x2, _ | ⟨x3, _ | ⟨x4, t⟩⟩⟩⟩ <;>
          simp only [List.length_cons, List.length_nil] at h3 <;> try omega
        have e : b ++ [0x5C, 0x75] ++ [x1, x2, x3] ++ [c] = b ++ [0x5C, 0x75, x1, x2, x3, c] := by
          simp only [List.append_assoc, List.cons_append, List.nil_append]
        rw [e]
        exact IsStringBody_snoc b _ hb (IsStringItem.unicode x1 x2 x3 c
          (hh x1 (by simp)) (hh x2 (by simp)) (hh x3 (by simp)) hc)
    · rw [if_neg h1]
      exact Or.inl rfl

/-- One byte inside the literal `null`: the scanner fails, goes on inside the
literal, or completes it. -/
theorem step_inNull (e pre : Bytes) (h : InNull e pre) (stk : List Frame) (tp : Option JValue)
    (c : Nat) :
    step ⟨.word e .null, stk, tp⟩ c = ⟨.failed, stk, tp⟩ ∨
    (∃ more, step ⟨.word e .null, stk, tp⟩ c = ⟨.word more .null, stk, tp⟩ ∧
      InNull more (pre ++ [c])) ∨
    (pre ++ [c] = ascii "null" ∧
      step ⟨.word e .null, stk, tp⟩ c = deliver .null ⟨.word e .null, stk, tp⟩) := by
  obtain ⟨h1, h2, h3⟩ := h
  rcases e with _ | ⟨e0, more⟩
  · exact absurd rfl h3
  simp only [step]
  by_cases hc : c = e0
  · subst hc
    rw [if_pos rfl]
    rcases more with _ | ⟨e1, more⟩
    · exact Or.inr (Or.inr ⟨h1, rfl⟩)
    · refine Or.inr (Or.inl ⟨e1 :: more, rfl, ?_, by simp, by simp⟩)
      rw [List.append_assoc]
      exact h1
  · rw [if_neg hc]
    exact Or.inl rfl

theorem GroupsText_object (w0 t : Bytes) (hw0 : IsWs w0) (ht : IsObjectText true t) :
    GroupsText (w0 ++ t) :=
  ⟨w0, t, [], hw0, Or.inr ht, IsWs_nil, by simp⟩

/-- One step of the scanner from a state on the way to a map of strings leads
to another such state, with the byte added to the text read, or to a state
from which no map of strings can come. -/
theorem step_flat (st : Scanner) (p : Bytes) (c : Nat) (h : Flat st p) :
    Flat (step st c) (p ++ [c]) ∨ Dead (step st c) := by
  cases h with
  | start p hp =>
    have hs : step ⟨.beginValue, [], none⟩ c = stepBeginValue ⟨.beginValue, [], none⟩ c := rfl
    rw [hs]
    rcases stepBeginValue_cases ⟨.beginValue, [], none⟩ c with ⟨hc, h⟩ | ⟨hc, h⟩ | ⟨hc, h⟩ |
      ⟨hc, h⟩ | ⟨hc, h⟩ | ⟨m1, hm, h⟩ | h
    · rw [h]; exact Or.inl (Flat.start _ (IsWs_snoc p c hp hc))
    · rw [h]; subst hc
      exact Or.inl (Flat.opened _ ⟨p, [], hp, IsWs_nil, by simp⟩)
    · rw [h]
      exact Or.inr (Dead_doomed .beginValueOrEmpty [.arr []] rfl)
    · rw [h]; exact Or.inr (Dead_scalarTop _ rfl)
    · rw [h]; subst hc
      exact Or.inl (Flat.topNull p [0x6E] (ascii "ull") hp ⟨rfl, by simp, by decide⟩)
    · rw [h]; exact Or.inr (Dead_scalarTop m1 (by simp [hm]))
    · rw [h]; exact Or.inr (Dead_fail _)
  | topNull w pre e hw hn =>
    rcases step_inNull e pre hn [] none c with hs | ⟨more, hs, hm⟩ | ⟨ht, hs⟩
    · rw [hs]; exact Or.inr (Dead_failed _ _)
    · rw [hs, List.append_assoc]
      exact Or.inl (Flat.topNull w _ more hw hm)
    · rw [hs, List.append_assoc, ht]
      exact Or.inl (Flat.done .null _ rfl ⟨w, ascii "null", [], hw, Or.inl rfl, IsWs_nil, by simp⟩)
  | done v p hv hp =>
    have hs : step ⟨.endTop, [], some v⟩ c = stepEndValue ⟨.endTop, [], some v⟩ c := rfl
    rw [hs]
    simp only [stepEndValue]
    by_cases hc : isSpaceByte c = true
    · rw [if_pos hc]
      exact Or.inl (Flat.done v _ hv (GroupsText_snoc_ws p c hp hc))
    · rw [if_neg hc]
      exact Or.inr (Dead_fail _)
  | opened p hp =>
    simp only [step]
    by_cases hc : isSpaceByte c = true
    · rw [if_pos hc]
      exact Or.inl (Flat.opened _ (KeyFirst_snoc_ws p c hp hc))
    rw [if_neg hc]
    by_cases h1 : c = 0x7D
    · rw [if_pos h1]
      subst h1
      obtain ⟨w0, w, hw0, hw, rfl⟩ := hp
      have hs : stepEndValue ⟨.beginStringOrEmpty, [.obj [] none], none⟩ 0x7D
          = ⟨.endTop, [], some (.obj [])⟩ := by
        simp [stepEndValue, isSpaceByte, deliver]
      rw [hs]
      refine Or.inl (Flat.done _ _ rfl ?_)
      have := GroupsText_object w0 ([0x7B] ++ w ++ [0x7D]) hw0 (Or.inl ⟨w, hw, rfl⟩)
      simpa only [List.append_assoc] using this
    rw [if_neg h1]
    rcases stepBeginString_cases ⟨.beginStringOrEmpty, [.obj [] none], none⟩ c with ⟨h2, _⟩ |
      ⟨h2, hs⟩ | hs
    · exact absurd h2 hc
    · rw [hs]
      subst h2
      have := Flat.inKey [] (.inString []) p [] rfl (Or.inl hp) (InString.body [] IsStringBody.empty)
      rw [List.append_nil] at this
      exact Or.inl this
    · rw [hs]; exact Or.inr (Dead_fail _)
  | comma ms p hms hp =>
    have hs0 : step ⟨.beginString, [.obj ms none], none⟩ c
        = stepBeginString ⟨.beginString, [.obj ms none], none⟩ c := rfl
    rw [hs0]
    rcases stepBeginString_cases ⟨.beginString, [.obj ms none], none⟩ c with ⟨h2, hs⟩ |
      ⟨h2, hs⟩ | hs
    · rw [hs]
      exact Or.inl (Flat.comma ms _ hms (KeyMore_snoc_ws p c hp h2))
    · rw [hs]
      subst h2
      have := Flat.inKey ms (.inString []) p [] hms (Or.inr hp)
        (InString.body [] IsStringBody.empty)
      rw [List.append_nil] at this
      exact Or.inl this
    · rw [hs]; exact Or.inr (Dead_fail _)
  | inKey ms m q raw hms hq hin =>
    rcases step_inString m raw hin [.obj ms none] none c with hs | ⟨m1, hs, hm1⟩ |
      ⟨hc, hb, s, hs⟩
    · rw [hs]; exact Or.inr (Dead_failed _ _)
    · rw [hs, List.append_assoc]
      exact Or.inl (Flat.inKey ms m1 q _ hms hq hm1)
    · rw [hs]
      subst hc
      have hd : deliver (.str s) ⟨m, [.obj ms none], none⟩
          = ⟨.endValue, [.obj ms (some s)], none⟩ := rfl
      rw [hd]
      exact Or.inl (Flat.afterKey ms s _ hms
        ⟨q, [0x22] ++ raw ++ [0x22], [], hq, ⟨raw, hb, rfl⟩, IsWs_nil, by
          simp only [List.append_assoc, List.append_nil]⟩)
  | afterKey ms k p hms hp =>
    have hs0 : step ⟨.endValue, [.obj ms (some k)], none⟩ c
        = stepEndValue ⟨.endValue, [.obj ms (some k)], none⟩ c := rfl
    rw [hs0]
    simp only [stepEndValue]
    by_cases hc : isSpaceByte c = true
    · rw [if_pos hc]
      exact Or.inl (Flat.afterKey ms k _ hms (AfterKey_snoc_ws p c hp hc))
    rw [if_neg hc]
    by_cases h1 : c = 0x3A
    · rw [if_pos h1]
      subst h1
      exact Or.inl (Flat.colon ms k _ hms ⟨p, [], hp, IsWs_nil, by simp⟩)
    rw [if_neg h1]
    exact Or.inr (Dead_fail _)
  | colon ms k p hms hp =>
    have hs0 : step ⟨.beginValue, [.obj ms (some k)], none⟩ c
        = stepBeginValue ⟨.beginValue, [.obj ms (some k)], none⟩ c := rfl
    rw [hs0]
    rcases stepBeginValue_cases ⟨.beginValue, [.obj ms (some k)], none⟩ c with ⟨hc, h⟩ |
      ⟨hc, h⟩ | ⟨hc, h⟩ | ⟨hc, h⟩ | ⟨hc, h⟩ | ⟨m1, hm, h⟩ | h
    · rw [h]; exact Or.inl (Flat.colon ms k _ hms (ValPos_snoc_ws p c hp hc))
    · rw [h]; exact Or.inr (pushFrame_doomed _ _ _ _ (by simp))
    · rw [h]; exact Or.inr (pushFrame_doomed _ _ _ _ (by simp))
    · rw [h]; subst hc
      have := Flat.inVal ms k (.inString []) p [] hms hp (InString.body [] IsStringBody.empty)
      rw [List.append_nil] at this
      exact Or.inl this
    · rw [h]; subst hc
      exact Or.inl (Flat.valNull ms k p [0x6E] (ascii "ull") hms hp ⟨rfl, by simp, by decide⟩)
    · rw [h]; exact Or.inr (Dead_scalarMember m1 ms k hm)
    · rw [h]; exact Or.inr (Dead_fail _)
  | inVal ms k m q raw hms hq hin =>
    rcases step_inString m raw hin [.obj ms (some k)] none c with hs | ⟨m1, hs, hm1⟩ |
      ⟨hc, hb, s, hs⟩
    · rw [hs]; exact Or.inr (Dead_failed _ _)
    · rw [hs, List.append_assoc]
      exact Or.inl (Flat.inVal ms k m1 q _ hms hq hm1)
    · rw [hs]
      subst hc
      have hd : deliver (.str s) ⟨m, [.obj ms (some k)], none⟩
          = ⟨.endValue, [.obj (ms ++ [(k, .str s)]) none], none⟩ := rfl
      rw [hd]
      refine Or.inl (Flat.member _ _ (by rw [isGroupsValue_append, hms]; rfl) ?_)
      have := AfterMember_of_value q ([0x22] ++ raw ++ [0x22]) hq (Or.inl ⟨raw, hb, rfl⟩)
      simpa only [List.append_assoc] using this
  | valNull ms k q pre e hms hq hn =>
    rcases step_inNull e pre hn [.obj ms (some k)] none c with hs | ⟨more, hs, hm⟩ | ⟨ht, hs⟩
    · rw [hs]; exact Or.inr (Dead_failed _ _)
    · rw [hs, List.append_assoc]
      exact Or.inl (Flat.valNull ms k q _ more hms hq hm)
    · rw [hs, List.append_assoc, ht]
      have hd : deliver .null ⟨.word e .null, [.obj ms (some k)], none⟩
          = ⟨.endValue, [.obj (ms ++ [(k, .null)]) none], none⟩ := rfl
      rw [hd]
      exact Or.inl (Flat.member _ _ (by rw [isGroupsValue_append, hms]; rfl)
        (AfterMember_of_value q (ascii "null") hq (Or.inr ⟨rfl, rfl⟩)))
  | member ms p hms hp =>
    have hs0 : step ⟨.endValue, [.obj ms none], none⟩ c
        = stepEndValue ⟨.endValue, [.obj ms none], none⟩ c := rfl
    rw [hs0]
    simp only [stepEndValue]
    by_cases hc : isSpaceByte c = true
    · rw [if_pos hc]
      exact Or.inl (Flat.member ms _ hms (AfterMember_snoc_ws p c hp hc))
    rw [if_neg hc]
    by_cases h1 : c = 0x2C
    · rw [if_pos h1]
      subst h1
      obtain ⟨w0, M, hw0, hM, rfl⟩ := hp
      exact Or.inl (Flat.comma ms _ hms ⟨w0, M, [], hw0, hM, IsWs_nil, by simp⟩)
    rw [if_neg h1]
    by_cases h2 : c = 0x7D
    · rw [if_pos h2]
      subst h2
      obtain ⟨w0, M, hw0, hM, rfl⟩ := hp
      have hd : deliver (.obj ms) ⟨.endValue, [], none⟩ = ⟨.endTop, [], some (.obj ms)⟩ := rfl
      refine Or.inl ?_
      show Flat (deliver (.obj ms) ⟨.endValue, [], none⟩) _
      rw [hd]
      refine Flat.done _ _ hms ?_
      have := GroupsText_object w0 ([0x7B] ++ M ++ [0x7D]) hw0 (Or.inr ⟨M, hM, rfl⟩)
      simpa only [List.append_assoc] using this
    rw [if_neg h2]
    exact Or.inr (Dead_fail _)

/-- Whatever text the scanner has read from its initial state, it is on the
way to a map of strings, with that text described by the grammar, or no map
of strings can come any more. -/
theorem scan_flat_or_dead (p : Bytes) :
    Flat (scan .initial p) p ∨ Dead (scan .initial p) := by
  induction p using List.reverseRecOn with
  | nil => exact Or.inl (Flat.start [] IsWs_nil)
  | append_singleton p c ih =>
    rw [scan_append, scan_cons, scan_nil]
    rcases ih with h | h
    · exact step_flat _ p c h
    · exact Or.inr (step_dead _ c h)

theorem GroupsText_of_snoc_space (data : Bytes) (h : GroupsText (data ++ [0x20])) :
    GroupsText data := by
  obtain ⟨w1, t, w2, hw1, ht, hw2, he⟩ := h
  rcases List.eq_nil_or_concat w2 with rfl | ⟨L, b, rfl⟩
  · exfalso
    rw [List.append_nil] at he
    rcases ht with rfl | ⟨w, _, rfl⟩ | ⟨M, _, rfl⟩
    · have e : w1 ++ ascii "null" = (w1 ++ ascii "nul") ++ [0x6C] := by
        simp [ascii]
      rw [e] at he
      have := (List.append_inj' he rfl).2
      simp at this
    · have e : w1 ++ ([0x7B] ++ w ++ [0x7D]) = (w1 ++ [0x7B] ++ w) ++ [0x7D] := by
        simp only [List.append_assoc]
      rw [e] at he
      have := (List.append_inj' he rfl).2
      simp at this
    · have e : w1 ++ ([0x7B] ++ M ++ [0x7D]) = (w1 ++ [0x7B] ++ M) ++ [0x7D] := by
        simp only [List.append_assoc]
      rw [e] at he
      have := (List.append_inj' he rfl).2
      simp at this
  · rw [List.concat_eq_append, ← List.append_assoc] at he
    have h1 := (List.append_inj' he rfl).1
    refine ⟨w1, t, L, hw1, ht, ?_, h1⟩
    intro x hx
    exact hw2 x (by rw [List.concat_eq_append]; exact List.mem_append_left _ hx)

/-- Soundness of the reader for the grammar: a text that `json.Unmarshal`
reads as `null` or as an object with strings and `null` as member values is a
text of the grammar. -/
theorem groupsText_of_reads (data : Bytes) (v : JValue) (h : parseJSON data = .ok v)
    (hv : isGroupsValue v = true) : GroupsText data := by
  apply GroupsText_of_snoc_space
  have hinv := scan_flat_or_dead (data ++ [0x20])
  rw [scan_append, scan_cons, scan_nil] at hinv
  unfold parseJSON at h
  generalize step (scan .initial data) 0x20 = st at h hinv
  rcases st with ⟨m, stk, tp⟩
  simp only at h
  have hm : m = .endTop ∧ tp = some v := by
    cases m <;> cases tp <;> simp at h ⊢
    exact h
  obtain ⟨rfl, rfl⟩ := hm
  rcases hinv with hf | hd
  · cases hf with
    | done v1 p hv1 hp => exact hp
  · rcases hd with hd | ⟨_, _, v1, h3, h4⟩ | ⟨h1, _⟩ | ⟨h1, _⟩ | ⟨h1, _⟩
    · cases hd
    · simp only [Option.some.injEq] at h3
      subst h3
      rw [hv] at h4
      cases h4
    · cases h1
    · cases h1
    · cases h1

/-- The reader accepts exactly the texts of the grammar: `json.Unmarshal` into
a `map[string]string` fails on `data` if and only if `data` is not well-formed
JSON for `null` or for an object whose member values are strings or `null`. -/
theorem unmarshalGroups_error_iff (data : Bytes) :
    (∃ e, unmarshalGroups data = .error e) ↔ ¬ GroupsText data := by
  unfold unmarshalGroups
  constructor
  · rintro ⟨e, he⟩ hg
    obtain ⟨v, hp, hv⟩ := groupsText_reads data hg
    rw [hp] at he
    have := (decodeGroups_error_iff v).1 ⟨e, he⟩
    rw [hv] at this
    cases this
  · intro hg
    cases hp : parseJSON data with
    | error e => exact ⟨e, rfl⟩
    | ok v =>
      simp only
      apply (decodeGroups_error_iff v).2
      cases hv : isGroupsValue v with
      | false => rfl
      | true => exact absurd (groupsText_of_reads data v hp hv) hg

/-- The grammar and the reader agree: a text is well-formed JSON for `null` or
for an object with strings and `null` as member values exactly when
`json.Unmarshal` reads it as such a value. -/
theorem groupsText_iff_reads (data : Bytes) : GroupsText data ↔ readsGroups data = true := by
  unfold readsGroups
  constructor
  · intro h
    obtain ⟨v, hp, hv⟩ := groupsText_reads data h
    rw [hp]
    exact hv
  · intro h
    cases hp : parseJSON data with
    | error e => rw [hp] at h; cases h
    | ok v =>
      rw [hp] at h
      exact groupsText_of_reads data v hp h

/-- A well-formed text for a string-to-string object is read as one. -/
theorem stringObjectText_readsStringObject (data : Bytes) (h : StringObjectText data) :
    readsStringObject data = true := by
  obtain ⟨v, hp, hv⟩ := stringObjectText_reads data h
  unfold readsStringObject
  rw [hp]
  exact hv

theorem encodeRunes_ws (w : Bytes) (hw : IsWs w) :
    encodeRunes w = w ∧ ∀ r ∈ w, isSpaceRune r = true := by
  induction w with
  | nil => exact ⟨rfl, fun _ h => by cases h⟩
  | cons c w ih =>
    obtain ⟨h1, h2⟩ := ih (fun x hx => hw x (List.mem_cons_of_mem _ hx))
    have hc := hw c (List.mem_cons_self _ _)
    have he : encodeRune c = [c] := by
      rcases hc with h | h | h | h <;> subst h <;> rfl
    have hs : isSpaceRune c = true := by
      rcases hc with h | h | h | h <;> subst h <;> rfl
    refine ⟨by simp only [encodeRunes, he, h1, List.singleton_append], ?_⟩
    intro r hr
    rcases List.mem_cons.mp hr with h | h
    · subst h; exact hs
    · exact h2 r h

/-- Trimming white space from a text of the grammar leaves a text of the
grammar: the value without the white space around it. -/
theorem groupsText_trimSpace (data : Bytes) (h : GroupsText data) :
    GroupsText (trimSpace data) := by
  obtain ⟨w1, t, w2, hw1, ht, hw2, rfl⟩ := h
  obtain ⟨e1, s1⟩ := encodeRunes_ws w1 hw1
  obtain ⟨e2, s2⟩ := encodeRunes_ws w2 hw2
  have htt : TrimmedText t := by
    rcases ht with rfl | ⟨w, _, rfl⟩ | ⟨M, _, rfl⟩
    · exact Or.inr ⟨0x6E, 0x6C, ascii "nul", ascii "ull", by decide, by decide, by decide,
        by decide, by decide, by decide⟩
    · exact Or.inr ⟨0x7B, 0x7D, [0x7B] ++ w, w ++ [0x7D], by decide, by decide, by decide,
        by decide, by
          have : encodeRune 0x7B = [0x7B] := by decide
          rw [this, List.append_assoc], by
          have : encodeRune 0x7D = [0x7D] := by decide
          rw [this]⟩
    · exact Or.inr ⟨0x7B, 0x7D, [0x7B] ++ M, M ++ [0x7D], by decide, by decide, by decide,
        by decide, by
          have : encodeRune 0x7B = [0x7B] := by decide
          rw [this, List.append_assoc], by
          have : encodeRune 0x7D = [0x7D] := by decide
          rw [this]⟩
  have hcore := trimSpace_core w1 w2 t s1 s2 htt
  rw [e1, e2] at hcore
  rw [hcore]
  exact ⟨[], t, [], IsWs_nil, ht, IsWs_nil, by simp⟩

/-- C5, as amended. For a groups file whose trimmed content is not empty: if
the trimmed content is not well-formed JSON for `null` or for an object whose
member values are all strings or `null`, `GetAdapterGroups` returns the error
of the JSON decoder, a serialization error and neither an input/output nor a
configuration error, and no map; so it does whenever the content of the file
as it stands is not such JSON; and when the content is such JSON it returns a
map and no error. -/
theorem C5_malformed_groups_file (pf : Platform) (w : World) (data : Bytes)
    (hroot : w.env "APPDATA" ≠ "") (hdir : w.fs.mkdirFault (configDir pf w) = none)
    (hread : w.fs.read (groupsPath pf w) = .ok data) (htrim : trimSpace data ≠ []) :
    (¬ GroupsText (trimSpace data) →
      ∃ e, unmarshalGroups data = .error e ∧
        (GetAdapterGroups pf w).1 = .error (.json e) ∧
        (GoError.json e).classify = .serialization ∧
        (GoError.json e).classify ≠ .inputOutput ∧
        (GoError.json e).classify ≠ .configuration) ∧
    (¬ GroupsText data →
      ∃ e, unmarshalGroups data = .error e ∧
        (GetAdapterGroups pf w).1 = .error (.json e) ∧
        (GoError.json e).classify = .serialization) ∧
    (GroupsText data → ∃ m, (GetAdapterGroups pf w).1 = .ok m) := by
  have hlen : ¬ (trimSpace data).length = 0 := by
    intro h; exact htrim (List.length_eq_zero.mp h)
  rw [GetAdapterGroups_result pf w hroot hdir]
  simp only [hread, hlen, if_false]
  have hmain : ¬ GroupsText data →
      ∃ e, unmarshalGroups data = .error e ∧
        (match unmarshalGroups data with
          | .error err => (Except.error (GoError.json err) : Except GoError GoMap)
          | .ok groups => if groups = GoMap.nil then Except.ok (GoMap.mk []) else Except.ok groups)
          = .error (.json e) := by
    intro hwf
    obtain ⟨e, he⟩ := (unmarshalGroups_error_iff data).2 hwf
    exact ⟨e, he, by rw [he]⟩
  refine ⟨?_, ?_, ?_⟩
  · intro hwf
    obtain ⟨e, he, hg⟩ := hmain (fun hg => hwf (groupsText_trimSpace data hg))
    exact ⟨e, he, hg, rfl, by simp [GoError.classify], by simp [GoError.classify]⟩
  · intro hwf
    obtain ⟨e, he, hg⟩ := hmain hwf
    exact ⟨e, he, hg, rfl⟩
  · intro hwf
    cases hu : unmarshalGroups data with
    | error e => exact absurd hwf ((unmarshalGroups_error_iff data).1 ⟨e, hu⟩)
    | ok groups =>
      simp only
      split
      · exact ⟨_, rfl⟩
      · exact ⟨_, rfl⟩

/-- Witness for C5: a groups file holding a well-formed object followed by
other text, `{"a":"b"} garbage`, is no text of the grammar and
`GetAdapterGroups` returns the syntax error of the decoder; a groups file
with a number as member value, `{"AA:BB": 7}`, is none either and
`GetAdapterGroups` returns the type error of the decoder. -/
theorem C5_malformed_groups_file_witness :
    (¬ GroupsText (trimSpace (ascii "\x7b\"a\":\"b\"\x7d garbage")) ∧
      (GetAdapterGroups samplePlatform
        (sampleWorld [(sampleGroupsFile, ascii "\x7b\"a\":\"b\"\x7d garbage")]
          (.error .connectionRefused))).1 = .error (.json .malformed)) ∧
    (¬ GroupsText (trimSpace (ascii "\x7b\"AA:BB\": 7\x7d")) ∧
      (GetAdapterGroups samplePlatform
        (sampleWorld [(sampleGroupsFile, ascii "\x7b\"AA:BB\": 7\x7d")]
          (.error .connectionRefused))).1 = .error (.json .typeMismatch)) := by
  have h1 : ¬ GroupsText (trimSpace (ascii "\x7b\"a\":\"b\"\x7d garbage")) := fun hg =>
    absurd ((groupsText_iff_reads _).1 hg) (by decide)
  have h2 : ¬ GroupsText (trimSpace (ascii "\x7b\"AA:BB\": 7\x7d")) := fun hg =>
    absurd ((groupsText_iff_reads _).1 hg) (by decide)
  refine ⟨⟨h1, ?_⟩, ⟨h2, ?_⟩⟩
  · obtain ⟨e, he, hg, _⟩ := (C5_malformed_groups_file samplePlatform
      (sampleWorld [(sampleGroupsFile, ascii "\x7b\"a\":\"b\"\x7d garbage")]
        (.error .connectionRefused))
      (ascii "\x7b\"a\":\"b\"\x7d garbage") (by decide) (by decide) (by decide) (by decide)).1 h1
    have hu : unmarshalGroups (ascii "\x7b\"a\":\"b\"\x7d garbage") = .error .malformed := by
      decide
    rw [hu] at he
    injection he with he
    rw [hg, he]
  · obtain ⟨e, he, hg, _⟩ := (C5_malformed_groups_file samplePlatform
      (sampleWorld [(sampleGroupsFile, ascii "\x7b\"AA:BB\": 7\x7d")]
        (.error .connectionRefused))
      (ascii "\x7b\"AA:BB\": 7\x7d") (by decide) (by decide) (by decide) (by decide)).1 h2
    have hu : unmarshalGroups (ascii "\x7b\"AA:BB\": 7\x7d") = .error .typeMismatch := by
      decide
    rw [hu] at he
    injection he with he
    rw [hg, he]

/-- Counterexample to C5 as stated: a groups file holding the JSON literal
`null` is not empty after trimming and is not well-formed JSON for a
string-to-string object, yet `GetAdapterGroups` returns the empty map and no
error; so it does, with the name mapped to the empty string, for an object
with a `null` member value. -/
theorem C5_counterexample :
    trimSpace (ascii "null") ≠ [] ∧
    ¬ StringObjectText (trimSpace (ascii "null")) ∧
    (GetAdapterGroups samplePlatform
      (sampleWorld [(sampleGroupsFile, ascii "null")] (.error .connectionRefused))).1
      = .ok (.mk []) ∧
    trimSpace (ascii "\x7b\"AA:BB\": null\x7d") ≠ [] ∧
    ¬ StringObjectText (trimSpace (ascii "\x7b\"AA:BB\": null\x7d")) ∧
    (GetAdapterGroups samplePlatform
      (sampleWorld [(sampleGroupsFile, ascii "\x7b\"AA:BB\": null\x7d")] (.error .connectionRefused))).1
      = .ok (.mk [(ascii "AA:BB", [])]) :=
  ⟨by decide,
   fun h => absurd (stringObjectText_readsStringObject _ h) (by decide),
   by decide,
   by decide,
   fun h => absurd (stringObjectText_readsStringObject _ h) (by decide),
   by decide⟩

end NetworkCloud
